import Mathlib

/-
  Verification development for the hive chess-engine core.

  The Board value type, make_move, make_null_move, is_valid, legality,
  FEN parsing/printing, the Position move stack with draw detection, the
  Histories tables and the staged MoveOrder cursor are translated from
  src/position.cpp and src/move_order.cpp.  Components whose sources are
  not part of the repository snapshot (bitboard primitives, the move
  encoding, Zobrist constants, piece values and piece-square tables, the
  templated per-piece legality helpers, update_checkers and the
  pseudo-legal move generator) are modelled from the specification; each
  such definition is marked in its doc comment.
-/

set_option maxRecDepth 100000
set_option maxHeartbeats 4000000

/-- Modelled from the spec: Turn is WHITE or BLACK. -/
inductive Turn
  | WHITE
  | BLACK
deriving DecidableEq, Repr, Fintype

open Turn

/-- Modelled from the spec: the operator flipping the side to move. -/
def flipTurn : Turn → Turn
  | WHITE => BLACK
  | BLACK => WHITE

/-- Numeric value of a Turn (WHITE = 0, BLACK = 1), as used by
the C++ arithmetic on the full-move clock. -/
def turnVal : Turn → Nat
  | WHITE => 0
  | BLACK => 1

/-- Modelled from the spec: turn_to_color, +1 for white and -1 for black. -/
def turn_to_color : Turn → Int
  | WHITE => 1
  | BLACK => -1

/-- Modelled from the spec: the six piece types. -/
inductive PieceType
  | PAWN
  | KNIGHT
  | BISHOP
  | ROOK
  | QUEEN
  | KING
deriving DecidableEq, Repr, Fintype

open PieceType

def ptIdx : PieceType → Nat
  | PAWN => 0
  | KNIGHT => 1
  | BISHOP => 2
  | ROOK => 3
  | QUEEN => 4
  | KING => 5

/-- Modelled from the spec: the two castling sides. -/
inductive CastleSide
  | KINGSIDE
  | QUEENSIDE
deriving DecidableEq, Repr, Fintype

open CastleSide

def csIdx : CastleSide → Nat
  | KINGSIDE => 0
  | QUEENSIDE => 1

/-- Modelled from the spec: the sixteen move-type flag patterns of the
packed move encoding, two of them reserved invalid codes. -/
inductive MoveType
  | QUIET
  | DOUBLE_PAWN_PUSH
  | KINGSIDE_CASTLE
  | QUEENSIDE_CASTLE
  | CAPTURE
  | EP_CAPTURE
  | INVALID_1
  | INVALID_2
  | KNIGHT_PROMO
  | BISHOP_PROMO
  | ROOK_PROMO
  | QUEEN_PROMO
  | KNIGHT_PROMO_CAPTURE
  | BISHOP_PROMO_CAPTURE
  | ROOK_PROMO_CAPTURE
  | QUEEN_PROMO_CAPTURE
deriving DecidableEq, Repr, Fintype

open MoveType

/-- Modelled from the spec: a move packs an origin square, a destination
square and a move-type flag pattern. -/
structure Move where
  fromSq : Int
  toSq : Int
  mtype : MoveType
deriving DecidableEq, Repr

/-- Modelled from the spec: the distinguished null move. -/
def MOVE_NULL : Move := ⟨0, 0, QUIET⟩

instance : Inhabited Move := ⟨MOVE_NULL⟩

def Move.move_type (m : Move) : MoveType := m.mtype

/-- Modelled from the spec: is_capture holds for plain captures,
en-passant captures and the four promotion-captures. -/
def Move.is_capture (m : Move) : Bool :=
  match m.mtype with
  | CAPTURE | EP_CAPTURE
  | KNIGHT_PROMO_CAPTURE | BISHOP_PROMO_CAPTURE
  | ROOK_PROMO_CAPTURE | QUEEN_PROMO_CAPTURE => true
  | _ => false

def Move.is_ep_capture (m : Move) : Bool := m.mtype = EP_CAPTURE

def Move.is_double_pawn_push (m : Move) : Bool := m.mtype = DOUBLE_PAWN_PUSH

def Move.is_castle (m : Move) : Bool :=
  match m.mtype with
  | KINGSIDE_CASTLE | QUEENSIDE_CASTLE => true
  | _ => false

/-- Modelled from the spec: is_promotion holds for the four promotion
codes and the four promotion-with-capture codes. -/
def Move.is_promotion (m : Move) : Bool :=
  match m.mtype with
  | KNIGHT_PROMO | BISHOP_PROMO | ROOK_PROMO | QUEEN_PROMO
  | KNIGHT_PROMO_CAPTURE | BISHOP_PROMO_CAPTURE
  | ROOK_PROMO_CAPTURE | QUEEN_PROMO_CAPTURE => true
  | _ => false

/-- Modelled from the spec: the promoted piece type encoded in a
promotion move. -/
def Move.promo_piece (m : Move) : PieceType :=
  match m.mtype with
  | KNIGHT_PROMO | KNIGHT_PROMO_CAPTURE => KNIGHT
  | BISHOP_PROMO | BISHOP_PROMO_CAPTURE => BISHOP
  | ROOK_PROMO | ROOK_PROMO_CAPTURE => ROOK
  | QUEEN_PROMO | QUEEN_PROMO_CAPTURE => QUEEN
  | _ => KNIGHT

/-- Modelled from the spec: a bitboard is a 64-bit set of squares. -/
abbrev Bitboard := Fin 64 → Bool

def emptyBB : Bitboard := fun _ => false

/-- Modelled from the spec: square sentinel distinguishable from 0..63. -/
def SQUARE_NULL : Int := 64

def SQUARE_A1 : Int := 0
def SQUARE_H1 : Int := 7
def SQUARE_A8 : Int := 56
def SQUARE_H8 : Int := 63
def NUM_SQUARES : Nat := 64

/-- Modelled from the spec: file of a square (sq mod 8). -/
def fileOfSq (s : Int) : Int := s.emod 8

/-- Modelled from the spec: rank of a square (sq div 8). -/
def rankOfSq (s : Int) : Int := s.ediv 8

/-- Modelled from the spec: square from rank and file. -/
def make_square (r f : Int) : Int := 8 * r + f

/-- Bit test, false outside the board. -/
def bbTest (bb : Bitboard) (s : Int) : Bool :=
  if h : 0 ≤ s ∧ s < 64 then bb ⟨s.toNat, by omega⟩ else false

/-- Set a bit; no-op outside the board. -/
def bbSetAt (bb : Bitboard) (s : Int) : Bitboard :=
  if h : 0 ≤ s ∧ s < 64 then
    fun s' => if s'.val = s.toNat then true else bb s'
  else bb

/-- Clear a bit; no-op outside the board. -/
def bbClearAt (bb : Bitboard) (s : Int) : Bitboard :=
  if h : 0 ≤ s ∧ s < 64 then
    fun s' => if s'.val = s.toNat then false else bb s'
  else bb

/-- Bitboard truthiness: some bit is set. -/
def bbAny (bb : Bitboard) : Bool := (List.finRange 64).any bb

/-- Popcount. -/
def bbCount (bb : Bitboard) : Nat := ((List.finRange 64).filter (fun s => bb s)).length

/-- Lowest set bit index, 64 when empty. -/
def bitscan (bb : Bitboard) : Int :=
  match (List.finRange 64).find? (fun s => bb s) with
  | some s => (s.val : Int)
  | none => 64

def bbAnd (a b : Bitboard) : Bitboard := fun s => a s && b s

def bbOrr (a b : Bitboard) : Bitboard := fun s => a s || b s

def bbEqb (a b : Bitboard) : Bool := (List.finRange 64).all (fun s => a s == b s)

/-- Modelled from the spec: the pawn push direction, +8 for white. -/
def pawnDir : Turn → Int
  | WHITE => 8
  | BLACK => -8

/-- Modelled from the spec: squares of side t pawns that attack square sq
(the pawn sits one rank behind sq, one file aside). -/
def pawnAttackersOf (t : Turn) (sq : Int) : Bitboard :=
  fun s' =>
    decide (rankOfSq sq = rankOfSq (s'.val : Int) + rankOfSq (pawnDir t) ∧
      (fileOfSq sq = fileOfSq (s'.val : Int) + 1 ∨ fileOfSq (s'.val : Int) = fileOfSq sq + 1))

/-- A side t pawn on square s attacks square s'. -/
def pawnAttacks (t : Turn) (s : Int) (s' : Int) : Bool :=
  if h : 0 ≤ s ∧ s < 64 then pawnAttackersOf t s' ⟨s.toNat, by omega⟩ else false

/-- Modelled from the spec: knight attack set of a square. -/
def knightAttackBB (sq : Int) : Bitboard :=
  fun s' =>
    let df := (fileOfSq sq - fileOfSq (s'.val : Int)).natAbs
    let dr := (rankOfSq sq - rankOfSq (s'.val : Int)).natAbs
    decide ((df = 1 ∧ dr = 2) ∨ (df = 2 ∧ dr = 1))

/-- Modelled from the spec: king attack set of a square. -/
def kingAttackBB (sq : Int) : Bitboard :=
  fun s' =>
    let df := (fileOfSq sq - fileOfSq (s'.val : Int)).natAbs
    let dr := (rankOfSq sq - rankOfSq (s'.val : Int)).natAbs
    decide (df ≤ 1 ∧ dr ≤ 1 ∧ (df ≠ 0 ∨ dr ≠ 0))

/-- Sign of an integer, used for ray directions. -/
def isgn (x : Int) : Int := if x > 0 then 1 else if x < 0 then -1 else 0

/-- All strictly-between squares on the straight line from a to b are
empty in occ (only meaningful when a and b are aligned). -/
def lineEmptyBetween (a b : Int) (occ : Bitboard) : Bool :=
  let df := fileOfSq b - fileOfSq a
  let dr := rankOfSq b - rankOfSq a
  let steps := max df.natAbs dr.natAbs
  (List.range steps).all fun k =>
    k = 0 || !bbTest occ (make_square (rankOfSq a + (k : Int) * isgn dr) (fileOfSq a + (k : Int) * isgn df))

/-- Modelled from the spec: bishop attack set through an occupancy
(diagonally aligned, distinct, nothing strictly between). -/
def bishopAttackBB (sq : Int) (occ : Bitboard) : Bitboard :=
  fun s' =>
    let t := (s'.val : Int)
    let df := fileOfSq t - fileOfSq sq
    let dr := rankOfSq t - rankOfSq sq
    decide (df.natAbs = dr.natAbs ∧ df ≠ 0) && lineEmptyBetween sq t occ

/-- Modelled from the spec: rook attack set through an occupancy
(orthogonally aligned, distinct, nothing strictly between). -/
def rookAttackBB (sq : Int) (occ : Bitboard) : Bitboard :=
  fun s' =>
    let t := (s'.val : Int)
    let df := fileOfSq t - fileOfSq sq
    let dr := rankOfSq t - rankOfSq sq
    decide ((df = 0 ∧ dr ≠ 0) ∨ (dr = 0 ∧ df ≠ 0)) && lineEmptyBetween sq t occ

/-- Modelled from the spec: deterministically seeded pseudo-random
64-bit Zobrist constants (a fixed linear-congruential scramble). -/
def zmix (n : Nat) : Nat := (n * 6364136223846793005 + 1442695040888963407) % (2 ^ 64)

def Zobrist.get_piece_turn_square (pt : PieceType) (t : Turn) (s : Fin 64) : Nat :=
  zmix ((ptIdx pt * 2 + turnVal t) * 64 + s.val)

def Zobrist.get_black_move : Nat := zmix 768

def Zobrist.get_ep_file (f : Int) : Nat := zmix (769 + f.toNat)

def Zobrist.get_castle_side_turn (cs : CastleSide) (t : Turn) : Nat :=
  zmix (778 + csIdx cs * 2 + turnVal t)

/-- Middlegame/endgame score pair. -/
structure MixedScore where
  mg : Int
  eg : Int
deriving DecidableEq, Repr

instance : Add MixedScore := ⟨fun a b => ⟨a.mg + b.mg, a.eg + b.eg⟩⟩

instance : Sub MixedScore := ⟨fun a b => ⟨a.mg - b.mg, a.eg - b.eg⟩⟩

/-- Scale a MixedScore by an integer colour sign or count. -/
def msMul (c : Int) (s : MixedScore) : MixedScore := ⟨c * s.mg, c * s.eg⟩

/-- Modelled from the spec: material values per piece type
(arbitrary fixed constants; the claims do not depend on the numbers). -/
def piece_value : PieceType → MixedScore
  | PAWN => ⟨100, 118⟩
  | KNIGHT => ⟨310, 295⟩
  | BISHOP => ⟨325, 300⟩
  | ROOK => ⟨500, 520⟩
  | QUEEN => ⟨900, 930⟩
  | KING => ⟨0, 0⟩

/-- Modelled from the spec: piece-square table contribution, colour
relative (arbitrary fixed values; the claims do not depend on them). -/
def piece_square (pt : PieceType) (s : Fin 64) (t : Turn) : MixedScore :=
  let rel : Nat :=
    match t with
    | WHITE => s.val
    | BLACK => 63 - s.val
  ⟨(ptIdx pt + 1) * 7 + (rel % 13 : Nat), (ptIdx pt + 1) * 5 + (rel % 11 : Nat)⟩

/-- Modelled from the spec: game-phase weights per piece type. -/
def Phases.Pieces : PieceType → Int
  | PAWN => 0
  | KNIGHT => 1
  | BISHOP => 1
  | ROOK => 2
  | QUEEN => 4
  | KING => 0

def Phases.Total : Int := 24

/-- Unsigned 8-bit wrap-around, matching the uint8_t phase arithmetic. -/
def u8 (x : Int) : Int := x.emod 256

/-- The Board value type, translated from src/position.cpp
(bitboards per piece and colour, mailbox, castling rights, en-passant
square, clocks, incremental hash, PSQ accumulator, phase, cached
checkers). -/
structure Board where
  m_pieces : PieceType → Turn → Bitboard
  m_board_pieces : Fin 64 → Option (PieceType × Turn)
  m_turn : Turn
  m_castling_rights : CastleSide → Turn → Bool
  m_enpassant_square : Int
  m_half_move_clock : Nat
  m_full_move_clock : Nat
  m_hash : Nat
  m_psq : MixedScore
  m_phase : Int
  m_checkers : Bitboard

namespace Board

/-- The loop order (turn outer, piece inner) of Board::generate_hash. -/
def turnPieceList : List (Turn × PieceType) :=
  [(WHITE, PAWN), (WHITE, KNIGHT), (WHITE, BISHOP), (WHITE, ROOK), (WHITE, QUEEN), (WHITE, KING),
   (BLACK, PAWN), (BLACK, KNIGHT), (BLACK, BISHOP), (BLACK, ROOK), (BLACK, QUEEN), (BLACK, KING)]

/-- The loop order (piece outer, turn inner) of Board::is_valid. -/
def pieceTurnList : List (PieceType × Turn) :=
  [(PAWN, WHITE), (PAWN, BLACK), (KNIGHT, WHITE), (KNIGHT, BLACK),
   (BISHOP, WHITE), (BISHOP, BLACK), (ROOK, WHITE), (ROOK, BLACK),
   (QUEEN, WHITE), (QUEEN, BLACK), (KING, WHITE), (KING, BLACK)]

/-- The castling-right loop order (side outer, turn inner). -/
def castleList : List (CastleSide × Turn) :=
  [(KINGSIDE, WHITE), (KINGSIDE, BLACK), (QUEENSIDE, WHITE), (QUEENSIDE, BLACK)]

/-- Union of all twelve piece bitboards (Board::get_pieces). -/
def get_pieces (b : Board) : Bitboard :=
  fun s => pieceTurnList.any fun pc => b.m_pieces pc.1 pc.2 s

/-- Union of one side's piece bitboards. -/
def get_pieces_of (b : Board) (t : Turn) : Bitboard :=
  fun s => [PAWN, KNIGHT, BISHOP, ROOK, QUEEN, KING].any fun pt => b.m_pieces pt t s

/-- Piece type sitting on a square, none when empty or off board
(Board::get_piece_at via the mailbox). -/
def get_piece_at (b : Board) (s : Int) : Option PieceType :=
  if h : 0 ≤ s ∧ s < 64 then
    match b.m_board_pieces ⟨s.toNat, by omega⟩ with
    | some pc => some pc.1
    | none => none
  else none

/-- Mailbox content of a square as an Option piece. -/
def pieceOn (b : Board) (s : Int) : Option (PieceType × Turn) :=
  if h : 0 ≤ s ∧ s < 64 then b.m_board_pieces ⟨s.toNat, by omega⟩ else none

/-- Modelled from the spec: set_piece places a piece, XORs its Zobrist
term into the hash, adds its material and piece-square contribution to
the PSQ accumulator and subtracts its phase weight. -/
def set_piece (b : Board) (pt : PieceType) (t : Turn) (sq : Int) : Board :=
  if h : 0 ≤ sq ∧ sq < 64 then
    let s : Fin 64 := ⟨sq.toNat, by omega⟩
    { b with
      m_pieces := fun pt' t' =>
        if pt' = pt ∧ t' = t then
          fun s' => if s' = s then true else b.m_pieces pt t s'
        else b.m_pieces pt' t',
      m_board_pieces := fun s' => if s' = s then some (pt, t) else b.m_board_pieces s',
      m_hash := b.m_hash ^^^ Zobrist.get_piece_turn_square pt t s,
      m_psq := b.m_psq + msMul (turn_to_color t) (piece_value pt + piece_square pt s t),
      m_phase := u8 (b.m_phase - Phases.Pieces pt) }
  else b

/-- Modelled from the spec: pop_piece removes a piece, undoing the hash,
PSQ and phase contributions of set_piece. -/
def pop_piece (b : Board) (pt : PieceType) (t : Turn) (sq : Int) : Board :=
  if h : 0 ≤ sq ∧ sq < 64 then
    let s : Fin 64 := ⟨sq.toNat, by omega⟩
    { b with
      m_pieces := fun pt' t' =>
        if pt' = pt ∧ t' = t then
          fun s' => if s' = s then false else b.m_pieces pt t s'
        else b.m_pieces pt' t',
      m_board_pieces := fun s' => if s' = s then none else b.m_board_pieces s',
      m_hash := b.m_hash ^^^ Zobrist.get_piece_turn_square pt t s,
      m_psq := b.m_psq - msMul (turn_to_color t) (piece_value pt + piece_square pt s t),
      m_phase := u8 (b.m_phase + Phases.Pieces pt) }
  else b

/-- Modelled from the spec: move_piece is pop_piece at the origin
followed by set_piece at the destination. -/
def move_piece (b : Board) (pt : PieceType) (t : Turn) (sfrom sto : Int) : Board :=
  (b.pop_piece pt t sfrom).set_piece pt t sto

/-- Modelled from the spec: set_castling sets or clears one castling
right and XORs the corresponding Zobrist term when the right changes. -/
def set_castling (b : Board) (enabled : Bool) (side : CastleSide) (t : Turn) : Board :=
  if b.m_castling_rights side t = enabled then b
  else
    { b with
      m_castling_rights := fun side' t' =>
        if side' = side ∧ t' = t then enabled else b.m_castling_rights side' t',
      m_hash := b.m_hash ^^^ Zobrist.get_castle_side_turn side t }

/-- Modelled from the spec: attackers(sq, occ, side) is the union of
side's pawns attacking sq, its knights and king within range, and its
diagonal/orthogonal sliders reaching sq through occ. -/
def attackers (b : Board) (sq : Int) (occ : Bitboard) (t : Turn) : Bitboard :=
  bbOrr (bbAnd (pawnAttackersOf t sq) (b.m_pieces PAWN t))
    (bbOrr (bbAnd (knightAttackBB sq) (b.m_pieces KNIGHT t))
      (bbOrr (bbAnd (kingAttackBB sq) (b.m_pieces KING t))
        (bbOrr (bbAnd (fun s' => bishopAttackBB sq occ s')
                  (bbOrr (b.m_pieces BISHOP t) (b.m_pieces QUEEN t)))
          (bbAnd (fun s' => rookAttackBB sq occ s')
            (bbOrr (b.m_pieces ROOK t) (b.m_pieces QUEEN t))))))

/-- Modelled from the spec: update_checkers computes the set of enemy
pieces attacking the side-to-move's king on the current occupancy. -/
def computeCheckers (b : Board) : Bitboard :=
  b.attackers (bitscan (b.m_pieces KING b.m_turn)) b.get_pieces (flipTurn b.m_turn)

/-- Modelled from the spec: update_checkers stores computeCheckers. -/
def update_checkers (b : Board) : Board :=
  { b with m_checkers := b.computeCheckers }

/-- The first validity check of Board::is_valid: the side not to move
must not be in check. -/
def check1 (b : Board) : Bool :=
  !bbAny (b.attackers (bitscan (b.m_pieces KING (flipTurn b.m_turn))) b.get_pieces b.m_turn)

end Board

namespace Board

/-- Board::generate_hash, the from-scratch hash: XOR of the Zobrist
terms of every occupied (piece, turn, square), the black-move term, the
ep-file term when the ep square is set and each active castling right. -/
def generate_hash (b : Board) : Nat :=
  let pieceH :=
    turnPieceList.foldl
      (fun h tp =>
        (List.finRange 64).foldl
          (fun h' s => if b.m_pieces tp.2 tp.1 s then h' ^^^ Zobrist.get_piece_turn_square tp.2 tp.1 s else h')
          h)
      0
  let h1 := if b.m_turn = BLACK then pieceH ^^^ Zobrist.get_black_move else pieceH
  let h2 :=
    if b.m_enpassant_square ≠ SQUARE_NULL then h1 ^^^ Zobrist.get_ep_file (fileOfSq b.m_enpassant_square)
    else h1
  castleList.foldl
    (fun h ct => if b.m_castling_rights ct.1 ct.2 then h ^^^ Zobrist.get_castle_side_turn ct.1 ct.2 else h)
    h2

/-- Board::make_move, translated from src/position.cpp: copy, clock
updates, castling-right updates, capture removal, en-passant bookkeeping,
castle rook shuffle, the mover's placement (with promotion), turn flip
with hash terms, and a checkers recomputation. -/
def make_move (b : Board) (move : Move) : Board :=
  let up : Int := if b.m_turn = WHITE then 8 else -8
  let piece := b.get_piece_at move.fromSq
  -- Increment clocks
  let r1 : Board :=
    { b with
      m_full_move_clock := b.m_full_move_clock + turnVal b.m_turn,
      m_half_move_clock :=
        if piece = some PAWN ∨ move.is_capture then 0 else b.m_half_move_clock + 1,
      -- Initial empty ep square
      m_enpassant_square := SQUARE_NULL }
  -- Update castling rights after this move
  let r2 : Board :=
    if piece = some KING then
      (r1.set_castling false KINGSIDE b.m_turn).set_castling false QUEENSIDE b.m_turn
    else if piece = some ROOK then
      let ra :=
        if move.fromSq = (if b.m_turn = WHITE then SQUARE_H1 else SQUARE_H8) then
          r1.set_castling false KINGSIDE b.m_turn
        else r1
      if move.fromSq = (if b.m_turn = WHITE then SQUARE_A1 else SQUARE_A8) then
        ra.set_castling false QUEENSIDE b.m_turn
      else ra
    else r1
  -- Per move type action
  let r3 : Board :=
    if move.is_capture then
      let target := if move.is_ep_capture then move.toSq - up else move.toSq
      let rc := r2.pop_piece ((b.get_piece_at target).getD PAWN) (flipTurn b.m_turn) target
      let rd :=
        if move.toSq = (if b.m_turn = WHITE then SQUARE_H8 else SQUARE_H1) then
          rc.set_castling false KINGSIDE (flipTurn b.m_turn)
        else rc
      if move.toSq = (if b.m_turn = WHITE then SQUARE_A8 else SQUARE_A1) then
        rd.set_castling false QUEENSIDE (flipTurn b.m_turn)
      else rd
    else if move.is_double_pawn_push then
      { r2 with
        m_enpassant_square := move.toSq - up,
        m_hash := r2.m_hash ^^^ Zobrist.get_ep_file (fileOfSq move.toSq) }
    else if move.is_castle then
      let iS := move.toSq + (if move.toSq > move.fromSq then 1 else -2)
      let iE := move.toSq + (if move.toSq > move.fromSq then -1 else 1)
      r2.move_piece ROOK b.m_turn iS iE
    else r2
  -- Set piece on target square
  let r4 : Board :=
    if move.is_promotion then
      (r3.pop_piece (piece.getD PAWN) b.m_turn move.fromSq).set_piece move.promo_piece b.m_turn move.toSq
    else
      r3.move_piece (piece.getD PAWN) b.m_turn move.fromSq move.toSq
  -- Swap turns, reset previous en-passant hash
  let r5 : Board :=
    { r4 with
      m_turn := flipTurn b.m_turn,
      m_hash :=
        (r4.m_hash ^^^ Zobrist.get_black_move) ^^^
          (if b.m_enpassant_square ≠ SQUARE_NULL then Zobrist.get_ep_file (fileOfSq b.m_enpassant_square)
           else 0) }
  -- Update checkers
  r5.update_checkers

/-- The disjointness fold of Board::is_valid: scan the twelve bitboards
accumulating an occupancy, failing on any overlap. -/
def disjointCheck (b : Board) : Bool :=
  (pieceTurnList.foldl
    (fun acc pc =>
      match acc with
      | none => none
      | some occ =>
        if bbAny (bbAnd (b.m_pieces pc.1 pc.2) occ) then none
        else some (bbOrr occ (b.m_pieces pc.1 pc.2)))
    (some emptyBB)).isSome

/-- The mailbox consistency check of Board::is_valid. -/
def mailboxCheck (b : Board) : Bool :=
  (List.finRange 64).all fun s =>
    match b.m_board_pieces s with
    | none => !b.get_pieces s
    | some pc => b.m_pieces pc.1 pc.2 s

/-- The phase recomputation of Board::is_valid (uint8_t arithmetic). -/
def phaseCalc (b : Board) : Int :=
  pieceTurnList.foldl
    (fun ph pc => u8 (ph - (bbCount (b.m_pieces pc.1 pc.2) : Int) * Phases.Pieces pc.1))
    Phases.Total

/-- The material/PSQ recomputation of Board::is_valid. -/
def psqCalc (b : Board) : MixedScore :=
  pieceTurnList.foldl
    (fun ev pc =>
      let bb := b.m_pieces pc.1 pc.2
      let ev' := ev + msMul ((bbCount bb : Int) * turn_to_color pc.2) (piece_value pc.1)
      (List.finRange 64).foldl
        (fun ev'' s => if bb s then ev'' + msMul (turn_to_color pc.2) (piece_square pc.1 s pc.2) else ev'')
        ev')
    ⟨0, 0⟩

/-- Board::is_valid: side not to move not in check, bitboards disjoint,
mailbox consistent, stored hash equal to the from-scratch hash, stored
phase and PSQ accumulator equal to their recomputations. -/
def is_valid (b : Board) : Bool :=
  b.check1 && b.disjointCheck && b.mailboxCheck &&
    (b.m_hash == b.generate_hash) &&
    (b.phaseCalc == b.m_phase) &&
    (b.psqCalc.mg == b.m_psq.mg && b.psqCalc.eg == b.m_psq.eg)

/-- Board::make_null_move: clear the ep square (undoing its hash term)
and flip the side to move, XOR-ing the black-move term. -/
def make_null_move (b : Board) : Board :=
  let r1 : Board :=
    { b with
      m_enpassant_square := SQUARE_NULL,
      m_hash :=
        if b.m_enpassant_square ≠ SQUARE_NULL then
          b.m_hash ^^^ Zobrist.get_ep_file (fileOfSq b.m_enpassant_square)
        else b.m_hash }
  { r1 with
    m_turn := flipTurn b.m_turn,
    m_hash := r1.m_hash ^^^ Zobrist.get_black_move }

/-- Board::operator==: equality of hash, turn, ep square, castling
rights and the twelve piece bitboards; the clocks are not compared. -/
def beq (b other : Board) : Bool :=
  if b.m_hash ≠ other.m_hash then false
  else if b.m_turn ≠ other.m_turn ∨ b.m_enpassant_square ≠ other.m_enpassant_square then false
  else
    (castleList.all fun ct => b.m_castling_rights ct.1 ct.2 == other.m_castling_rights ct.1 ct.2) &&
      (pieceTurnList.all fun pc => bbEqb (b.m_pieces pc.1 pc.2) (other.m_pieces pc.1 pc.2))

def hash (b : Board) : Nat := b.m_hash

def half_move_clock (b : Board) : Nat := b.m_half_move_clock

def turn (b : Board) : Turn := b.m_turn

def checkers (b : Board) : Bitboard := b.m_checkers

end Board

namespace Board

/-- Relative rank helpers for pawns: the rank of the double-push origin. -/
def pawnStartRank : Turn → Int
  | WHITE => 1
  | BLACK => 6

/-- The promotion rank for a side. -/
def lastRank : Turn → Int
  | WHITE => 7
  | BLACK => 0

/-- The king home square for a side. -/
def kingHome : Turn → Int
  | WHITE => 4
  | BLACK => 60

/-- The rook home square of a castling side. -/
def rookHome : CastleSide → Turn → Int
  | KINGSIDE, WHITE => 7
  | KINGSIDE, BLACK => 63
  | QUEENSIDE, WHITE => 0
  | QUEENSIDE, BLACK => 56

/-- The king destination square of a castle. -/
def castleKingTo : CastleSide → Turn → Int
  | KINGSIDE, WHITE => 6
  | KINGSIDE, BLACK => 62
  | QUEENSIDE, WHITE => 2
  | QUEENSIDE, BLACK => 58

/-- Modelled from the spec (legality rule 6): after the move, our king
must not be attacked; this recomputes the first check of is_valid on
the board produced by make_move. -/
def kingSafeAfter (b : Board) (m : Move) : Bool :=
  (b.make_move m).check1

/-- Modelled from the spec (legality rule 5, pawns): double pushes start
on the relative second rank with both crossed squares empty; captures
(including ep and promotion-captures) follow the pawn attack pattern;
quiet pushes advance one rank onto an empty square; a promotion flag is
required exactly on moves reaching the last rank. -/
def pawnGeom (b : Board) (m : Move) (occ : Bitboard) : Bool :=
  let t := b.m_turn
  let up := pawnDir t
  (m.is_promotion == decide (rankOfSq m.toSq = lastRank t)) &&
    (if m.is_double_pawn_push then
      decide (m.toSq = m.fromSq + 2 * up ∧ rankOfSq m.fromSq = pawnStartRank t) &&
        !bbTest occ (m.fromSq + up) && !bbTest occ m.toSq
    else if m.is_capture then
      pawnAttacks t m.fromSq m.toSq
    else
      decide (m.toSq = m.fromSq + up) && !bbTest occ m.toSq)

/-- Modelled from the spec (legality rule 5, king): castles require the
king and rook home squares, the castling right, the squares between king
and rook empty and the crossed square unattacked; other king moves
follow the king attack pattern. -/
def kingGeom (b : Board) (m : Move) (occ : Bitboard) : Bool :=
  let t := b.m_turn
  if m.is_castle then
    let side : CastleSide := if m.mtype = KINGSIDE_CASTLE then KINGSIDE else QUEENSIDE
    let empties : List Int :=
      match side with
      | KINGSIDE => [kingHome t + 1, kingHome t + 2]
      | QUEENSIDE => [kingHome t - 1, kingHome t - 2, kingHome t - 3]
    let crossed : Int :=
      match side with
      | KINGSIDE => kingHome t + 1
      | QUEENSIDE => kingHome t - 1
    decide (m.fromSq = kingHome t ∧ m.toSq = castleKingTo side t) &&
      b.m_castling_rights side t &&
      empties.all (fun s => !bbTest occ s) &&
      !bbAny (b.attackers crossed occ (flipTurn t))
  else
    bbTest (kingAttackBB m.fromSq) m.toSq

/-- Modelled from the spec (legality rule 5 plus rule 6): the per-piece
geometry check against the current occupancy, then king safety after
the move. -/
def legalPiece (b : Board) (pt : PieceType) (m : Move) (occ : Bitboard) : Bool :=
  (match pt with
   | PAWN => b.pawnGeom m occ
   | KNIGHT => bbTest (knightAttackBB m.fromSq) m.toSq
   | BISHOP => bbTest (bishopAttackBB m.fromSq occ) m.toSq
   | ROOK => bbTest (rookAttackBB m.fromSq occ) m.toSq
   | QUEEN => bbTest (bishopAttackBB m.fromSq occ) m.toSq || bbTest (rookAttackBB m.fromSq occ) m.toSq
   | KING => b.kingGeom m occ) &&
    b.kingSafeAfter m

/-- Board::legal, translated from src/position.cpp: the ordered rule
chain (distinct squares, ep flag consistency, no reserved move types,
ours on the origin and not on the destination, capture flag iff enemy
target, pawn-only and king-only flags, then per-piece dispatch). -/
def legal (b : Board) (move : Move) : Bool :=
  -- Same source and destination squares?
  if move.fromSq = move.toSq then false
  -- Ep without the square defined?
  else if move.is_ep_capture &&
      (b.m_enpassant_square = SQUARE_NULL ∨ move.toSq ≠ b.m_enpassant_square) then false
  -- Valid movetype?
  else if move.move_type = INVALID_1 ∨ move.move_type = INVALID_2 then false
  else
    -- Source square is not ours or destination ours?
    let our_pieces := b.get_pieces_of b.m_turn
    if !bbTest our_pieces move.fromSq || bbTest our_pieces move.toSq then false
    else
      -- Capture and destination square not occupied by the opponent (including ep)?
      let piece := b.get_piece_at move.fromSq
      let enemy_pieces0 := fun s => b.get_pieces s && !our_pieces s
      let enemy_pieces :=
        if move.is_ep_capture && piece = some PAWN && b.m_enpassant_square ≠ SQUARE_NULL then
          bbSetAt enemy_pieces0 b.m_enpassant_square
        else enemy_pieces0
      if bbTest enemy_pieces move.toSq ≠ move.is_capture then false
      -- Pawn flags
      else if piece ≠ some PAWN &&
          (move.is_double_pawn_push || move.is_ep_capture || move.is_promotion) then false
      -- King flags
      else if piece ≠ some KING && move.is_castle then false
      else
        let occupancy := b.get_pieces
        match piece with
        | some pt => b.legalPiece pt move occupancy
        | none => false

end Board

/-- The C isspace test restricted to the characters FEN fields use. -/
def cIsSpace (c : Char) : Bool := c = ' ' || c = '\t' || c = '\n' || c = '\r'

def cIsDigit (c : Char) : Bool := decide ('0' ≤ c ∧ c ≤ '9')

def cIsUpper (c : Char) : Bool := decide ('A' ≤ c ∧ c ≤ 'Z')

def cToLower (c : Char) : Char := if cIsUpper c then Char.ofNat (c.toNat + 32) else c

/-- fen_piece(char): the piece type denoted by a FEN letter. -/
def fen_piece (c : Char) : Option PieceType :=
  let l := cToLower c
  if l = 'p' then some PAWN
  else if l = 'n' then some KNIGHT
  else if l = 'b' then some BISHOP
  else if l = 'r' then some ROOK
  else if l = 'q' then some QUEEN
  else if l = 'k' then some KING
  else none

/-- fen_piece(Piece): the FEN letter of a piece. -/
def fenPieceChar (pt : PieceType) (t : Turn) : Char :=
  let p : Char :=
    match pt with
    | PieceType.PAWN => 'p'
    | PieceType.KNIGHT => 'n'
    | PieceType.BISHOP => 'b'
    | PieceType.ROOK => 'r'
    | PieceType.QUEEN => 'q'
    | PieceType.KING => 'k'
  if t = Turn.WHITE then Char.ofNat (p.toNat - 32) else p

/-- fen_castle_side(char). -/
def fen_castle_side (c : Char) : Option CastleSide :=
  let l := cToLower c
  if l = 'k' then some CastleSide.KINGSIDE
  else if l = 'q' then some CastleSide.QUEENSIDE
  else none

/-- fen_castle_side(CastleSide, Turn): the FEN letter of a right. -/
def fenCastleChar (side : CastleSide) (t : Turn) : Char :=
  let c : Char := match side with
    | CastleSide.KINGSIDE => 'k'
    | CastleSide.QUEENSIDE => 'q'
  if t = Turn.WHITE then Char.ofNat (c.toNat - 32) else c

namespace Board

/-- The piece-placement loop of the FEN constructor: digits skip squares,
a slash rewinds two ranks, letters place pieces left to right. -/
def placeLoop : List Char → Int → Board → Board × List Char
  | [], _, b => (b, [])
  | c :: rest, sq, b =>
    if cIsSpace c then (b, c :: rest)
    else if cIsDigit c then placeLoop rest (sq + ((c.toNat : Int) - 48)) b
    else if c = '/' then placeLoop rest (sq - 16) b
    else
      match fen_piece c with
      | some pt => placeLoop rest (sq + 1) (b.set_piece pt (if cIsUpper c then WHITE else BLACK) sq)
      | none => placeLoop rest (sq + 1) b

/-- A field loop of the FEN constructor with pre-increment semantics:
skip one delimiter character, then fold until a space (left in place)
or the end of the input. -/
def fieldGo {α : Type} (f : α → Char → α) : List Char → α → α × List Char
  | [], a => (a, [])
  | c :: rest, a => if cIsSpace c then (a, c :: rest) else fieldGo f rest (f a c)

def fieldLoop {α : Type} (f : α → Char → α) : List Char → α → α × List Char
  | [], a => (a, [])
  | _ :: rest, a => fieldGo f rest a

/-- The en-passant field loop: a non-dash character followed by a
non-space character stores the square (rank from the second character,
file from the first). -/
def epGo : List Char → Int → Int × List Char
  | [], e => (e, [])
  | c :: rest, e =>
    if cIsSpace c then (e, c :: rest)
    else if c = '-' then epGo rest e
    else
      match rest with
      | [] => (e, [])
      | c2 :: rest2 =>
        if cIsSpace c2 then epGo rest2 e
        else epGo rest2 (make_square ((c2.toNat : Int) - 49) ((c.toNat : Int) - 97))

def epLoop : List Char → Int → Int × List Char
  | [], e => (e, [])
  | _ :: rest, e => epGo rest e

/-- The all-empty board the FEN constructor starts from (zeroed hash,
zero PSQ, full phase, cleared mailbox and bitboards). -/
def emptyBoard : Board :=
  { m_pieces := fun _ _ => emptyBB,
    m_board_pieces := fun _ => none,
    m_turn := WHITE,
    m_castling_rights := fun _ _ => false,
    m_enpassant_square := SQUARE_NULL,
    m_half_move_clock := 0,
    m_full_move_clock := 0,
    m_hash := 0,
    m_psq := ⟨0, 0⟩,
    m_phase := Phases.Total,
    m_checkers := emptyBB }

/-- Board::Board(std::string), the FEN constructor: placement from A8,
side to move, castling rights, ep square, the two clocks (full-move
clamped to at least 1), then the turn and ep hash terms and a checkers
update. -/
def parse (fen : String) : Board :=
  let cs := fen.data
  let (b1, r1) := placeLoop cs SQUARE_A8 emptyBoard
  let (t, r2) := fieldLoop (fun _ c => if c = 'w' then WHITE else BLACK) r1 WHITE
  let b2 := { b1 with m_turn := t }
  let (b3, r3) :=
    fieldLoop
      (fun (b : Board) c =>
        match fen_castle_side c with
        | some side => b.set_castling true side (if cIsUpper c then WHITE else BLACK)
        | none => b)
      r2 b2
  let (ep, r4) := epLoop r3 SQUARE_NULL
  let (hm, r5) := fieldLoop (fun n c => n * 10 + (c.toNat - 48)) r4 0
  let (fm, _) := fieldLoop (fun n c => n * 10 + (c.toNat - 48)) r5 0
  let b4 :=
    { b3 with
      m_enpassant_square := ep,
      m_half_move_clock := hm,
      m_full_move_clock := max fm 1 }
  let b5 := if b4.m_turn = BLACK then { b4 with m_hash := b4.m_hash ^^^ Zobrist.get_black_move } else b4
  let b6 :=
    if b5.m_enpassant_square ≠ SQUARE_NULL then
      { b5 with m_hash := b5.m_hash ^^^ Zobrist.get_ep_file (fileOfSq b5.m_enpassant_square) }
    else b5
  b6.update_checkers

/-- Modelled from the spec: get_square, the two-character algebraic name
of a square. -/
def get_square (s : Int) : List Char :=
  [Char.ofNat (97 + (fileOfSq s).toNat), Char.ofNat (49 + (rankOfSq s).toNat)]

/-- Decimal digits of a natural number, as operator<< prints it; the
first argument only bounds the recursion depth and is always supplied
large enough not to run out. -/
def natCharsGo : Nat → Nat → List Char
  | 0, _ => []
  | fuel + 1, n =>
    if n < 10 then [Char.ofNat (48 + n)]
    else natCharsGo fuel (n / 10) ++ [Char.ofNat (48 + n % 10)]

def natChars (n : Nat) : List Char := natCharsGo (n + 1) n

/-- One rank of the FEN placement emission: runs of empty squares
become a digit, pieces their FEN letter, scanning files left to right. -/
def rankGo (b : Board) (r : Int) : List Int → Nat → List Char
  | [], space => if space ≠ 0 then [Char.ofNat (48 + space)] else []
  | f :: rest, space =>
    match b.pieceOn (make_square r f) with
    | none => rankGo b r rest (space + 1)
    | some pc =>
      (if space ≠ 0 then [Char.ofNat (48 + space)] else []) ++
        fenPieceChar pc.1 pc.2 :: rankGo b r rest 0

def rankChars (b : Board) (r : Int) : List Char :=
  rankGo b r [0, 1, 2, 3, 4, 5, 6, 7] 0

/-- The placement part of to_fen: ranks 8 down to 1, slash separated,
a space after rank 1. -/
def ranksChars (b : Board) : List Int → List Char
  | [] => []
  | r :: rest => rankChars b r ++ (if r > 0 then '/' else ' ') :: ranksChars b rest

/-- The castling field of to_fen: the active-right letters in the order
white kingside, white queenside, black kingside, black queenside, with
a dash when no right is active. -/
def castleChars (b : Board) : List Char :=
  let cs :=
    [(WHITE, KINGSIDE), (WHITE, QUEENSIDE), (BLACK, KINGSIDE), (BLACK, QUEENSIDE)].foldl
      (fun acc tc => if b.m_castling_rights tc.2 tc.1 then acc ++ [fenCastleChar tc.2 tc.1] else acc)
      []
  if cs.isEmpty then ['-', ' '] else cs ++ [' ']

/-- Board::to_fen, translated from src/position.cpp. -/
def to_fen (b : Board) : String :=
  ⟨ranksChars b [7, 6, 5, 4, 3, 2, 1, 0] ++
    (if b.m_turn = WHITE then ['w', ' '] else ['b', ' ']) ++
    castleChars b ++
    (if b.m_enpassant_square = SQUARE_NULL then ['-'] else get_square b.m_enpassant_square) ++
    ' ' :: natChars b.m_half_move_clock ++ ' ' :: natChars b.m_full_move_clock⟩

end Board

def startpos_fen : String := "rnbqkbnr/pppppppp/8/8/8/8/PPPPPPPP/RNBQKBNR w KQkq - 0 1"

/-- Board::Board(), the default constructor: the starting position. -/
def startBoard : Board := Board.parse startpos_fen

instance : Inhabited Board := ⟨startBoard⟩

/-- MoveInfo record of the Position move stack. -/
structure MoveInfo where
  move : Move
  extended : Bool
deriving DecidableEq, Repr

/-- NUM_MAX_DEPTH, the bounded stack depth. -/
def NUM_MAX_DEPTH : Nat := 128

/-- The Position move stack, translated from src/position.cpp: the board
stack, the shared move-list stack position, the ply counter, the
extension counter, the MoveInfo stack and the reduced flag. -/
structure Position where
  m_boards : List Board
  m_stack : Nat
  m_pos : Int
  m_extensions : Int
  m_moves : List MoveInfo
  m_reduced : Bool

namespace Position

/-- Position::Position(): one default board, empty stacks. -/
def init : Position :=
  { m_boards := [startBoard], m_stack := 0, m_pos := 0, m_extensions := 0,
    m_moves := [], m_reduced := false }

/-- Position::Position(std::string). -/
def ofFen (fen : String) : Position :=
  { init with m_boards := [Board.parse fen] }

/-- Position::board(): the top of the board stack. -/
def board (p : Position) : Board := p.m_boards.getLastD startBoard

/-- Indexing into the board stack, as m_boards[i]. -/
def boardAt (p : Position) (i : Int) : Board := p.m_boards.getD i.toNat startBoard

def hash (p : Position) : Nat := p.board.m_hash

def in_check (p : Position) : Bool := bbAny p.board.m_checkers

def get_turn (p : Position) : Turn := p.board.m_turn

def ply (p : Position) : Int := p.m_pos

def num_extensions (p : Position) : Int := p.m_extensions

def reduced (p : Position) : Bool := p.m_reduced

/-- Position::make_move: push the child board and the MoveInfo,
advance the stack index and ply, count extensions. -/
def make_move (p : Position) (move : Move) (extension : Bool) : Position :=
  { p with
    m_stack := p.m_stack + 1,
    m_pos := p.m_pos + 1,
    m_boards := p.m_boards ++ [p.board.make_move move],
    m_moves := p.m_moves ++ [⟨move, extension⟩],
    m_extensions := if extension then p.m_extensions + 1 else p.m_extensions }

/-- Position::unmake_move: pop both stacks, rewind the counters. -/
def unmake_move (p : Position) : Position :=
  let info := p.m_moves.getLastD ⟨MOVE_NULL, false⟩
  { p with
    m_boards := p.m_boards.dropLast,
    m_stack := p.m_stack - 1,
    m_pos := p.m_pos - 1,
    m_extensions := if info.extended then p.m_extensions - 1 else p.m_extensions,
    m_moves := p.m_moves.dropLast }

/-- Position::make_null_move. -/
def make_null_move (p : Position) : Position :=
  { p with
    m_stack := p.m_stack + 1,
    m_pos := p.m_pos + 1,
    m_boards := p.m_boards ++ [p.board.make_null_move],
    m_moves := p.m_moves ++ [⟨MOVE_NULL, false⟩] }

/-- Position::unmake_null_move. -/
def unmake_null_move (p : Position) : Position :=
  { p with
    m_boards := p.m_boards.dropLast,
    m_stack := p.m_stack - 1,
    m_pos := p.m_pos - 1,
    m_moves := p.m_moves.dropLast }

/-- The inner repetition loop of Position::is_draw: continue the
walk downwards in steps of two looking for a second equal hash.  The
Nat argument only bounds the countdown and is supplied large enough
never to run out. -/
def drawLoop2 (p : Position) (minPos : Int) : Nat → Int → Bool
  | 0, _ => false
  | fuel + 1, pos2 =>
    if pos2 ≥ minPos then
      if p.board.m_hash == (p.boardAt pos2).m_hash then true
      else drawLoop2 p minPos fuel (pos2 - 2)
    else false

/-- The outer repetition loop of Position::is_draw: walk backwards in
steps of two from ply - 4; on an equal hash either succeed (unique) or
look for a second equal hash.  The Nat argument only bounds the
countdown and is supplied large enough never to run out. -/
def drawLoop1 (p : Position) (unique : Bool) (minPos : Int) : Nat → Int → Bool
  | 0, _ => false
  | fuel + 1, pos1 =>
    if pos1 ≥ minPos then
      if p.board.m_hash == (p.boardAt pos1).m_hash then
        if unique then true
        else if drawLoop2 p minPos (fuel + 1) (pos1 - 4) then true
        else drawLoop1 p unique minPos fuel (pos1 - 2)
      else drawLoop1 p unique minPos fuel (pos1 - 2)
    else false

/-- Position::is_draw, translated from src/position.cpp: the fifty-move
rule, then the repetition scan over the window of the last
min(ply+1, half_move_clock) boards, entered only when that window
holds at least eight boards. -/
def is_draw (p : Position) (unique : Bool) : Bool :=
  if p.board.half_move_clock ≥ 100 then true
  else
    let cur_pos : Int := (p.m_boards.length : Int) - 1
    let n_moves : Int := min (cur_pos + 1) (p.board.half_move_clock : Int)
    let min_pos : Int := cur_pos - n_moves + 1
    if n_moves ≥ 8 then drawLoop1 p unique min_pos (p.m_boards.length + 4) (cur_pos - 4)
    else false

end Position

namespace Board

def promoQuietTypes : List MoveType :=
  [KNIGHT_PROMO, BISHOP_PROMO, ROOK_PROMO, QUEEN_PROMO]

def promoCaptureTypes : List MoveType :=
  [KNIGHT_PROMO_CAPTURE, BISHOP_PROMO_CAPTURE, ROOK_PROMO_CAPTURE, QUEEN_PROMO_CAPTURE]

/-- Modelled from the spec: pseudo-legal pawn captures (plain, the four
promotion-captures on the last rank, en-passant onto the ep square). -/
def genPawnCaptures (b : Board) : List Move :=
  let t := b.m_turn
  let enemy := b.get_pieces_of (flipTurn t)
  (List.finRange 64).flatMap fun sf =>
    if b.m_pieces PAWN t sf then
      (List.finRange 64).flatMap fun st =>
        if pawnAttackersOf t (st.val : Int) sf then
          if enemy st then
            if rankOfSq (st.val : Int) = lastRank t then
              promoCaptureTypes.map fun mt => ⟨(sf.val : Int), (st.val : Int), mt⟩
            else [⟨(sf.val : Int), (st.val : Int), CAPTURE⟩]
          else if (st.val : Int) = b.m_enpassant_square then
            [⟨(sf.val : Int), (st.val : Int), EP_CAPTURE⟩]
          else []
        else []
    else []

/-- Modelled from the spec: pseudo-legal quiet pawn moves (single and
double pushes, quiet promotions on the last rank). -/
def genPawnQuiets (b : Board) : List Move :=
  let t := b.m_turn
  let occ := b.get_pieces
  let up := pawnDir t
  (List.finRange 64).flatMap fun sf =>
    if b.m_pieces PAWN t sf then
      let f : Int := (sf.val : Int)
      let single :=
        if !bbTest occ (f + up) then
          if rankOfSq (f + up) = lastRank t then
            promoQuietTypes.map fun mt => ⟨f, f + up, mt⟩
          else [⟨f, f + up, QUIET⟩]
        else []
      let dbl :=
        if rankOfSq f = pawnStartRank t && !bbTest occ (f + up) && !bbTest occ (f + 2 * up) then
          [⟨f, f + 2 * up, DOUBLE_PAWN_PUSH⟩]
        else []
      single ++ dbl
    else []

/-- Modelled from the spec: the attack set of a non-pawn piece. -/
def attackSetOf (pt : PieceType) (sq : Int) (occ : Bitboard) : Bitboard :=
  match pt with
  | KNIGHT => knightAttackBB sq
  | BISHOP => bishopAttackBB sq occ
  | ROOK => rookAttackBB sq occ
  | QUEEN => bbOrr (bishopAttackBB sq occ) (rookAttackBB sq occ)
  | KING => kingAttackBB sq
  | PAWN => emptyBB

/-- Modelled from the spec: pseudo-legal non-pawn captures via the
attack tables masked by the enemy occupancy. -/
def genPieceCaptures (b : Board) : List Move :=
  let t := b.m_turn
  let occ := b.get_pieces
  let enemy := b.get_pieces_of (flipTurn t)
  [KNIGHT, BISHOP, ROOK, QUEEN, KING].flatMap fun pt =>
    (List.finRange 64).flatMap fun sf =>
      if b.m_pieces pt t sf then
        (List.finRange 64).flatMap fun st =>
          if attackSetOf pt (sf.val : Int) occ st && enemy st then
            [⟨(sf.val : Int), (st.val : Int), CAPTURE⟩]
          else []
      else []

/-- Modelled from the spec: pseudo-legal quiet non-pawn moves via the
attack tables masked by the total occupancy. -/
def genPieceQuiets (b : Board) : List Move :=
  let t := b.m_turn
  let occ := b.get_pieces
  [KNIGHT, BISHOP, ROOK, QUEEN, KING].flatMap fun pt =>
    (List.finRange 64).flatMap fun sf =>
      if b.m_pieces pt t sf then
        (List.finRange 64).flatMap fun st =>
          if attackSetOf pt (sf.val : Int) occ st && !occ st then
            [⟨(sf.val : Int), (st.val : Int), QUIET⟩]
          else []
      else []

/-- Modelled from the spec: castle generation, emitted only with the
right held, the squares between king and rook empty and the crossed
square unattacked. -/
def genCastles (b : Board) : List Move :=
  let t := b.m_turn
  let occ := b.get_pieces
  let ks :=
    if b.m_castling_rights KINGSIDE t &&
        !bbTest occ (kingHome t + 1) && !bbTest occ (kingHome t + 2) &&
        !bbAny (b.attackers (kingHome t + 1) occ (flipTurn t)) then
      [⟨kingHome t, castleKingTo KINGSIDE t, KINGSIDE_CASTLE⟩]
    else []
  let qs :=
    if b.m_castling_rights QUEENSIDE t &&
        !bbTest occ (kingHome t - 1) && !bbTest occ (kingHome t - 2) && !bbTest occ (kingHome t - 3) &&
        !bbAny (b.attackers (kingHome t - 1) occ (flipTurn t)) then
      [⟨kingHome t, castleKingTo QUEENSIDE t, QUEENSIDE_CASTLE⟩]
    else []
  ks ++ qs

/-- Modelled from the spec: Board::generate_moves with type CAPTURES. -/
def generate_captures (b : Board) : List Move :=
  b.genPawnCaptures ++ b.genPieceCaptures

/-- Modelled from the spec: Board::generate_moves with type QUIETS. -/
def generate_quiets (b : Board) : List Move :=
  b.genPawnQuiets ++ b.genPieceQuiets ++ b.genCastles

end Board

/-- NUM_KILLERS, from the move-order header. -/
def NUM_KILLERS : Nat := 3

/-- The Histories tables, translated from src/move_order.cpp: butterfly
per (colour, from, to), piece-type per (piece, to), killers per
(slot, ply), countermoves per (from, to). -/
structure Histories where
  m_butterfly : Turn → Int → Int → Int
  m_piece_type : PieceType → Int → Int
  m_killers : Nat → Int → Move
  m_countermoves : Int → Int → Move

namespace Histories

/-- Histories::clear. -/
def clear : Histories :=
  { m_butterfly := fun _ _ _ => 0,
    m_piece_type := fun _ _ => 0,
    m_killers := fun _ _ => MOVE_NULL,
    m_countermoves := fun _ _ => MOVE_NULL }

/-- Histories::is_killer. -/
def is_killer (h : Histories) (move : Move) (ply : Int) : Bool :=
  (List.range NUM_KILLERS).any fun i => h.m_killers i ply == move

/-- Histories::add_bonus. -/
def add_bonus (h : Histories) (move : Move) (t : Turn) (piece : PieceType) (bonus : Int) : Histories :=
  { h with
    m_butterfly := fun t' f' to' =>
      if t' = t ∧ f' = move.fromSq ∧ to' = move.toSq then h.m_butterfly t' f' to' + bonus
      else h.m_butterfly t' f' to',
    m_piece_type := fun p' to' =>
      if p' = piece ∧ to' = move.toSq then h.m_piece_type p' to' + bonus
      else h.m_piece_type p' to' }

/-- Histories::fail_high: depth-squared bonus into butterfly and
piece-type tables, record the countermove, and insert the move into
the killer slots (right-shifting, de-duplicating). -/
def fail_high (h : Histories) (move prev_move : Move) (t : Turn) (depth ply : Int)
    (piece : PieceType) : Histories :=
  let h1 :=
    { h with
      m_butterfly := fun t' f' to' =>
        if t' = t ∧ f' = move.fromSq ∧ to' = move.toSq then h.m_butterfly t' f' to' + depth * depth
        else h.m_butterfly t' f' to',
      m_piece_type := fun p' to' =>
        if p' = piece ∧ to' = move.toSq then h.m_piece_type p' to' + depth * depth
        else h.m_piece_type p' to',
      m_countermoves := fun f' to' =>
        if f' = prev_move.fromSq ∧ to' = prev_move.toSq then move else h.m_countermoves f' to' }
  if h.is_killer move ply then h1
  else
    { h1 with
      m_killers := fun i p' =>
        if p' = ply then
          if i = 0 then move
          else if i < NUM_KILLERS then h.m_killers (i - 1) p'
          else h.m_killers i p'
        else h.m_killers i p' }

/-- Histories::butterfly_score. -/
def butterfly_score (h : Histories) (move : Move) (t : Turn) : Int :=
  h.m_butterfly t move.fromSq move.toSq

/-- Histories::piece_type_score. -/
def piece_type_score (h : Histories) (move : Move) (piece : PieceType) : Int :=
  h.m_piece_type piece move.toSq

/-- Histories::get_killer. -/
def get_killer (h : Histories) (index : Nat) (ply : Int) : Move :=
  h.m_killers index ply

/-- Histories::countermove. -/
def countermove (h : Histories) (move : Move) : Move :=
  h.m_countermoves move.fromSq move.toSq

end Histories

/-- The MoveOrder stage machine states, from the move-order header. -/
inductive MoveStage
  | HASH
  | CAPTURES_INIT
  | CAPTURES
  | CAPTURES_END
  | COUNTERMOVES
  | KILLERS
  | QUIET_INIT
  | QUIET
  | NO_MOVES
deriving DecidableEq, Repr

open MoveStage

def stageRank : MoveStage → Nat
  | HASH => 0
  | CAPTURES_INIT => 1
  | CAPTURES => 2
  | CAPTURES_END => 3
  | COUNTERMOVES => 4
  | KILLERS => 5
  | QUIET_INIT => 6
  | MoveStage.QUIET => 7
  | NO_MOVES => 8

/-- MVV-LVA piece scores of MoveOrder::capture_score (bishop 31 over
knight 30 as a tie-break). -/
def mvvPieceScore : PieceType → Int
  | PAWN => 10
  | KNIGHT => 30
  | BISHOP => 31
  | ROOK => 50
  | QUEEN => 90
  | KING => 1000

/-- The move sort of MoveOrder::sort_moves: a stable insertion sort by
the given strict-preference comparator (std::sort leaves the order of
tied elements unspecified; this picks the stable refinement). -/
def insertSorted (le : Move → Move → Bool) (m : Move) : List Move → List Move
  | [] => [m]
  | x :: xs => if le m x then m :: x :: xs else x :: insertSorted le m xs

def sortMoves (le : Move → Move → Bool) : List Move → List Move
  | [] => []
  | x :: xs => insertSorted le x (sortMoves le xs)

/-- Swap two list entries (std::swap on the move array). -/
def lswap (l : List Move) (i j : Nat) : List Move :=
  let vi := l.getD i MOVE_NULL
  let vj := l.getD j MOVE_NULL
  (l.set i vj).set j vi

/-- MoveOrder::threshold_moves: the in-place partition that swaps moves
scoring above the threshold to the front (keeping their relative order),
returning the array and the number of kept moves; the iterator walk is a
fold over the positions of the fixed-length array. -/
def threshold_moves (score : Move → Int) (thr : Int) (l : List Move) : List Move × Nat :=
  (List.range l.length).foldl
    (fun st it =>
      if score (st.1.getD it MOVE_NULL) > thr then (lswap st.1 st.2 it, st.2 + 1)
      else st)
    (l, 0)

/-- The MoveOrder cursor state, translated from src/move_order.cpp. -/
structure MoveOrder where
  m_position : Position
  m_ply : Int
  m_depth : Int
  m_hash_move : Move
  m_histories : Histories
  m_prev_move : Move
  m_quiescence : Bool
  m_moves : List Move
  m_stage : MoveStage
  m_countermove : Move
  m_killer : Move
  m_curr : Nat

namespace MoveOrder

/-- The MoveOrder constructor. -/
def init (pos : Position) (ply depth : Int) (hash_move : Move) (histories : Histories)
    (prev_move : Move) (quiescence : Bool) : MoveOrder :=
  { m_position := pos, m_ply := ply, m_depth := depth, m_hash_move := hash_move,
    m_histories := histories, m_prev_move := prev_move, m_quiescence := quiescence,
    m_moves := [], m_stage := HASH, m_countermove := MOVE_NULL, m_killer := MOVE_NULL,
    m_curr := 0 }

/-- MoveOrder::capture_score (MVV-LVA). -/
def capture_score (mo : MoveOrder) (move : Move) : Int :=
  let bd := mo.m_position.board
  let fromPt := (bd.get_piece_at move.fromSq).getD PAWN
  let toPt := if move.is_ep_capture then PAWN else (bd.get_piece_at move.toSq).getD PAWN
  mvvPieceScore toPt - mvvPieceScore fromPt

/-- MoveOrder::quiet_score (butterfly plus piece-type histories). -/
def quiet_score (mo : MoveOrder) (move : Move) : Int :=
  let piece := (mo.m_position.board.get_piece_at move.fromSq).getD PAWN
  mo.m_histories.butterfly_score move mo.m_position.get_turn +
    mo.m_histories.piece_type_score move piece

/-- MoveOrder::hash_move helper: propose the hash move, accepted iff
legal on the current board. -/
def hashMoveOk (mo : MoveOrder) : Bool :=
  mo.m_position.board.legal mo.m_hash_move

/-- The hash-move acceptance test of the HASH stage. -/
def acceptHash (mo : MoveOrder) : Bool := mo.hashMoveOk

/-- The captures-sorting of the CAPTURES_INIT stage. -/
def sortedCaptures (mo : MoveOrder) : List Move :=
  sortMoves (fun a b => mo.capture_score b ≤ mo.capture_score a)
    mo.m_position.board.generate_captures

/-- The quiet-list preparation of the QUIET_INIT stage: threshold
partition, then sort the kept prefix; the rejected moves stay behind
the prefix and are still iterated by the QUIET stage. -/
def processedQuiets (mo : MoveOrder) : List Move :=
  let pr := threshold_moves mo.quiet_score (-3000 * mo.m_depth) mo.m_position.board.generate_quiets
  sortMoves (fun a b => mo.quiet_score b ≤ mo.quiet_score a) (pr.1.take pr.2) ++ pr.1.drop pr.2

/-- The countermove candidate of the COUNTERMOVES stage. -/
def counterCandidate (mo : MoveOrder) : Move := mo.m_histories.countermove mo.m_prev_move

def counterOk (mo : MoveOrder) : Bool :=
  !(counterCandidate mo == mo.m_hash_move) && mo.m_position.board.legal (counterCandidate mo)

/-- The killer scan of the KILLERS stage: the first stored killer for
this ply that differs from the hash move and the countermove and is
legal on the current board. -/
def killerFind (mo : MoveOrder) : Option Move :=
  ((List.range NUM_KILLERS).map fun i => mo.m_histories.get_killer i mo.m_ply).find? fun c =>
    !(c == mo.m_hash_move) && !(c == mo.m_countermove) && mo.m_position.board.legal c

/-- The inner while-next loop of the CAPTURES and QUIET stages: the
first acceptable move of the remaining list, together with how many
entries the iterator consumed to reach it. -/
def scanFirst (ok : Move → Bool) : List Move → Option (Move × Nat)
  | [] => none
  | m :: rest =>
    if ok m then some (m, 1)
    else
      match scanFirst ok rest with
      | some r => some (r.1, r.2 + 1)
      | none => none

/-- MoveOrder::next_move, translated from src/move_order.cpp, with the
returning stage branch reported alongside (the projection next_move
below drops it).  Because the stage only ever advances, the while(true)
loop is unrolled into one fall-through handler per stage; each handler
either returns a move or hands the advanced cursor to the next stage's
handler, exactly as one loop iteration does. -/
def noMovesStep (mo : MoveOrder) : Move × MoveOrder × MoveStage :=
  (MOVE_NULL, mo, NO_MOVES)

def quietStep (mo : MoveOrder) : Move × MoveOrder × MoveStage :=
  match scanFirst
      (fun m => !(m == mo.m_hash_move) && !(m == mo.m_killer) && !(m == mo.m_countermove))
      (mo.m_moves.drop mo.m_curr) with
  | some r => (r.1, { mo with m_curr := mo.m_curr + r.2 }, MoveStage.QUIET)
  | none => noMovesStep { mo with m_stage := NO_MOVES, m_curr := mo.m_moves.length }

def quietInitStep (mo : MoveOrder) : Move × MoveOrder × MoveStage :=
  quietStep { mo with m_stage := MoveStage.QUIET, m_moves := processedQuiets mo, m_curr := 0 }

def killersStep (mo : MoveOrder) : Move × MoveOrder × MoveStage :=
  let mo' := { mo with m_stage := QUIET_INIT, m_killer := MOVE_NULL }
  match killerFind mo with
  | some c => (c, { mo' with m_killer := c }, KILLERS)
  | none => quietInitStep mo'

def countermovesStep (mo : MoveOrder) : Move × MoveOrder × MoveStage :=
  let mo' := { mo with m_stage := KILLERS }
  if counterOk mo then
    (counterCandidate mo, { mo' with m_countermove := counterCandidate mo }, COUNTERMOVES)
  else killersStep mo'

def capturesEndStep (mo : MoveOrder) : Move × MoveOrder × MoveStage :=
  if mo.m_quiescence && !mo.m_position.in_check then (MOVE_NULL, mo, CAPTURES_END)
  else countermovesStep { mo with m_stage := COUNTERMOVES }

def capturesStep (mo : MoveOrder) : Move × MoveOrder × MoveStage :=
  match scanFirst (fun m => !(m == mo.m_hash_move)) (mo.m_moves.drop mo.m_curr) with
  | some r => (r.1, { mo with m_curr := mo.m_curr + r.2 }, CAPTURES)
  | none => capturesEndStep { mo with m_stage := CAPTURES_END, m_curr := mo.m_moves.length }

def capturesInitStep (mo : MoveOrder) : Move × MoveOrder × MoveStage :=
  capturesStep { mo with m_stage := CAPTURES, m_moves := sortedCaptures mo, m_curr := 0 }

def hashStep (mo : MoveOrder) : Move × MoveOrder × MoveStage :=
  let mo' := { mo with m_stage := CAPTURES_INIT }
  if mo.acceptHash then (mo.m_hash_move, mo', HASH)
  else capturesInitStep mo'

def nextMoveT (mo : MoveOrder) : Move × MoveOrder × MoveStage :=
  match mo.m_stage with
  | HASH => hashStep mo
  | CAPTURES_INIT => capturesInitStep mo
  | CAPTURES => capturesStep mo
  | CAPTURES_END => capturesEndStep mo
  | COUNTERMOVES => countermovesStep mo
  | KILLERS => killersStep mo
  | QUIET_INIT => quietInitStep mo
  | MoveStage.QUIET => quietStep mo
  | NO_MOVES => noMovesStep mo

/-- MoveOrder::next_move: the returned move and the updated cursor. -/
def next_move (mo : MoveOrder) : Move × MoveOrder :=
  ((mo.nextMoveT).1, (mo.nextMoveT).2.1)

/-- The trace of tagged returns of n successive next_move calls. -/
def traceT (mo : MoveOrder) : Nat → List (Move × MoveStage)
  | 0 => []
  | n + 1 =>
    let r := mo.nextMoveT
    (r.1, r.2.2) :: traceT r.2.1 n

end MoveOrder

namespace Board

/-- Invariant 7: the cached checkers equal their recomputation. -/
def checkersOK (b : Board) : Prop := b.m_checkers = b.computeCheckers

/-- Invariant 8 (en-passant consistency): a set ep square is a real
board square, the enemy pawn that just double-pushed stands one push
behind it, and the ep square itself is empty. -/
def epOK (b : Board) : Prop :=
  b.m_enpassant_square ≠ SQUARE_NULL →
    0 ≤ b.m_enpassant_square ∧ b.m_enpassant_square < 64 ∧
    0 ≤ b.m_enpassant_square - pawnDir b.m_turn ∧ b.m_enpassant_square - pawnDir b.m_turn < 64 ∧
    bbTest (b.m_pieces PAWN (flipTurn b.m_turn)) (b.m_enpassant_square - pawnDir b.m_turn) = true ∧
    bbTest b.get_pieces b.m_enpassant_square = false

/-- Castling-right consistency of a legal position: an active right
has its rook still on the home square. -/
def castleOK (b : Board) : Prop :=
  ∀ side t, b.m_castling_rights side t = true → bbTest (b.m_pieces ROOK t) (rookHome side t) = true

/-- A legal position: the is_valid checks plus the en-passant,
castling-right and full-move-clock invariants every board produced by
the FEN constructor or make_move maintains. -/
def LegalBoard (b : Board) : Prop :=
  b.is_valid = true ∧ b.checkersOK ∧ b.epOK ∧ b.castleOK ∧ 1 ≤ b.m_full_move_clock

instance (b : Board) : Decidable b.checkersOK := by
  unfold checkersOK; infer_instance

instance (b : Board) : Decidable b.epOK := by
  unfold epOK; infer_instance

instance (b : Board) : Decidable b.castleOK := by
  unfold castleOK; infer_instance

instance (b : Board) : Decidable b.LegalBoard := by
  unfold LegalBoard; infer_instance

end Board

/-- The boards of the Board lifecycle: parses of FEN strings denoting
legal positions, closed under make_move on legal moves. -/
inductive Reachable : Board → Prop
  | base (fen : String) : (Board.parse fen).LegalBoard → Reachable (Board.parse fen)
  | step (b : Board) (m : Move) : Reachable b → b.legal m = true → Reachable (b.make_move m)

/-- The repetition condition exactly as claim C7 words it: some earlier
board at even offset 4, 6, 8, ... back from the current board, within
the window ending at ply - n + 1, has the current board's hash. -/
def repetitionClaim (p : Position) : Prop :=
  ∃ k : Nat, k < p.m_boards.length ∧
    (let cur : Int := (p.m_boards.length : Int) - 1
     let n : Int := min (cur + 1) ((p.board.half_move_clock : Int))
     cur - 4 - 2 * (k : Int) ≥ cur - n + 1 ∧
       p.board.m_hash = (p.boardAt (cur - 4 - 2 * (k : Int))).m_hash)

namespace MoveOrder

/-- The board a cursor works on. -/
def bd (mo : MoveOrder) : Board := mo.m_position.board

/-- The potential of a cursor state: an upper bound on the number of
further non-null returns. -/
def phi (mo : MoveOrder) : Nat :=
  let C := mo.bd.generate_captures.length
  let Q := mo.bd.generate_quiets.length
  match mo.m_stage with
  | HASH => C + Q + 4
  | CAPTURES_INIT => C + Q + 3
  | CAPTURES => (mo.m_moves.length - mo.m_curr) + Q + 3
  | CAPTURES_END => Q + 3
  | COUNTERMOVES => Q + 3
  | KILLERS => Q + 2
  | QUIET_INIT => Q + 1
  | MoveStage.QUIET => mo.m_moves.length - mo.m_curr
  | NO_MOVES => 0

/-- The cursor after n next_move calls. -/
def stepped (mo : MoveOrder) : Nat → MoveOrder
  | 0 => mo
  | n + 1 => ((mo.stepped n).nextMoveT).2.1

/-- The move returned by the (n+1)-th next_move call. -/
def retAt (mo : MoveOrder) (n : Nat) : Move := ((mo.stepped n).nextMoveT).1

/-- A state from which every further next_move call returns MOVE_NULL
with the state unchanged: quiescent non-check CAPTURES_END, or the
terminal NO_MOVES stage. -/
def nullStuck (mo : MoveOrder) : Prop :=
  (mo.m_stage = CAPTURES_END ∧ (mo.m_quiescence && !mo.m_position.in_check) = true) ∨
    mo.m_stage = NO_MOVES

/-- The cursor-list invariant: whatever sits in the staged move list at
a consuming stage came from the corresponding generator run on the
cursor's board. -/
def movesWF (mo : MoveOrder) : Prop :=
  ∀ m ∈ mo.m_moves,
    (mo.m_stage = CAPTURES → m ∈ mo.bd.generate_captures) ∧
    (mo.m_stage = MoveStage.QUIET → m ∈ mo.bd.generate_quiets)

/-- Everything a single next_move call guarantees about its result:
the position and quiescence flag are untouched, the stage is monotone,
the potential drops on a non-null return and never grows, a null return
lands in a stuck state, the list invariant is maintained, and the moves
returned by each stage branch are legal (hash, countermove, killer
branches) or generator output (captures, quiet branches). -/
def StepOut (mo : MoveOrder) (r : Move × MoveOrder × MoveStage) : Prop :=
  r.2.1.m_position = mo.m_position ∧
  r.2.1.m_quiescence = mo.m_quiescence ∧
  stageRank mo.m_stage ≤ stageRank r.2.1.m_stage ∧
  (r.1 ≠ MOVE_NULL → MoveOrder.phi r.2.1 < MoveOrder.phi mo) ∧
  MoveOrder.phi r.2.1 ≤ MoveOrder.phi mo ∧
  (r.1 = MOVE_NULL → r.2.1.nullStuck) ∧
  r.2.1.movesWF ∧
  (r.2.2 = HASH → mo.m_position.board.legal r.1 = true) ∧
  (r.2.2 = COUNTERMOVES → mo.m_position.board.legal r.1 = true) ∧
  (r.2.2 = KILLERS → mo.m_position.board.legal r.1 = true ∧ r.2.1.m_stage = QUIET_INIT) ∧
  (r.2.2 = CAPTURES → r.1 ∈ mo.m_position.board.generate_captures) ∧
  (r.2.2 = MoveStage.QUIET → r.1 ∈ mo.m_position.board.generate_quiets) ∧
  ((r.2.2 = CAPTURES_END ∨ r.2.2 = NO_MOVES) → r.1 = MOVE_NULL)

end MoveOrder

/-- The double push e2e4 (squares 12 to 28). -/
def e2e4 : Move := ⟨12, 28, DOUBLE_PAWN_PUSH⟩

/-- A legal position with white to move in check (black rook a1, white
king e1, black king e8), for the null-move checkers analysis. -/
def c6Board : Board := Board.parse "4k3/8/8/8/8/8/8/r3K3 w - - 0 1"

/-- A legal position with a pinned bishop: white Ke1, Be2 against black
Re8, Kh8, pawn d3; the capture e2xd3 is pseudo-legal but exposes the
king. -/
def c4Pos : Position := Position.ofFen "4r2k/8/8/8/8/3p4/4B3/4K3 w - - 0 1"

def c4Cursor : MoveOrder := MoveOrder.init c4Pos 0 1 MOVE_NULL Histories.clear MOVE_NULL false

/-- The pinned-bishop capture e2xd3. -/
def c4PinMove : Move := ⟨12, 19, CAPTURE⟩

/-- Killer moves a2a3 and h2h3 for the killers-stage analysis. -/
def c5Killer0 : Move := ⟨8, 16, QUIET⟩

def c5Killer1 : Move := ⟨15, 23, QUIET⟩

/-- Histories holding the two killers in slots 0 and 1 of ply 0. -/
def c5Hist : Histories :=
  { Histories.clear with
    m_killers := fun i p =>
      if p = 0 ∧ i = 0 then c5Killer0 else if p = 0 ∧ i = 1 then c5Killer1 else MOVE_NULL }

/-- A quiet position (white Ke1, Pa2, Ph2 against black Kh8) in which
both stored killers are legal quiet moves. -/
def c5Pos : Position := Position.ofFen "7k/8/8/8/8/8/P6P/4K3 w - - 0 1"

def c5Cursor : MoveOrder := MoveOrder.init c5Pos 0 1 MOVE_NULL c5Hist MOVE_NULL false

/-- The c5 cursor advanced to the KILLERS stage. -/
def c5CursorK : MoveOrder := { c5Cursor with m_stage := KILLERS }

/-- Boards for the repetition-detection analysis: the start position
with adjusted half-move clocks (the hash ignores the clocks). -/
def c7Board0 : Board := { startBoard with m_half_move_clock := 1 }

def c7Board4 : Board := { startBoard with m_half_move_clock := 5 }

/-- A five-board stack whose current board repeats the oldest board at
offset 4 with half-move clock 5: the claimed window contains the
repetition but the scan requires a window of at least eight boards. -/
def c7Pos : Position :=
  { Position.init with m_boards := [c7Board0, startBoard, startBoard, startBoard, c7Board4] }

/-- A nine-board stack with half-move clock 8 whose repetition at
offset 4 is found by the scan. -/
def c7Board8 : Board := { startBoard with m_half_move_clock := 8 }

def c7PosB : Position :=
  { Position.init with
    m_boards := [c7Board0, startBoard, startBoard, startBoard, c7Board4,
                 startBoard, startBoard, startBoard, c7Board8] }

/-- The start position with different clocks, hash-equal to it. -/
def c10Board : Board := { startBoard with m_half_move_clock := 7, m_full_move_clock := 9 }

namespace Board

/-- The piece-placement component of generate_hash. -/
def pieceHash (b : Board) : Nat :=
  turnPieceList.foldl
    (fun h tp =>
      (List.finRange 64).foldl
        (fun h' s => if b.m_pieces tp.2 tp.1 s then h' ^^^ Zobrist.get_piece_turn_square tp.2 tp.1 s else h')
        h)
    0

/-- The castling-rights component of generate_hash. -/
def castleHash (b : Board) : Nat :=
  castleList.foldl
    (fun h ct => if b.m_castling_rights ct.1 ct.2 then h ^^^ Zobrist.get_castle_side_turn ct.1 ct.2 else h)
    0

/-- The side-to-move component of generate_hash. -/
def turnTerm (b : Board) : Nat := if b.m_turn = BLACK then Zobrist.get_black_move else 0

/-- The en-passant component of generate_hash. -/
def epTerm (b : Board) : Nat :=
  if b.m_enpassant_square ≠ SQUARE_NULL then Zobrist.get_ep_file (fileOfSq b.m_enpassant_square) else 0

/-- Bitboard/mailbox agreement and disjointness in one equation: a
piece bitboard holds a square exactly when the mailbox names that
piece there. -/
def PiecesOK (b : Board) : Prop :=
  ∀ (pt : PieceType) (t : Turn) (s : Fin 64),
    b.m_pieces pt t s = decide (b.m_board_pieces s = some (pt, t))

/-- Invariant 4: the stored hash equals the from-scratch hash. -/
def hashOK (b : Board) : Prop := b.m_hash = b.generate_hash

/-- Invariant 5: the stored PSQ accumulator equals its recomputation. -/
def psqOK (b : Board) : Prop := b.psqCalc = b.m_psq

/-- Invariant 6: the stored phase equals its recomputation. -/
def phaseOK (b : Board) : Prop := b.phaseCalc = b.m_phase

/-- The clock/en-passant step of make_move (the first block of the
source function), named so the proofs can follow the pipeline. -/
def mmR1 (b : Board) (move : Move) : Board :=
  let piece := b.get_piece_at move.fromSq
  { b with
    m_full_move_clock := b.m_full_move_clock + turnVal b.m_turn,
    m_half_move_clock :=
      if piece = some PAWN ∨ move.is_capture then 0 else b.m_half_move_clock + 1,
    m_enpassant_square := SQUARE_NULL }

/-- The castling-right update step of make_move. -/
def mmR2 (b : Board) (move : Move) (r1 : Board) : Board :=
  let piece := b.get_piece_at move.fromSq
  if piece = some KING then
    (r1.set_castling false KINGSIDE b.m_turn).set_castling false QUEENSIDE b.m_turn
  else if piece = some ROOK then
    let ra :=
      if move.fromSq = (if b.m_turn = WHITE then SQUARE_H1 else SQUARE_H8) then
        r1.set_castling false KINGSIDE b.m_turn
      else r1
    if move.fromSq = (if b.m_turn = WHITE then SQUARE_A1 else SQUARE_A8) then
      ra.set_castling false QUEENSIDE b.m_turn
    else ra
  else r1

/-- The per-move-type action step of make_move (capture removal,
double-push bookkeeping, castle rook shuffle). -/
def mmR3 (b : Board) (move : Move) (r2 : Board) : Board :=
  let up : Int := if b.m_turn = WHITE then 8 else -8
  if move.is_capture then
    let target := if move.is_ep_capture then move.toSq - up else move.toSq
    let rc := r2.pop_piece ((b.get_piece_at target).getD PAWN) (flipTurn b.m_turn) target
    let rd :=
      if move.toSq = (if b.m_turn = WHITE then SQUARE_H8 else SQUARE_H1) then
        rc.set_castling false KINGSIDE (flipTurn b.m_turn)
      else rc
    if move.toSq = (if b.m_turn = WHITE then SQUARE_A8 else SQUARE_A1) then
      rd.set_castling false QUEENSIDE (flipTurn b.m_turn)
    else rd
  else if move.is_double_pawn_push then
    { r2 with
      m_enpassant_square := move.toSq - up,
      m_hash := r2.m_hash ^^^ Zobrist.get_ep_file (fileOfSq move.toSq) }
  else if move.is_castle then
    let iS := move.toSq + (if move.toSq > move.fromSq then 1 else -2)
    let iE := move.toSq + (if move.toSq > move.fromSq then -1 else 1)
    r2.move_piece ROOK b.m_turn iS iE
  else r2

/-- The placement step of make_move (promotion or plain move). -/
def mmR4 (b : Board) (move : Move) (r3 : Board) : Board :=
  let piece := b.get_piece_at move.fromSq
  if move.is_promotion then
    (r3.pop_piece (piece.getD PAWN) b.m_turn move.fromSq).set_piece move.promo_piece b.m_turn move.toSq
  else
    r3.move_piece (piece.getD PAWN) b.m_turn move.fromSq move.toSq

/-- The turn-flip step of make_move. -/
def mmR5 (b : Board) (move : Move) (r4 : Board) : Board :=
  { r4 with
    m_turn := flipTurn b.m_turn,
    m_hash :=
      (r4.m_hash ^^^ Zobrist.get_black_move) ^^^
        (if b.m_enpassant_square ≠ SQUARE_NULL then Zobrist.get_ep_file (fileOfSq b.m_enpassant_square)
         else 0) }

/-- The four components of generate_hash XOR-ed together; the proofs
show generate_hash equals this sum and track its evolution through the
make_move pipeline. -/
def Hsum (b : Board) : Nat := b.pieceHash ^^^ b.turnTerm ^^^ b.epTerm ^^^ b.castleHash

/-- The castling rights make_move leaves behind: a right survives unless
the mover is the king, the mover is the rook leaving that right's home
square, or the move captures on that right's home square. -/
def mmRights (b : Board) (m : Move) (side : CastleSide) (t : Turn) : Bool :=
  let piece := b.get_piece_at m.fromSq
  b.m_castling_rights side t &&
    !((decide (t = b.m_turn) &&
        (decide (piece = some KING) ||
          (decide (piece = some ROOK) && decide (m.fromSq = rookHome side t)))) ||
      (m.is_capture && decide (t = flipTurn b.m_turn) && decide (m.toSq = rookHome side t)))

/-- The invariant carried through the middle of the make_move pipeline
(after the en-passant square is cleared, before the turn flips): the
bitboard/mailbox agreement, the PSQ and phase accumulators synced with
their recomputations, the side to move unchanged, and the stored hash
differing from the XOR of its piece, castle and en-passant components by
exactly the pre-move turn and en-passant terms. -/
def midInv (b r : Board) : Prop :=
  r.PiecesOK ∧
  r.m_turn = b.m_turn ∧
  r.psqCalc = r.m_psq ∧
  r.phaseCalc = r.m_phase ∧
  r.m_hash ^^^ r.pieceHash ^^^ r.castleHash ^^^ r.epTerm = b.turnTerm ^^^ b.epTerm

/-- The mailbox make_move leaves behind: origin emptied, destination
holds the mover (or the promoted piece), the en-passant victim square
emptied, the castling rook moved, and every other square untouched. -/
def mmMailbox (b : Board) (m : Move) (s : Fin 64) : Option (PieceType × Turn) :=
  let up : Int := if b.m_turn = WHITE then 8 else -8
  let pt0 := (b.get_piece_at m.fromSq).getD PAWN
  let placed := if m.is_promotion then m.promo_piece else pt0
  if (s : Int) = m.fromSq then none
  else if (s : Int) = m.toSq then some (placed, b.m_turn)
  else if m.is_ep_capture && decide ((s : Int) = m.toSq - up) then none
  else if m.is_castle && decide ((s : Int) = m.toSq + (if m.toSq > m.fromSq then 1 else -2)) then none
  else if m.is_castle && decide ((s : Int) = m.toSq + (if m.toSq > m.fromSq then -1 else 1)) then
    some (ROOK, b.m_turn)
  else b.m_board_pieces s

/-- The files f0, f0+1, ..., f0+k-1 a FEN rank emission walks. -/
def fileSeq' : Nat → Nat → List Int
  | _, 0 => []
  | f0, k+1 => ((f0 : Nat) : Int) :: fileSeq' (f0 + 1) k

/-- The ranks k, k-1, ..., 0 of the FEN placement, from the top. -/
def rankListDown : Nat → List Int
  | 0 => [0]
  | k+1 => (((k : Nat) + 1 : Nat) : Int) :: rankListDown k

/-- One rank of the FEN round trip: copy the source board's pieces on
rank r at the given files onto the board being rebuilt. -/
def placeRank (src : Board) (r : Int) (fs : List Int) (c : Board) : Board :=
  fs.foldl
    (fun c' f =>
      match src.pieceOn (make_square r f) with
      | none => c'
      | some pc => c'.set_piece pc.1 pc.2 (make_square r f))
    c

/-- All ranks of the FEN round trip. -/
def placeRanks (src : Board) (rs : List Int) (c : Board) : Board :=
  rs.foldl (fun c' r => placeRank src r (fileSeq' 0 8) c') c

/-- The castling-field accumulator of the FEN constructor. -/
def castleF (b : Board) (c : Char) : Board :=
  match fen_castle_side c with
  | some side => b.set_castling true side (if cIsUpper c then WHITE else BLACK)
  | none => b

/-- The effect of the castling field of the FEN round trip: enable, in
emission order, every right active in the source board. -/
def castleApply (src : Board) (ps : List (Turn × CastleSide)) (c : Board) : Board :=
  ps.foldl
    (fun c' tc =>
      if src.m_castling_rights tc.2 tc.1 then c'.set_castling true tc.2 tc.1 else c') c

end Board

/-
  Theorems.  General helper lemmas first, then one section per claim.
-/

theorem flipTurn_flipTurn (t : Turn) : flipTurn (flipTurn t) = t := by
  cases t <;> rfl

theorem bbAny_eq_false_iff (bb : Bitboard) : bbAny bb = false ↔ bb = emptyBB := by
  constructor
  · intro h
    funext s
    have := List.any_eq_false.mp h s (List.mem_finRange s)
    simpa [emptyBB] using this
  · intro h
    subst h
    rfl

theorem legal_move_null (b : Board) : b.legal MOVE_NULL = false := by
  simp [Board.legal, MOVE_NULL]

/-- C10: Board::operator== compares hash, turn, ep square, castling
rights and the piece bitboards, and disregards both move clocks: boards
agreeing on the former compare equal whatever their clocks. -/
theorem c10_beq_ignores_clocks (a b : Board)
    (h1 : a.m_hash = b.m_hash) (h2 : a.m_turn = b.m_turn)
    (h3 : a.m_enpassant_square = b.m_enpassant_square)
    (h4 : a.m_castling_rights = b.m_castling_rights)
    (h5 : a.m_pieces = b.m_pieces) :
    a.beq b = true := by
  simp [Board.beq, h1, h2, h3, h4, h5, bbEqb]

/-- C10 witness: the start position and a clock-modified copy compare
equal under operator== while both clocks differ. -/
theorem c10_beq_ignores_clocks_witness :
    startBoard.beq c10Board = true ∧
      startBoard.m_half_move_clock ≠ c10Board.m_half_move_clock ∧
      startBoard.m_full_move_clock ≠ c10Board.m_full_move_clock :=
  ⟨c10_beq_ignores_clocks startBoard c10Board rfl rfl rfl rfl rfl, by decide, by decide⟩

/-- C8: Position::make_move followed by Position::unmake_move restores
the Position exactly: board stack, MoveInfo stack, stack index, ply
counter, extension counter and reduced flag. -/
theorem c8_make_unmake (p : Position) (m : Move) (ext : Bool)
    (h : p.board.legal m = true) :
    (p.make_move m ext).unmake_move = p := by
  cases p with
  | mk bs st pos exts mvs red =>
    simp only [Position.make_move, Position.unmake_move, List.dropLast_concat,
      List.getLastD_concat]
    cases ext <;> simp

/-- C8 witness: making and unmaking the legal double push e2e4 on the
initial Position restores it. -/
theorem c8_make_unmake_witness :
    (Position.init.make_move e2e4 true).unmake_move = Position.init :=
  c8_make_unmake Position.init e2e4 true (by decide)

/-- C6 counterexample: on a fully legal board where the side to move is
in check (black rook a1 against white king e1), make_null_move leaves
its stale checkers cached, so invariant 7 fails afterwards: the cached
bitboard does not equal the set of attackers of the new side-to-move's
king. -/
theorem c6_null_move_checkers_cex :
    c6Board.LegalBoard ∧ bbAny c6Board.m_checkers = true ∧
      ¬(c6Board.make_null_move).checkersOK := by
  refine ⟨⟨by decide, by decide, by decide, by decide, by decide⟩, by decide, ?_⟩
  intro h
  exact absurd h (by decide)

/-- C6 amended: after make_null_move on a legal board whose side to move
is not in check (the documented precondition of the null move), the
cached checkers still equal the recomputed attackers of the new
side-to-move's king. -/
theorem c6_null_move_checkers (b : Board) (hv : b.is_valid = true)
    (hnc : bbAny b.m_checkers = false) :
    (b.make_null_move).checkersOK := by
  have hch : b.check1 = true := by
    have := hv
    simp only [Board.is_valid, Bool.and_eq_true] at this
    exact this.1.1.1.1.1
  have hc1 : b.attackers (bitscan (b.m_pieces KING (flipTurn b.m_turn))) b.get_pieces b.m_turn
      = emptyBB := by
    have : bbAny (b.attackers (bitscan (b.m_pieces KING (flipTurn b.m_turn)))
        b.get_pieces b.m_turn) = false := by
      simpa [Board.check1] using hch
    exact (bbAny_eq_false_iff _).mp this
  have hempty : b.m_checkers = emptyBB := (bbAny_eq_false_iff _).mp hnc
  show (b.make_null_move).m_checkers = (b.make_null_move).computeCheckers
  have hpieces : (b.make_null_move).m_pieces = b.m_pieces := by
    simp [Board.make_null_move]
  have hturn : (b.make_null_move).m_turn = flipTurn b.m_turn := by
    simp [Board.make_null_move]
  have hcheckers : (b.make_null_move).m_checkers = b.m_checkers := by
    simp [Board.make_null_move]
  rw [hcheckers, hempty]
  unfold Board.computeCheckers Board.attackers Board.get_pieces
  rw [hpieces, hturn, flipTurn_flipTurn]
  unfold Board.attackers Board.get_pieces at hc1
  exact hc1.symm

/-- C6 amended witness: the start position is valid and not in check,
and its null move keeps the checkers invariant. -/
theorem c6_null_move_checkers_witness :
    (startBoard.make_null_move).checkersOK :=
  c6_null_move_checkers startBoard (by decide) (by decide)

theorem boardAt_c7 (p : Position) (i : Int) :
    p.boardAt i = p.m_boards.getD i.toNat startBoard := rfl

/-- The unique-mode outer walk of is_draw finds exactly the positions
start, start-2, start-4, ... that are at least minPos and hash-equal
to the current board (given enough countdown fuel). -/
theorem drawLoop1_unique_iff (p : Position) (minPos : Int) (fuel : Nat) (start : Int)
    (hfuel : start - minPos < 2 * (fuel : Int)) :
    Position.drawLoop1 p true minPos fuel start = true ↔
      ∃ k : Nat, start - 2 * (k : Int) ≥ minPos ∧
        p.board.m_hash = (p.boardAt (start - 2 * (k : Int))).m_hash := by
  induction fuel generalizing start with
  | zero =>
    simp only [Position.drawLoop1]
    constructor
    · intro h
      exact absurd h (by simp)
    · rintro ⟨k, hk, _⟩
      omega
  | succ n ih =>
    simp only [Position.drawLoop1]
    by_cases hge : start ≥ minPos
    · simp only [if_pos hge]
      by_cases hh : p.board.m_hash == (p.boardAt start).m_hash
      · simp only [hh, if_pos rfl]
        simp only [if_true]
        constructor
        · intro _
          exact ⟨0, by omega, by simpa using (beq_iff_eq.mp hh)⟩
        · intro _
          trivial
      · simp only [Bool.not_eq_true] at hh
        rw [hh]
        have ihs := ih (start - 2) (by omega)
        constructor
        · intro h
          obtain ⟨k, hk1, hk2⟩ := ihs.mp h
          exact ⟨k + 1, by push_cast; omega, by push_cast at hk2 ⊢; convert hk2 using 3 <;> omega⟩
        · rintro ⟨k, hk1, hk2⟩
          cases k with
          | zero =>
            exfalso
            simp only [Nat.cast_zero, mul_zero, sub_zero] at hk2
            rw [hk2] at hh
            simp at hh
          | succ k' =>
            apply ihs.mpr
            refine ⟨k', by push_cast at hk1 ⊢; omega, ?_⟩
            push_cast at hk2 ⊢
            convert hk2 using 3 <;> omega
    · simp only [if_neg hge]
      constructor
      · intro h
        exact absurd h (by simp)
      · rintro ⟨k, hk, _⟩
        have : (0 : Int) ≤ 2 * (k : Int) := by positivity
        omega

/-- C7 counterexample: a five-board stack whose current board has
half-move clock 5 and repeats the board four plies back.  The claimed
condition (an equal hash at even offset 4, 6, ... within the
min(ply+1, half_move_clock) window) holds, but is_draw(true) returns
false: the scan only runs when the window holds at least eight boards. -/
theorem c7_is_draw_cex :
    c7Pos.board.half_move_clock < 100 ∧ repetitionClaim c7Pos ∧
      c7Pos.is_draw true = false := by
  refine ⟨by decide, ⟨0, by decide, by decide, by decide⟩, by decide⟩

/-- C7 amended: for a position below the fifty-move limit, is_draw(true)
returns true iff the repetition window n = min(ply+1, half_move_clock)
holds at least eight boards AND some earlier board at even offset
4, 6, 8, ... back, within the window, has the current hash. -/
theorem c7_is_draw_guarded (p : Position) (h : p.board.half_move_clock < 100) :
    p.is_draw true = true ↔
      (8 ≤ min ((p.m_boards.length : Int) - 1 + 1) ((p.board.half_move_clock : Int)) ∧
        repetitionClaim p) := by
  unfold Position.is_draw
  rw [if_neg (by omega)]
  have hmin : min ((p.m_boards.length : Int) - 1 + 1) ((p.board.half_move_clock : Int)) ≤
      (p.m_boards.length : Int) - 1 + 1 := min_le_left _ _
  by_cases h8 :
      8 ≤ min ((p.m_boards.length : Int) - 1 + 1) ((p.board.half_move_clock : Int))
  · rw [if_pos (by exact h8)]
    rw [drawLoop1_unique_iff p
      ((p.m_boards.length : Int) - 1 -
        min ((p.m_boards.length : Int) - 1 + 1) ((p.board.half_move_clock : Int)) + 1)
      (p.m_boards.length + 4) ((p.m_boards.length : Int) - 1 - 4) (by push_cast; omega)]
    simp only [repetitionClaim]
    constructor
    · rintro ⟨k, hk1, hk2⟩
      exact ⟨h8, k, by omega, hk1, hk2⟩
    · rintro ⟨_, k, hklen, hk1, hk2⟩
      exact ⟨k, hk1, hk2⟩
  · rw [if_neg (by exact h8)]
    constructor
    · intro hcon
      exact absurd hcon (by simp)
    · rintro ⟨hc, _⟩
      exact absurd hc h8

/-- C7 amended witness: on the nine-board stack with half-move clock 8
the guarded equivalence applies and both sides hold. -/
theorem c7_is_draw_guarded_witness :
    8 ≤ min ((c7PosB.m_boards.length : Int) - 1 + 1) ((c7PosB.board.half_move_clock : Int)) ∧
      repetitionClaim c7PosB :=
  (c7_is_draw_guarded c7PosB (by decide)).mp (by decide)

theorem mem_insertSorted {le : Move → Move → Bool} {m x : Move} {l : List Move}
    (h : x ∈ insertSorted le m l) : x = m ∨ x ∈ l := by
  induction l with
  | nil => simpa [insertSorted] using h
  | cons y ys ih =>
    simp only [insertSorted] at h
    split at h
    · rcases List.mem_cons.mp h with h' | h'
      · exact Or.inl h'
      · exact Or.inr h'
    · rcases List.mem_cons.mp h with h' | h'
      · exact Or.inr (List.mem_cons.mpr (Or.inl h'))
      · rcases ih h' with h'' | h''
        · exact Or.inl h''
        · exact Or.inr (List.mem_cons.mpr (Or.inr h''))

theorem length_insertSorted (le : Move → Move → Bool) (m : Move) (l : List Move) :
    (insertSorted le m l).length = l.length + 1 := by
  induction l with
  | nil => rfl
  | cons y ys ih =>
    simp only [insertSorted]
    split
    · simp
    · simp [ih]

theorem mem_sortMoves {le : Move → Move → Bool} {x : Move} {l : List Move}
    (h : x ∈ sortMoves le l) : x ∈ l := by
  induction l with
  | nil => simpa [sortMoves] using h
  | cons y ys ih =>
    simp only [sortMoves] at h
    rcases mem_insertSorted h with h' | h'
    · simp [h']
    · simp [ih h']

theorem length_sortMoves (le : Move → Move → Bool) (l : List Move) :
    (sortMoves le l).length = l.length := by
  induction l with
  | nil => rfl
  | cons y ys ih => simp [sortMoves, length_insertSorted, ih]

theorem scanFirst_some {ok : Move → Bool} {l : List Move} {m : Move} {k : Nat}
    (h : MoveOrder.scanFirst ok l = some (m, k)) :
    ok m = true ∧ m ∈ l ∧ 1 ≤ k ∧ k ≤ l.length := by
  induction l generalizing m k with
  | nil => simp [MoveOrder.scanFirst] at h
  | cons x xs ih =>
    simp only [MoveOrder.scanFirst] at h
    split at h
    · next hok =>
      cases h
      exact ⟨hok, by simp, le_refl 1, by simp⟩
    · next hok =>
      cases hs : MoveOrder.scanFirst ok xs with
      | none =>
        rw [hs] at h
        cases h
      | some r =>
        obtain ⟨m', k'⟩ := r
        rw [hs] at h
        cases h
        obtain ⟨h1, h2, h3, h4⟩ := ih hs
        refine ⟨h1, List.mem_cons.mpr (Or.inr h2), by omega, ?_⟩
        simp only [List.length_cons]
        omega

theorem lswap_subset {l : List Move} {i j : Nat} (hi : i < l.length) (hj : j < l.length)
    {m : Move} (h : m ∈ lswap l i j) : m ∈ l := by
  unfold lswap at h
  rcases List.mem_or_eq_of_mem_set h with h' | h'
  · rcases List.mem_or_eq_of_mem_set h' with h'' | h''
    · exact h''
    · subst h''
      rw [List.getD_eq_getElem l MOVE_NULL hj]
      exact List.getElem_mem hj
  · subst h'
    rw [List.getD_eq_getElem l MOVE_NULL hi]
    exact List.getElem_mem hi

theorem length_lswap (l : List Move) (i j : Nat) : (lswap l i j).length = l.length := by
  simp [lswap]

/-- Invariant proof for the threshold partition fold: the array stays a
within-bounds rearrangement of the input. -/
theorem threshold_fold_invariant (score : Move → Int) (thr : Int) (l : List Move) :
    ∀ (cnt s : Nat) (st : List Move × Nat),
      st.1.length = l.length → st.2 ≤ s → s + cnt ≤ l.length →
      (∀ m ∈ st.1, m ∈ l) →
      (let r := (List.range' s cnt).foldl
        (fun st it =>
          if score (st.1.getD it MOVE_NULL) > thr then (lswap st.1 st.2 it, st.2 + 1)
          else st) st
       r.1.length = l.length ∧ r.2 ≤ s + cnt ∧ ∀ m ∈ r.1, m ∈ l) := by
  intro cnt
  induction cnt with
  | zero =>
    intro s st h1 h2 h3 h4
    exact ⟨h1, by simpa using h2, h4⟩
  | succ n ih =>
    intro s st h1 h2 h3 h4
    rw [List.range'_succ, List.foldl_cons]
    by_cases hc : score (st.1.getD s MOVE_NULL) > thr
    · rw [if_pos hc]
      have hlen : (lswap st.1 st.2 s).length = l.length := by
        rw [length_lswap]
        exact h1
      have hmem : ∀ m ∈ lswap st.1 st.2 s, m ∈ l := by
        intro m hm
        exact h4 m (lswap_subset (by omega) (by omega) hm)
      have hr := ih (s + 1) (lswap st.1 st.2 s, st.2 + 1) hlen (by omega) (by omega) hmem
      exact ⟨hr.1, by have := hr.2.1; omega, hr.2.2⟩
    · rw [if_neg hc]
      have hr := ih (s + 1) st h1 (by omega) (by omega) h4
      exact ⟨hr.1, by have := hr.2.1; omega, hr.2.2⟩

theorem threshold_moves_spec (score : Move → Int) (thr : Int) (l : List Move) :
    (threshold_moves score thr l).1.length = l.length ∧
      (threshold_moves score thr l).2 ≤ l.length ∧
      ∀ m ∈ (threshold_moves score thr l).1, m ∈ l := by
  have h := threshold_fold_invariant score thr l l.length 0 (l, 0) rfl (le_refl 0)
    (by omega) (fun m hm => hm)
  rw [← List.range_eq_range'] at h
  unfold threshold_moves
  exact ⟨h.1, by have := h.2.1; omega, h.2.2⟩

theorem move_ne_null_of_mtype {m : Move} (h : m.mtype ≠ QUIET) : m ≠ MOVE_NULL := by
  intro hm
  subst hm
  exact h rfl

theorem move_ne_null_of_sq {m : Move} (h : m.fromSq ≠ m.toSq) : m ≠ MOVE_NULL := by
  intro hm
  subst hm
  exact h rfl

theorem mem_genPawnCaptures_capture {b : Board} {m : Move} (h : m ∈ b.genPawnCaptures) :
    m.is_capture = true := by
  simp only [Board.genPawnCaptures, List.mem_flatMap] at h
  obtain ⟨sf, -, h⟩ := h
  split at h
  · simp only [List.mem_flatMap] at h
    obtain ⟨st, -, h⟩ := h
    split at h
    · split at h
      · split at h
        · simp only [List.mem_map, Board.promoCaptureTypes, List.mem_cons,
            List.not_mem_nil, or_false] at h
          obtain ⟨mt, hmt, rfl⟩ := h
          rcases hmt with rfl | rfl | rfl | rfl <;> rfl
        · rcases List.mem_singleton.mp h with rfl
          rfl
      · split at h
        · rcases List.mem_singleton.mp h with rfl
          rfl
        · cases h
    · cases h
  · cases h

theorem mem_genPieceCaptures_capture {b : Board} {m : Move} (h : m ∈ b.genPieceCaptures) :
    m.is_capture = true := by
  simp only [Board.genPieceCaptures, List.mem_flatMap] at h
  obtain ⟨pt, -, sf, -, h⟩ := h
  split at h
  · simp only [List.mem_flatMap] at h
    obtain ⟨st, -, h⟩ := h
    split at h
    · rcases List.mem_singleton.mp h with rfl
      rfl
    · cases h
  · cases h

theorem mem_generate_captures_capture {b : Board} {m : Move} (h : m ∈ b.generate_captures) :
    m.is_capture = true := by
  rcases List.mem_append.mp h with h' | h'
  · exact mem_genPawnCaptures_capture h'
  · exact mem_genPieceCaptures_capture h'

theorem mem_generate_captures_ne_null {b : Board} {m : Move} (h : m ∈ b.generate_captures) :
    m ≠ MOVE_NULL := by
  apply move_ne_null_of_mtype
  have := mem_generate_captures_capture h
  intro hq
  rw [Move.is_capture, hq] at this
  cases this

theorem attackSet_ne {pt : PieceType} {sq : Int} {occ : Bitboard} {st : Fin 64}
    (h : Board.attackSetOf pt sq occ st = true) : (st.val : Int) ≠ sq := by
  intro heq
  subst heq
  cases pt <;> simp only [Board.attackSetOf] at h
  · exact absurd h (by simp [emptyBB])
  · simp [knightAttackBB] at h
  · simp [bishopAttackBB] at h
  · simp [rookAttackBB] at h
  · simp [bbOrr, bishopAttackBB, rookAttackBB] at h
  · simp [kingAttackBB] at h

theorem mem_genPawnQuiets_ne_null {b : Board} {m : Move} (h : m ∈ b.genPawnQuiets) :
    m ≠ MOVE_NULL := by
  simp only [Board.genPawnQuiets, List.mem_flatMap] at h
  obtain ⟨sf, -, h⟩ := h
  split at h
  · rcases List.mem_append.mp h with h' | h'
    · split at h'
      · split at h'
        · simp only [List.mem_map, Board.promoQuietTypes, List.mem_cons,
            List.not_mem_nil, or_false] at h'
          obtain ⟨mt, hmt, rfl⟩ := h'
          rcases hmt with rfl | rfl | rfl | rfl <;> exact move_ne_null_of_mtype (by simp)
        · rcases List.mem_singleton.mp h' with rfl
          apply move_ne_null_of_sq
          simp only
          cases b.m_turn <;> simp [pawnDir] <;> omega
      · cases h'
    · split at h'
      · rcases List.mem_singleton.mp h' with rfl
        exact move_ne_null_of_mtype (by simp)
      · cases h'
  · cases h

theorem mem_genPieceQuiets_ne_null {b : Board} {m : Move} (h : m ∈ b.genPieceQuiets) :
    m ≠ MOVE_NULL := by
  simp only [Board.genPieceQuiets, List.mem_flatMap] at h
  obtain ⟨pt, -, sf, -, h⟩ := h
  split at h
  · simp only [List.mem_flatMap] at h
    obtain ⟨st, -, h⟩ := h
    split at h
    · next hcond =>
      rcases List.mem_singleton.mp h with rfl
      apply move_ne_null_of_sq
      have := attackSet_ne (Bool.and_elim_left hcond)
      simp only
      omega
    · cases h
  · cases h

theorem mem_genCastles_ne_null {b : Board} {m : Move} (h : m ∈ b.genCastles) :
    m ≠ MOVE_NULL := by
  simp only [Board.genCastles] at h
  rcases List.mem_append.mp h with h' | h'
  · split at h'
    · rcases List.mem_singleton.mp h' with rfl
      exact move_ne_null_of_mtype (by simp)
    · cases h'
  · split at h'
    · rcases List.mem_singleton.mp h' with rfl
      exact move_ne_null_of_mtype (by simp)
    · cases h'

theorem mem_generate_quiets_ne_null {b : Board} {m : Move} (h : m ∈ b.generate_quiets) :
    m ≠ MOVE_NULL := by
  rcases List.mem_append.mp h with h' | h'
  · rcases List.mem_append.mp h' with h'' | h''
    · exact mem_genPawnQuiets_ne_null h''
    · exact mem_genPieceQuiets_ne_null h''
  · exact mem_genCastles_ne_null h'

namespace MoveOrder

theorem noMovesStep_bundle (mo : MoveOrder) (hs : mo.m_stage = NO_MOVES)
    (hwf : mo.movesWF) : mo.StepOut (noMovesStep mo) := by
  unfold StepOut noMovesStep
  refine ⟨rfl, rfl, le_refl _, ?_, le_refl _, ?_, hwf, ?_, ?_, ?_, ?_, ?_, ?_⟩
  · intro h
    exact absurd rfl h
  · intro _
    exact Or.inr hs
  all_goals simp

theorem quietStep_bundle (mo : MoveOrder) (hs : mo.m_stage = MoveStage.QUIET)
    (hwf : mo.movesWF) : mo.StepOut (quietStep mo) := by
  unfold quietStep
  cases hscan : scanFirst
      (fun m => !(m == mo.m_hash_move) && !(m == mo.m_killer) && !(m == mo.m_countermove))
      (mo.m_moves.drop mo.m_curr) with
  | none =>
    simp only [hscan]
    unfold StepOut noMovesStep
    refine ⟨rfl, rfl, ?_, ?_, ?_, ?_, ?_, by simp, by simp, by simp, by simp, by simp, by simp⟩
    · rw [hs]
      simp [stageRank]
    · intro h
      exact absurd rfl h
    · simp only [phi, hs, bd]
      omega
    · intro _
      exact Or.inr rfl
    · intro m hm
      constructor
      · intro hc
        cases hc
      · intro hc
        cases hc
  | some r =>
    obtain ⟨mv, k⟩ := r
    have hsc := scanFirst_some hscan
    have hmem : mv ∈ mo.m_moves := List.mem_of_mem_drop hsc.2.1
    have hq : mv ∈ mo.bd.generate_quiets := ((hwf mv hmem).2) hs
    have hdroplen : (mo.m_moves.drop mo.m_curr).length = mo.m_moves.length - mo.m_curr := by
      simp
    simp only [hscan]
    unfold StepOut
    refine ⟨rfl, rfl, ?_, ?_, ?_, ?_, ?_, ?_, ?_, ?_, ?_, ?_, ?_⟩
    · rw [hs]
    · intro _
      simp only [phi, hs, bd]
      have h1 := hsc.2.2.1
      have h2 := hsc.2.2.2
      rw [hdroplen] at h2
      omega
    · simp only [phi, hs, bd]
      have h1 := hsc.2.2.1
      have h2 := hsc.2.2.2
      rw [hdroplen] at h2
      omega
    · intro hnull
      exact absurd hnull (mem_generate_quiets_ne_null hq)
    · intro m hm
      exact hwf m hm
    · intro h
      cases h
    · intro h
      cases h
    · intro h
      cases h
    · intro h
      cases h
    · intro _
      exact hq
    · intro h
      rcases h with h | h <;> cases h

theorem quietInitStep_bundle (mo : MoveOrder) (hs : mo.m_stage = QUIET_INIT)
    (hwf : mo.movesWF) : mo.StepOut (quietInitStep mo) := by
  have hspec := threshold_moves_spec mo.quiet_score (-3000 * mo.m_depth)
    mo.m_position.board.generate_quiets
  have hplen : (processedQuiets mo).length = mo.m_position.board.generate_quiets.length := by
    unfold processedQuiets
    rw [List.length_append, length_sortMoves, List.length_take, List.length_drop, hspec.1]
    have := hspec.2.1
    omega
  have hpmem : ∀ m ∈ processedQuiets mo, m ∈ mo.m_position.board.generate_quiets := by
    intro m hm
    unfold processedQuiets at hm
    rcases List.mem_append.mp hm with h' | h'
    · exact hspec.2.2 m (List.mem_of_mem_take (mem_sortMoves h'))
    · exact hspec.2.2 m (List.mem_of_mem_drop h')
  have hwf' : movesWF { mo with m_stage := MoveStage.QUIET, m_moves := processedQuiets mo, m_curr := 0 } := by
    intro m hm
    constructor
    · intro hc
      cases hc
    · intro _
      exact hpmem m hm
  have hb := quietStep_bundle _ rfl hwf'
  unfold quietInitStep
  unfold StepOut at hb ⊢
  obtain ⟨b1, b2, b3, b4, b5, b6, b7, b8, b9, b10, b11, b12, b13⟩ := hb
  have hphi : phi { mo with m_stage := MoveStage.QUIET, m_moves := processedQuiets mo, m_curr := 0 } < phi mo := by
    simp only [phi, hs, bd, hplen]
    omega
  refine ⟨b1, b2, ?_, ?_, ?_, b6, b7, b8, b9, b10, b11, b12, b13⟩
  · rw [hs]
    exact le_trans (by simp [stageRank]) b3
  · intro _
    exact lt_of_le_of_lt b5 hphi
  · exact le_of_lt (lt_of_le_of_lt b5 hphi)

end MoveOrder

namespace MoveOrder

theorem killersStep_bundle (mo : MoveOrder) (hs : mo.m_stage = KILLERS)
    (hwf : mo.movesWF) : mo.StepOut (killersStep mo) := by
  unfold killersStep
  cases hk : killerFind mo with
  | some c =>
    have hp := by
      unfold killerFind at hk
      exact List.find?_some hk
    have hlegal : mo.m_position.board.legal c = true := by
      simp only [Bool.and_eq_true] at hp
      exact hp.2
    have hnn : c ≠ MOVE_NULL := by
      intro hc
      rw [hc, legal_move_null] at hlegal
      cases hlegal
    simp only [hk]
    unfold StepOut
    refine ⟨rfl, rfl, ?_, ?_, ?_, ?_, ?_, ?_, ?_, ?_, ?_, ?_, ?_⟩
    · rw [hs]
      simp [stageRank]
    · intro _
      simp only [phi, hs, bd]
      omega
    · simp only [phi, hs, bd]
      omega
    · intro hnull
      exact absurd hnull hnn
    · intro m hm
      constructor
      · intro hc
        cases hc
      · intro hc
        cases hc
    · intro h
      cases h
    · intro h
      cases h
    · intro _
      exact ⟨hlegal, rfl⟩
    · intro h
      cases h
    · intro h
      cases h
    · intro h
      rcases h with h | h <;> cases h
  | none =>
    simp only [hk]
    have hwf' : movesWF { mo with m_stage := QUIET_INIT, m_killer := MOVE_NULL } := by
      intro m hm
      constructor
      · intro hc
        cases hc
      · intro hc
        cases hc
    have hb := quietInitStep_bundle { mo with m_stage := QUIET_INIT, m_killer := MOVE_NULL }
      rfl hwf'
    unfold StepOut at hb ⊢
    obtain ⟨b1, b2, b3, b4, b5, b6, b7, b8, b9, b10, b11, b12, b13⟩ := hb
    have hphi : phi { mo with m_stage := QUIET_INIT, m_killer := MOVE_NULL } < phi mo := by
      simp only [phi, hs, bd]
      omega
    refine ⟨b1, b2, ?_, ?_, ?_, b6, b7, b8, b9, b10, b11, b12, b13⟩
    · rw [hs]
      exact le_trans (by simp [stageRank]) b3
    · intro _
      exact lt_of_le_of_lt b5 hphi
    · exact le_of_lt (lt_of_le_of_lt b5 hphi)

theorem countermovesStep_bundle (mo : MoveOrder) (hs : mo.m_stage = COUNTERMOVES)
    (hwf : mo.movesWF) : mo.StepOut (countermovesStep mo) := by
  unfold countermovesStep
  by_cases hc : counterOk mo = true
  · rw [if_pos hc]
    have hlegal : mo.m_position.board.legal (counterCandidate mo) = true := by
      unfold counterOk at hc
      simp only [Bool.and_eq_true] at hc
      exact hc.2
    have hnn : counterCandidate mo ≠ MOVE_NULL := by
      intro h
      rw [h, legal_move_null] at hlegal
      cases hlegal
    unfold StepOut
    refine ⟨rfl, rfl, ?_, ?_, ?_, ?_, ?_, ?_, ?_, ?_, ?_, ?_, ?_⟩
    · rw [hs]
      simp [stageRank]
    · intro _
      simp only [phi, hs, bd]
      omega
    · simp only [phi, hs, bd]
      omega
    · intro hnull
      exact absurd hnull hnn
    · intro m hm
      constructor
      · intro h
        cases h
      · intro h
        cases h
    · intro h
      cases h
    · intro _
      exact hlegal
    · intro h
      cases h
    · intro h
      cases h
    · intro h
      cases h
    · intro h
      rcases h with h | h <;> cases h
  · rw [if_neg hc]
    have hwf' : movesWF { mo with m_stage := KILLERS } := by
      intro m hm
      constructor
      · intro h
        cases h
      · intro h
        cases h
    have hb := killersStep_bundle { mo with m_stage := KILLERS } rfl hwf'
    unfold StepOut at hb ⊢
    obtain ⟨b1, b2, b3, b4, b5, b6, b7, b8, b9, b10, b11, b12, b13⟩ := hb
    have hphi : phi { mo with m_stage := KILLERS } < phi mo := by
      simp only [phi, hs, bd]
      omega
    refine ⟨b1, b2, ?_, ?_, ?_, b6, b7, b8, b9, b10, b11, b12, b13⟩
    · rw [hs]
      exact le_trans (by simp [stageRank]) b3
    · intro _
      exact lt_of_le_of_lt b5 hphi
    · exact le_of_lt (lt_of_le_of_lt b5 hphi)

theorem capturesEndStep_bundle (mo : MoveOrder) (hs : mo.m_stage = CAPTURES_END)
    (hwf : mo.movesWF) : mo.StepOut (capturesEndStep mo) := by
  unfold capturesEndStep
  by_cases hc : (mo.m_quiescence && !mo.m_position.in_check) = true
  · rw [if_pos hc]
    unfold StepOut
    refine ⟨rfl, rfl, le_refl _, ?_, le_refl _, ?_, hwf, ?_, ?_, ?_, ?_, ?_, ?_⟩
    · intro h
      exact absurd rfl h
    · intro _
      exact Or.inl ⟨hs, hc⟩
    all_goals intro h
    · cases h
    · cases h
    · cases h
    · cases h
    · cases h
    · rfl
  · rw [if_neg hc]
    have hwf' : movesWF { mo with m_stage := COUNTERMOVES } := by
      intro m hm
      constructor
      · intro h
        cases h
      · intro h
        cases h
    have hb := countermovesStep_bundle { mo with m_stage := COUNTERMOVES } rfl hwf'
    unfold StepOut at hb ⊢
    obtain ⟨b1, b2, b3, b4, b5, b6, b7, b8, b9, b10, b11, b12, b13⟩ := hb
    have hphi : phi { mo with m_stage := COUNTERMOVES } = phi mo := by
      simp only [phi, hs, bd]
    refine ⟨b1, b2, ?_, ?_, ?_, b6, b7, b8, b9, b10, b11, b12, b13⟩
    · rw [hs]
      exact le_trans (by simp [stageRank]) b3
    · intro h
      exact lt_of_lt_of_le (b4 h) (le_of_eq hphi)
    · exact le_trans b5 (le_of_eq hphi)

end MoveOrder

namespace MoveOrder

theorem capturesStep_bundle (mo : MoveOrder) (hs : mo.m_stage = CAPTURES)
    (hwf : mo.movesWF) : mo.StepOut (capturesStep mo) := by
  unfold capturesStep
  cases hscan : scanFirst (fun m => !(m == mo.m_hash_move)) (mo.m_moves.drop mo.m_curr) with
  | none =>
    simp only [hscan]
    have hwf' : movesWF { mo with m_stage := CAPTURES_END, m_curr := mo.m_moves.length } := by
      intro m hm
      constructor
      · intro h
        cases h
      · intro h
        cases h
    have hb := capturesEndStep_bundle { mo with m_stage := CAPTURES_END, m_curr := mo.m_moves.length } rfl hwf'
    unfold StepOut at hb ⊢
    obtain ⟨b1, b2, b3, b4, b5, b6, b7, b8, b9, b10, b11, b12, b13⟩ := hb
    have hphi : phi { mo with m_stage := CAPTURES_END, m_curr := mo.m_moves.length } ≤ phi mo := by
      simp only [phi, hs, bd]
      omega
    refine ⟨b1, b2, ?_, ?_, ?_, b6, b7, b8, b9, b10, b11, b12, b13⟩
    · rw [hs]
      exact le_trans (by simp [stageRank]) b3
    · intro h
      exact lt_of_lt_of_le (b4 h) hphi
    · exact le_trans b5 hphi
  | some r =>
    obtain ⟨mv, k⟩ := r
    have hsc := scanFirst_some hscan
    have hmem : mv ∈ mo.m_moves := List.mem_of_mem_drop hsc.2.1
    have hq : mv ∈ mo.bd.generate_captures := ((hwf mv hmem).1) hs
    have hdroplen : (mo.m_moves.drop mo.m_curr).length = mo.m_moves.length - mo.m_curr := by
      simp
    simp only [hscan]
    unfold StepOut
    refine ⟨rfl, rfl, ?_, ?_, ?_, ?_, ?_, ?_, ?_, ?_, ?_, ?_, ?_⟩
    · rw [hs]
    · intro _
      simp only [phi, hs, bd]
      have h1 := hsc.2.2.1
      have h2 := hsc.2.2.2
      rw [hdroplen] at h2
      omega
    · simp only [phi, hs, bd]
      have h1 := hsc.2.2.1
      have h2 := hsc.2.2.2
      rw [hdroplen] at h2
      omega
    · intro hnull
      exact absurd hnull (mem_generate_captures_ne_null hq)
    · intro m hm
      exact hwf m hm
    · intro h
      cases h
    · intro h
      cases h
    · intro h
      cases h
    · intro _
      exact hq
    · intro h
      cases h
    · intro h
      rcases h with h | h <;> cases h

theorem capturesInitStep_bundle (mo : MoveOrder) (hs : mo.m_stage = CAPTURES_INIT)
    (hwf : mo.movesWF) : mo.StepOut (capturesInitStep mo) := by
  unfold capturesInitStep
  have hwf' : movesWF { mo with m_stage := CAPTURES, m_moves := sortedCaptures mo, m_curr := 0 } := by
    intro m hm
    constructor
    · intro _
      exact mem_sortMoves hm
    · intro h
      cases h
  have hb := capturesStep_bundle { mo with m_stage := CAPTURES, m_moves := sortedCaptures mo, m_curr := 0 } rfl hwf'
  unfold StepOut at hb ⊢
  obtain ⟨b1, b2, b3, b4, b5, b6, b7, b8, b9, b10, b11, b12, b13⟩ := hb
  have hphi : phi { mo with m_stage := CAPTURES, m_moves := sortedCaptures mo, m_curr := 0 }
      = phi mo := by
    simp only [phi, hs, bd]
    unfold sortedCaptures
    rw [length_sortMoves]
    simp
  refine ⟨b1, b2, ?_, ?_, ?_, b6, b7, b8, b9, b10, b11, b12, b13⟩
  · rw [hs]
    exact le_trans (by simp [stageRank]) b3
  · intro h
    exact lt_of_lt_of_le (b4 h) (le_of_eq hphi)
  · exact le_trans b5 (le_of_eq hphi)

theorem hashStep_bundle (mo : MoveOrder) (hs : mo.m_stage = HASH)
    (hwf : mo.movesWF) : mo.StepOut (hashStep mo) := by
  unfold hashStep
  by_cases hh : mo.acceptHash = true
  · rw [if_pos hh]
    have hlegal : mo.m_position.board.legal mo.m_hash_move = true := hh
    have hnn : mo.m_hash_move ≠ MOVE_NULL := by
      intro h
      rw [h, legal_move_null] at hlegal
      cases hlegal
    unfold StepOut
    refine ⟨rfl, rfl, ?_, ?_, ?_, ?_, ?_, ?_, ?_, ?_, ?_, ?_, ?_⟩
    · rw [hs]
      simp [stageRank]
    · intro _
      simp only [phi, hs, bd]
      omega
    · simp only [phi, hs, bd]
      omega
    · intro hnull
      exact absurd hnull hnn
    · intro m hm
      constructor
      · intro h
        cases h
      · intro h
        cases h
    · intro _
      exact hlegal
    · intro h
      cases h
    · intro h
      cases h
    · intro h
      cases h
    · intro h
      cases h
    · intro h
      rcases h with h | h <;> cases h
  · rw [if_neg hh]
    have hwf' : movesWF { mo with m_stage := CAPTURES_INIT } := by
      intro m hm
      constructor
      · intro h
        cases h
      · intro h
        cases h
    have hb := capturesInitStep_bundle { mo with m_stage := CAPTURES_INIT } rfl hwf'
    unfold StepOut at hb ⊢
    obtain ⟨b1, b2, b3, b4, b5, b6, b7, b8, b9, b10, b11, b12, b13⟩ := hb
    have hphi : phi { mo with m_stage := CAPTURES_INIT } < phi mo := by
      simp only [phi, hs, bd]
      omega
    refine ⟨b1, b2, ?_, ?_, ?_, b6, b7, b8, b9, b10, b11, b12, b13⟩
    · rw [hs]
      exact le_trans (by simp [stageRank]) b3
    · intro _
      exact lt_of_le_of_lt b5 hphi
    · exact le_of_lt (lt_of_le_of_lt b5 hphi)

/-- The bundle for a full next_move call. -/
theorem nextMoveT_bundle (mo : MoveOrder) (hwf : mo.movesWF) :
    mo.StepOut (mo.nextMoveT) := by
  cases hstage : mo.m_stage with
  | HASH =>
    rw [show mo.nextMoveT = hashStep mo by unfold nextMoveT; rw [hstage]]
    exact hashStep_bundle mo hstage hwf
  | CAPTURES_INIT =>
    rw [show mo.nextMoveT = capturesInitStep mo by unfold nextMoveT; rw [hstage]]
    exact capturesInitStep_bundle mo hstage hwf
  | CAPTURES =>
    rw [show mo.nextMoveT = capturesStep mo by unfold nextMoveT; rw [hstage]]
    exact capturesStep_bundle mo hstage hwf
  | CAPTURES_END =>
    rw [show mo.nextMoveT = capturesEndStep mo by unfold nextMoveT; rw [hstage]]
    exact capturesEndStep_bundle mo hstage hwf
  | COUNTERMOVES =>
    rw [show mo.nextMoveT = countermovesStep mo by unfold nextMoveT; rw [hstage]]
    exact countermovesStep_bundle mo hstage hwf
  | KILLERS =>
    rw [show mo.nextMoveT = killersStep mo by unfold nextMoveT; rw [hstage]]
    exact killersStep_bundle mo hstage hwf
  | QUIET_INIT =>
    rw [show mo.nextMoveT = quietInitStep mo by unfold nextMoveT; rw [hstage]]
    exact quietInitStep_bundle mo hstage hwf
  | QUIET =>
    rw [show mo.nextMoveT = quietStep mo by unfold nextMoveT; rw [hstage]]
    exact quietStep_bundle mo hstage hwf
  | NO_MOVES =>
    rw [show mo.nextMoveT = noMovesStep mo by unfold nextMoveT; rw [hstage]]
    exact noMovesStep_bundle mo hstage hwf

/-- A stuck cursor returns MOVE_NULL and stays put. -/
theorem nullStuck_next (mo : MoveOrder) (h : mo.nullStuck) :
    (mo.nextMoveT).1 = MOVE_NULL ∧ (mo.nextMoveT).2.1 = mo := by
  rcases h with ⟨hs, hc⟩ | hs
  · rw [show mo.nextMoveT = capturesEndStep mo by unfold nextMoveT; rw [hs]]
    unfold capturesEndStep
    rw [if_pos hc]
    exact ⟨rfl, rfl⟩
  · rw [show mo.nextMoveT = noMovesStep mo by unfold nextMoveT; rw [hs]]
    exact ⟨rfl, rfl⟩

end MoveOrder

/-- C4 counterexample: the pinned-bishop position is legal, yet the
first next_move call returns the capture e2xd3 which Board::legal
rejects (it leaves the white king in check from the rook on e8): moves
from the CAPTURES stage are only pseudo-legal. -/
theorem c4_next_move_cex :
    c4Pos.board.LegalBoard ∧
      (c4Cursor.next_move).1 = c4PinMove ∧ c4PinMove ≠ MOVE_NULL ∧
      c4Pos.board.legal c4PinMove = false :=
  ⟨by decide, by decide, by decide, by decide⟩

/-- C4 amended: every non-null move returned by next_move is fully
legal on the current board when it came from the HASH, COUNTERMOVES or
KILLERS branch, and is pseudo-legal generator output when it came from
the CAPTURES or QUIET branch; non-null returns never come from the
CAPTURES_END or NO_MOVES branches. -/
theorem c4_next_move_sound (mo : MoveOrder) (hwf : mo.movesWF)
    (hnn : (mo.nextMoveT).1 ≠ MOVE_NULL) :
    ((mo.nextMoveT).2.2 = HASH ∨ (mo.nextMoveT).2.2 = COUNTERMOVES ∨
        (mo.nextMoveT).2.2 = KILLERS →
      mo.m_position.board.legal (mo.nextMoveT).1 = true) ∧
    ((mo.nextMoveT).2.2 = CAPTURES →
      (mo.nextMoveT).1 ∈ mo.m_position.board.generate_captures) ∧
    ((mo.nextMoveT).2.2 = MoveStage.QUIET →
      (mo.nextMoveT).1 ∈ mo.m_position.board.generate_quiets) ∧
    (mo.nextMoveT).2.2 ≠ CAPTURES_END ∧ (mo.nextMoveT).2.2 ≠ NO_MOVES := by
  have hb := MoveOrder.nextMoveT_bundle mo hwf
  unfold MoveOrder.StepOut at hb
  obtain ⟨-, -, -, -, -, -, -, b8, b9, b10, b11, b12, b13⟩ := hb
  refine ⟨?_, b11, b12, ?_, ?_⟩
  · rintro (h | h | h)
    · exact b8 h
    · exact b9 h
    · exact (b10 h).1
  · intro h
    exact hnn (b13 (Or.inl h))
  · intro h
    exact hnn (b13 (Or.inr h))

/-- C4 amended witness: on the pinned-bishop cursor the first call's
return carries the CAPTURES tag and is a member of the board's
pseudo-legal capture list. -/
theorem c4_next_move_sound_witness :
    (c4Cursor.nextMoveT).2.2 = CAPTURES ∧
      (c4Cursor.nextMoveT).1 ∈ c4Pos.board.generate_captures :=
  ⟨by decide,
    (c4_next_move_sound c4Cursor (fun m hm => absurd hm (List.not_mem_nil m))
      (by decide)).2.1 (by decide)⟩

/-- C5 counterexample: both stored killers of the cursor's ply qualify
(legal quiet moves, different from the hash move and the null
countermove), yet the KILLERS stage returns only the first one across
the whole run: filtering the exhausted 14-call trace by the KILLERS
tag leaves exactly one move. -/
theorem c5_killers_cex :
    (c5Pos.board.legal c5Killer0 = true ∧ c5Pos.board.legal c5Killer1 = true ∧
      c5Killer0 ≠ c5Cursor.m_hash_move ∧ c5Killer1 ≠ c5Cursor.m_hash_move ∧
      c5Killer0 ≠ MOVE_NULL ∧ c5Killer1 ≠ MOVE_NULL ∧ c5Killer0 ≠ c5Killer1 ∧
      c5Cursor.m_histories.get_killer 0 c5Cursor.m_ply = c5Killer0 ∧
      c5Cursor.m_histories.get_killer 1 c5Cursor.m_ply = c5Killer1) ∧
    ((MoveOrder.traceT c5Cursor 14).filter fun r => r.2 == KILLERS).map Prod.fst
      = [c5Killer0] ∧
    MoveOrder.retAt c5Cursor 13 = MOVE_NULL :=
  ⟨⟨by decide, by decide, by decide, by decide, by decide, by decide, by decide,
    by decide, by decide⟩, by decide, by decide⟩

theorem quietStep_tag (mo : MoveOrder) :
    (MoveOrder.quietStep mo).2.2 = MoveStage.QUIET ∨ (MoveOrder.quietStep mo).2.2 = NO_MOVES := by
  unfold MoveOrder.quietStep
  cases hscan : MoveOrder.scanFirst
      (fun m => !(m == mo.m_hash_move) && !(m == mo.m_killer) && !(m == mo.m_countermove))
      (mo.m_moves.drop mo.m_curr) with
  | none => exact Or.inr rfl
  | some r => exact Or.inl rfl

theorem high_stage_tag (mo : MoveOrder) (h6 : 6 ≤ stageRank mo.m_stage) :
    (mo.nextMoveT).2.2 = MoveStage.QUIET ∨ (mo.nextMoveT).2.2 = NO_MOVES := by
  cases hstage : mo.m_stage with
  | QUIET_INIT =>
    rw [show mo.nextMoveT = MoveOrder.quietInitStep mo by unfold MoveOrder.nextMoveT; rw [hstage]]
    unfold MoveOrder.quietInitStep
    exact quietStep_tag _
  | QUIET =>
    rw [show mo.nextMoveT = MoveOrder.quietStep mo by unfold MoveOrder.nextMoveT; rw [hstage]]
    exact quietStep_tag _
  | NO_MOVES =>
    rw [show mo.nextMoveT = MoveOrder.noMovesStep mo by unfold MoveOrder.nextMoveT; rw [hstage]]
    exact Or.inr rfl
  | HASH => rw [hstage] at h6; simp [stageRank] at h6
  | CAPTURES_INIT => rw [hstage] at h6; simp [stageRank] at h6
  | CAPTURES => rw [hstage] at h6; simp [stageRank] at h6
  | CAPTURES_END => rw [hstage] at h6; simp [stageRank] at h6
  | COUNTERMOVES => rw [hstage] at h6; simp [stageRank] at h6
  | KILLERS => rw [hstage] at h6; simp [stageRank] at h6

theorem killersTag_zero (mo : MoveOrder) (h6 : 6 ≤ stageRank mo.m_stage)
    (hwf : mo.movesWF) (n : Nat) :
    (MoveOrder.traceT mo n).filter (fun r => r.2 == KILLERS) = [] := by
  induction n generalizing mo with
  | zero => rfl
  | succ n ih =>
    have hb := MoveOrder.nextMoveT_bundle mo hwf
    unfold MoveOrder.StepOut at hb
    obtain ⟨-, -, b3, -, -, -, b7, -, -, -, -, -, -⟩ := hb
    have htag := high_stage_tag mo h6
    unfold MoveOrder.traceT
    have hne : (((mo.nextMoveT).1, (mo.nextMoveT).2.2).2 == KILLERS) = false := by
      rcases htag with h | h <;> simp [h]
    rw [List.filter_cons, hne]
    simp only [Bool.false_eq_true, if_false]
    exact ih (mo.nextMoveT).2.1 (le_trans h6 b3) b7

/-- C5 amended: across any run of next_move calls the KILLERS branch
returns at most one move, and when the cursor sits at the KILLERS
stage the move it returns (if any) is exactly the first stored killer
differing from the hash move and the countermove and legal on the
board; the cursor then jumps to QUIET_INIT, skipping the remaining
killers. -/
theorem c5_killers_amended (mo : MoveOrder) (hwf : mo.movesWF) (n : Nat) :
    (((mo.traceT n).filter fun r => r.2 == KILLERS).map Prod.fst).length ≤ 1 ∧
    (mo.m_stage = KILLERS → ∀ c, MoveOrder.killerFind mo = some c →
      mo.nextMoveT = (c, { mo with m_stage := QUIET_INIT, m_killer := c }, KILLERS)) := by
  constructor
  · rw [List.length_map]
    induction n generalizing mo with
    | zero => simp [MoveOrder.traceT]
    | succ n ih =>
      have hb := MoveOrder.nextMoveT_bundle mo hwf
      unfold MoveOrder.StepOut at hb
      obtain ⟨-, -, -, -, -, -, b7, -, -, b10, -, -, -⟩ := hb
      unfold MoveOrder.traceT
      by_cases htag : (mo.nextMoveT).2.2 = KILLERS
      · have heq : (((mo.nextMoveT).1, (mo.nextMoveT).2.2).2 == KILLERS) = true := by
          simp [htag]
        rw [List.filter_cons, heq]
        have hz := killersTag_zero (mo.nextMoveT).2.1 (by rw [(b10 htag).2]; simp [stageRank]) b7 n
        simp only [if_true, hz, List.length_cons, List.length_nil]
        omega
      · have hne : (((mo.nextMoveT).1, (mo.nextMoveT).2.2).2 == KILLERS) = false := by
          simp [htag]
        rw [List.filter_cons, hne]
        simp only [Bool.false_eq_true, if_false]
        exact ih (mo.nextMoveT).2.1 b7
  · intro hs c hk
    rw [show mo.nextMoveT = MoveOrder.killersStep mo by unfold MoveOrder.nextMoveT; rw [hs]]
    unfold MoveOrder.killersStep
    rw [hk]

/-- C5 amended witness: at the KILLERS stage of the two-killer cursor
the scan finds the first killer and the call returns it, advancing to
QUIET_INIT. -/
theorem c5_killers_amended_witness :
    c5CursorK.nextMoveT =
      (c5Killer0, { c5CursorK with m_stage := QUIET_INIT, m_killer := c5Killer0 }, KILLERS) :=
  (c5_killers_amended c5CursorK (fun m hm => absurd hm (List.not_mem_nil m)) 0).2
    rfl c5Killer0 (by decide)

theorem stepped_shift (mo : MoveOrder) (n : Nat) :
    mo.stepped (n + 1) = ((mo.nextMoveT).2.1).stepped n := by
  induction n with
  | zero => rfl
  | succ n ih =>
    show ((mo.stepped (n + 1)).nextMoveT).2.1 = _
    rw [ih]
    rfl

theorem steppedWF (mo : MoveOrder) (hwf : mo.movesWF) (n : Nat) :
    (mo.stepped n).movesWF := by
  induction n with
  | zero => exact hwf
  | succ n ih =>
    have hb := MoveOrder.nextMoveT_bundle (mo.stepped n) ih
    exact hb.2.2.2.2.2.2.1

/-- Within phi-many further calls a MOVE_NULL return occurs. -/
theorem c9_exists_null (mo : MoveOrder) (hwf : mo.movesWF) :
    ∃ k : Nat, k ≤ mo.phi ∧ mo.retAt k = MOVE_NULL := by
  generalize hphi : mo.phi = N
  induction N using Nat.strong_induction_on generalizing mo with
  | _ N ih =>
    by_cases h : (mo.nextMoveT).1 = MOVE_NULL
    · exact ⟨0, Nat.zero_le _, h⟩
    · have hb := MoveOrder.nextMoveT_bundle mo hwf
      have hlt : MoveOrder.phi (mo.nextMoveT).2.1 < N := by
        rw [← hphi]
        exact hb.2.2.2.1 h
      obtain ⟨k, hk1, hk2⟩ :=
        ih (MoveOrder.phi (mo.nextMoveT).2.1) hlt (mo.nextMoveT).2.1
          hb.2.2.2.2.2.2.1 rfl
      refine ⟨k + 1, by omega, ?_⟩
      unfold MoveOrder.retAt
      rw [stepped_shift]
      exact hk2

/-- Once a call returns MOVE_NULL, the following call does too. -/
theorem c9_sticky (mo : MoveOrder) (hwf : mo.movesWF)
    (h : (mo.retAt 0) = MOVE_NULL) : mo.retAt 1 = MOVE_NULL := by
  have hb := MoveOrder.nextMoveT_bundle mo hwf
  have hstuck := hb.2.2.2.2.2.1 h
  have := MoveOrder.nullStuck_next _ hstuck
  unfold MoveOrder.retAt
  rw [stepped_shift]
  exact this.1

/-- C9: from a fresh cursor, next_move reaches MOVE_NULL after at most
pseudo-legal-move-count + 6 calls, and once MOVE_NULL is returned every
later call returns MOVE_NULL as well. -/
theorem c9_move_order_terminates (pos : Position) (ply depth : Int) (hm : Move)
    (hist : Histories) (prev : Move) (q : Bool) :
    ∃ k : Nat,
      k + 1 ≤ pos.board.generate_captures.length + pos.board.generate_quiets.length + 6 ∧
      (MoveOrder.init pos ply depth hm hist prev q).retAt k = MOVE_NULL ∧
      ∀ j, k ≤ j → (MoveOrder.init pos ply depth hm hist prev q).retAt j = MOVE_NULL := by
  set mo := MoveOrder.init pos ply depth hm hist prev q with hmo
  have hwf : mo.movesWF := fun m hm' => absurd hm' (List.not_mem_nil m)
  obtain ⟨k, hk1, hk2⟩ := c9_exists_null mo hwf
  have hphi : mo.phi = pos.board.generate_captures.length +
      pos.board.generate_quiets.length + 4 := by
    simp [MoveOrder.phi, hmo, MoveOrder.init, MoveOrder.bd]
  refine ⟨k, by omega, hk2, ?_⟩
  intro j hj
  induction j with
  | zero =>
    have hk0 : k = 0 := by omega
    rw [← hk0]
    exact hk2
  | succ j ihj =>
    by_cases hkj : k ≤ j
    · have hj' : mo.retAt j = MOVE_NULL := ihj hkj
      have h0 : (mo.stepped j).retAt 0 = MOVE_NULL := hj'
      exact c9_sticky (mo.stepped j) (steppedWF mo hwf j) h0
    · have hkj1 : k = j + 1 := by omega
      rw [← hkj1]
      exact hk2

theorem make_move_eq (b : Board) (move : Move) :
    b.make_move move =
      (Board.mmR5 b move (Board.mmR4 b move (Board.mmR3 b move
        (Board.mmR2 b move (Board.mmR1 b move))))).update_checkers := rfl

section FoldMachinery

variable {α β : Type}

theorem foldl_op_shift (op : β → β → β) (e : β)
    (hassoc : ∀ x y z, op (op x y) z = op x (op y z)) (hidr : ∀ x, op x e = x)
    (f : β → α → β) (hf : ∀ h x, f h x = op h (f e x)) :
    ∀ (l : List α) (init : β), l.foldl f init = op init (l.foldl f e) := by
  intro l
  induction l with
  | nil =>
    intro init
    simp only [List.foldl_nil]
    exact (hidr init).symm
  | cons y ys ih =>
    intro init
    simp only [List.foldl_cons]
    rw [ih (f init y), ih (f e y), hf init y, hassoc]

theorem foldl_congr_mem (f g : β → α → β) (l : List α)
    (h : ∀ x ∈ l, ∀ acc, f acc x = g acc x) :
    ∀ init, l.foldl f init = l.foldl g init := by
  induction l with
  | nil => intro init; rfl
  | cons y ys ih =>
    intro init
    simp only [List.foldl_cons]
    rw [h y (by simp)]
    exact ih (fun x hx acc => h x (by simp [hx]) acc) _

theorem foldl_op_single (op : β → β → β) (e : β)
    (hassoc : ∀ x y z, op (op x y) z = op x (op y z))
    (hcomm : ∀ x y, op x y = op y x) (hidr : ∀ x, op x e = x)
    [DecidableEq α] (g g' : α → β) (x0 : α) (d : β)
    (hne : ∀ x, x ≠ x0 → g' x = g x) (hx0 : g' x0 = op (g x0) d) :
    ∀ (l : List α), l.Nodup → x0 ∈ l →
      l.foldl (fun h x => op h (g' x)) e = op (l.foldl (fun h x => op h (g x)) e) d := by
  have hidl : ∀ x, op e x = x := fun x => (hcomm e x).trans (hidr x)
  have hshift : ∀ (gg : α → β) (l : List α) (init : β),
      l.foldl (fun h x => op h (gg x)) init = op init (l.foldl (fun h x => op h (gg x)) e) := by
    intro gg
    exact foldl_op_shift op e hassoc hidr _ (fun h x => by rw [hidl (gg x)])
  intro l
  induction l with
  | nil =>
    intro _ hmem
    cases hmem
  | cons y ys ih =>
    intro hnodup hmem
    simp only [List.foldl_cons]
    rw [hshift g' ys, hshift g ys]
    by_cases hy : y = x0
    · subst hy
      have hnotin : y ∉ ys := (List.nodup_cons.mp hnodup).1
      have hsame : ys.foldl (fun h x => op h (g' x)) e = ys.foldl (fun h x => op h (g x)) e := by
        apply foldl_congr_mem
        intro x hx acc
        rw [hne x (fun hxx => hnotin (hxx ▸ hx))]
      rw [hsame, hx0]
      rw [hidl, hidl]
      rw [hassoc, hcomm d _, ← hassoc]
    · rw [hne y hy]
      have hmem' : x0 ∈ ys := by
        rcases List.mem_cons.mp hmem with h | h
        · exact absurd h.symm hy
        · exact h
      rw [ih (List.nodup_cons.mp hnodup).2 hmem']
      exact (hassoc _ _ _).symm

end FoldMachinery

section FoldInstances

variable {α : Type}

theorem xor_foldl_shift (g : α → Nat) (l : List α) (init : Nat) :
    l.foldl (fun h x => h ^^^ g x) init = init ^^^ l.foldl (fun h x => h ^^^ g x) 0 :=
  foldl_op_shift (fun a b => a ^^^ b) 0 Nat.xor_assoc Nat.xor_zero _
    (fun h x => by rw [Nat.zero_xor]) l init

theorem xor_foldl_single [DecidableEq α] (g g' : α → Nat) (x0 : α) (d : Nat)
    (hne : ∀ x, x ≠ x0 → g' x = g x) (hx0 : g' x0 = g x0 ^^^ d)
    (l : List α) (hnd : l.Nodup) (hmem : x0 ∈ l) :
    l.foldl (fun h x => h ^^^ g' x) 0 = l.foldl (fun h x => h ^^^ g x) 0 ^^^ d :=
  foldl_op_single (fun a b => a ^^^ b) 0 Nat.xor_assoc Nat.xor_comm Nat.xor_zero
    g g' x0 d hne hx0 l hnd hmem

theorem msAdd_def (a b : MixedScore) : a + b = ⟨a.mg + b.mg, a.eg + b.eg⟩ := rfl

theorem msSub_def (a b : MixedScore) : a - b = ⟨a.mg - b.mg, a.eg - b.eg⟩ := rfl

theorem msEq_of (a b : MixedScore) (h1 : a.mg = b.mg) (h2 : a.eg = b.eg) : a = b := by
  cases a; cases b; simp_all

theorem ms_add_assoc (a b c : MixedScore) : a + b + c = a + (b + c) := by
  simp only [msAdd_def]; exact msEq_of _ _ (by ring) (by ring)

theorem ms_add_comm (a b : MixedScore) : a + b = b + a := by
  simp only [msAdd_def]; exact msEq_of _ _ (by ring) (by ring)

theorem ms_add_zero (a : MixedScore) : a + ⟨0, 0⟩ = a := by
  simp only [msAdd_def]; exact msEq_of _ _ (by ring) (by ring)

theorem ms_add_neg (a x : MixedScore) : a + msMul (-1) x = a - x := by
  simp only [msAdd_def, msSub_def, msMul]; exact msEq_of _ _ (by ring) (by ring)

theorem ms_foldl_shift (g : α → MixedScore) (l : List α) (init : MixedScore) :
    l.foldl (fun h x => h + g x) init = init + l.foldl (fun h x => h + g x) ⟨0, 0⟩ :=
  foldl_op_shift (fun a b => a + b) ⟨0, 0⟩ ms_add_assoc ms_add_zero _
    (fun h x => by rw [show (⟨0, 0⟩ : MixedScore) + g x = g x from (ms_add_comm _ _).trans (ms_add_zero _)]) l init

theorem ms_foldl_single [DecidableEq α] (g g' : α → MixedScore) (x0 : α) (d : MixedScore)
    (hne : ∀ x, x ≠ x0 → g' x = g x) (hx0 : g' x0 = g x0 + d)
    (l : List α) (hnd : l.Nodup) (hmem : x0 ∈ l) :
    l.foldl (fun h x => h + g' x) ⟨0, 0⟩ = l.foldl (fun h x => h + g x) ⟨0, 0⟩ + d :=
  foldl_op_single (fun a b => a + b) ⟨0, 0⟩ ms_add_assoc ms_add_comm ms_add_zero
    g g' x0 d hne hx0 l hnd hmem

theorem u8_u8_sub (a d : Int) : u8 (u8 a - d) = u8 (a - d) := by
  unfold u8
  show ((a % 256 : Int) - d) % 256 = (a - d) % 256
  rw [Int.sub_emod, Int.emod_emod_of_dvd _ (dvd_refl 256), ← Int.sub_emod]

theorem u8_u8 (a : Int) : u8 (u8 a) = u8 a := by
  unfold u8
  show ((a % 256 : Int)) % 256 = a % 256
  rw [Int.emod_emod_of_dvd _ (dvd_refl 256)]

theorem u8_foldl_shift (g : α → Int) :
    ∀ (l : List α) (a d : Int),
      l.foldl (fun ph x => u8 (ph - g x)) (u8 (a - d)) =
        u8 (l.foldl (fun ph x => u8 (ph - g x)) a - d) := by
  intro l
  induction l with
  | nil => intro a d; rfl
  | cons y ys ih =>
    intro a d
    simp only [List.foldl_cons]
    rw [u8_u8_sub, show a - d - g y = a - g y - d from by ring, ← u8_u8_sub (a - g y) d,
      ih (u8 (a - g y)) d]

theorem u8_foldl_single [DecidableEq α] (g g' : α → Int) (x0 : α) (d : Int)
    (hne : ∀ x, x ≠ x0 → g' x = g x) (hx0 : g' x0 = g x0 + d) :
    ∀ (l : List α), l.Nodup → x0 ∈ l → ∀ a,
      l.foldl (fun ph x => u8 (ph - g' x)) a =
        u8 (l.foldl (fun ph x => u8 (ph - g x)) a - d) := by
  intro l
  induction l with
  | nil => intro _ hmem; cases hmem
  | cons y ys ih =>
    intro hnd hmem a
    simp only [List.foldl_cons]
    by_cases hy : y = x0
    · subst hy
      have hnotin : y ∉ ys := (List.nodup_cons.mp hnd).1
      have hcongr : ys.foldl (fun ph x => u8 (ph - g' x)) (u8 (a - g' y)) =
          ys.foldl (fun ph x => u8 (ph - g x)) (u8 (a - g' y)) := by
        apply foldl_congr_mem
        intro x hx acc
        rw [hne x (fun hxx => hnotin (hxx ▸ hx))]
      rw [hcongr, hx0, show a - (g y + d) = a - g y - d from by ring, ← u8_u8_sub (a - g y) d,
        u8_foldl_shift]
    · rw [hne y hy]
      have hmem' : x0 ∈ ys := by
        rcases List.mem_cons.mp hmem with h | h
        · exact absurd h.symm hy
        · exact h
      exact ih (List.nodup_cons.mp hnd).2 hmem' (u8 (a - g y))

theorem u8_foldl_idem (g : α → Int) :
    ∀ (l : List α) (a : Int), u8 a = a →
      u8 (l.foldl (fun ph x => u8 (ph - g x)) a) = l.foldl (fun ph x => u8 (ph - g x)) a := by
  intro l
  induction l with
  | nil => intro a ha; exact ha
  | cons y ys ih =>
    intro a _
    simp only [List.foldl_cons]
    exact ih (u8 (a - g y)) (u8_u8 _)

theorem filter_flip_length [DecidableEq α] (p p' : α → Bool) (x0 : α)
    (hne : ∀ x, x ≠ x0 → p' x = p x) (h0 : p x0 = false) (h1 : p' x0 = true) :
    ∀ l : List α, l.Nodup → x0 ∈ l → (l.filter p').length = (l.filter p).length + 1 := by
  intro l
  induction l with
  | nil => intro _ hmem; cases hmem
  | cons y ys ih =>
    intro hnd hmem
    by_cases hy : y = x0
    · subst hy
      have hnotin : y ∉ ys := (List.nodup_cons.mp hnd).1
      have hcongr : ys.filter p' = ys.filter p := by
        apply List.filter_congr
        intro x hx
        rw [hne x (fun hxx => hnotin (hxx ▸ hx))]
      simp [List.filter_cons, h0, h1, hcongr]
    · have hmem' : x0 ∈ ys := by
        rcases List.mem_cons.mp hmem with h | h
        · exact absurd h.symm hy
        · exact h
      have hstep := ih (List.nodup_cons.mp hnd).2 hmem'
      simp only [List.filter_cons, hne y hy]
      by_cases hpy : p y = true
      · simp [hpy, hstep]
      · simp only [Bool.not_eq_true] at hpy
        simp [hpy, hstep]

end FoldInstances

namespace Board

theorem mem_turnPieceList (t : Turn) (pt : PieceType) : (t, pt) ∈ turnPieceList := by
  cases t <;> cases pt <;> decide

theorem nodup_turnPieceList : turnPieceList.Nodup := by decide

theorem mem_pieceTurnList (pt : PieceType) (t : Turn) : (pt, t) ∈ pieceTurnList := by
  cases t <;> cases pt <;> decide

theorem nodup_pieceTurnList : pieceTurnList.Nodup := by decide

theorem mem_castleList (side : CastleSide) (t : Turn) : (side, t) ∈ castleList := by
  cases side <;> cases t <;> decide

theorem nodup_castleList : castleList.Nodup := by decide

theorem pieceHash_congr {b b' : Board} (h : b'.m_pieces = b.m_pieces) :
    b'.pieceHash = b.pieceHash := by
  unfold pieceHash; rw [h]

theorem castleHash_congr {b b' : Board} (h : b'.m_castling_rights = b.m_castling_rights) :
    b'.castleHash = b.castleHash := by
  unfold castleHash; rw [h]

theorem psqCalc_congr {b b' : Board} (h : b'.m_pieces = b.m_pieces) :
    b'.psqCalc = b.psqCalc := by
  unfold psqCalc; rw [h]

theorem phaseCalc_congr {b b' : Board} (h : b'.m_pieces = b.m_pieces) :
    b'.phaseCalc = b.phaseCalc := by
  unfold phaseCalc; rw [h]

theorem PiecesOK_congr {b b' : Board} (hp : b'.m_pieces = b.m_pieces)
    (hm : b'.m_board_pieces = b.m_board_pieces) (h : b.PiecesOK) : b'.PiecesOK := by
  intro pt t s; rw [hp, hm]; exact h pt t s

theorem pieceHash_eq_fold (b : Board) :
    b.pieceHash = turnPieceList.foldl
      (fun h tp => h ^^^ (List.finRange 64).foldl
        (fun h' s => h' ^^^
          (if b.m_pieces tp.2 tp.1 s then Zobrist.get_piece_turn_square tp.2 tp.1 s else 0)) 0) 0 := by
  unfold pieceHash
  apply foldl_congr_mem
  intro tp _ acc
  have hinner : ∀ init : Nat,
      (List.finRange 64).foldl
        (fun h' s => if b.m_pieces tp.2 tp.1 s then h' ^^^ Zobrist.get_piece_turn_square tp.2 tp.1 s else h')
        init =
      (List.finRange 64).foldl
        (fun h' s => h' ^^^
          (if b.m_pieces tp.2 tp.1 s then Zobrist.get_piece_turn_square tp.2 tp.1 s else 0))
        init := by
    apply foldl_congr_mem
    intro x _ acc2
    by_cases hx : b.m_pieces tp.2 tp.1 x = true
    · simp [hx]
    · simp only [Bool.not_eq_true] at hx
      simp [hx]
  rw [hinner acc, xor_foldl_shift]

theorem pieceHash_flip (b b' : Board) (pt : PieceType) (t : Turn) (s : Fin 64)
    (hsame : ∀ pt' t', ¬(pt' = pt ∧ t' = t) → b'.m_pieces pt' t' = b.m_pieces pt' t')
    (hpt : ∀ s' : Fin 64, s' ≠ s → b'.m_pieces pt t s' = b.m_pieces pt t s')
    (hflip : b'.m_pieces pt t s = !(b.m_pieces pt t s)) :
    b'.pieceHash = b.pieceHash ^^^ Zobrist.get_piece_turn_square pt t s := by
  rw [pieceHash_eq_fold, pieceHash_eq_fold]
  apply xor_foldl_single
    (fun tp : Turn × PieceType =>
      (List.finRange 64).foldl
        (fun h' s' => h' ^^^
          (if b.m_pieces tp.2 tp.1 s' then Zobrist.get_piece_turn_square tp.2 tp.1 s' else 0)) 0)
    (fun tp : Turn × PieceType =>
      (List.finRange 64).foldl
        (fun h' s' => h' ^^^
          (if b'.m_pieces tp.2 tp.1 s' then Zobrist.get_piece_turn_square tp.2 tp.1 s' else 0)) 0)
    (t, pt) (Zobrist.get_piece_turn_square pt t s)
  · intro tp htp
    have hbb : b'.m_pieces tp.2 tp.1 = b.m_pieces tp.2 tp.1 := by
      apply hsame
      intro hc
      exact htp (Prod.ext (hc.2.symm ▸ rfl) (hc.1.symm ▸ rfl))
    rw [hbb]
  · show (List.finRange 64).foldl
        (fun h' s' => h' ^^^
          (if b'.m_pieces pt t s' then Zobrist.get_piece_turn_square pt t s' else 0)) 0 = _
    apply xor_foldl_single
      (fun s' => if b.m_pieces pt t s' then Zobrist.get_piece_turn_square pt t s' else 0)
      (fun s' => if b'.m_pieces pt t s' then Zobrist.get_piece_turn_square pt t s' else 0)
      s (Zobrist.get_piece_turn_square pt t s)
    · intro x hx; rw [hpt x hx]
    · rw [hflip]
      by_cases hb : b.m_pieces pt t s = true
      · simp [hb, Nat.xor_self]
      · simp only [Bool.not_eq_true] at hb
        simp [hb, Nat.zero_xor]
    · exact List.nodup_finRange 64
    · exact List.mem_finRange s
  · exact nodup_turnPieceList
  · exact mem_turnPieceList t pt

theorem psqCalc_eq_fold (b : Board) :
    b.psqCalc = pieceTurnList.foldl
      (fun ev pc => ev +
        (msMul ((bbCount (b.m_pieces pc.1 pc.2) : Int) * turn_to_color pc.2) (piece_value pc.1) +
          (List.finRange 64).foldl
            (fun ev2 s => ev2 +
              (if b.m_pieces pc.1 pc.2 s then msMul (turn_to_color pc.2) (piece_square pc.1 s pc.2)
               else ⟨0, 0⟩)) ⟨0, 0⟩)) ⟨0, 0⟩ := by
  unfold psqCalc
  apply foldl_congr_mem
  intro pc _ acc
  have hinner : ∀ init : MixedScore,
      (List.finRange 64).foldl
        (fun ev2 s => if b.m_pieces pc.1 pc.2 s then
            ev2 + msMul (turn_to_color pc.2) (piece_square pc.1 s pc.2) else ev2) init =
      (List.finRange 64).foldl
        (fun ev2 s => ev2 +
          (if b.m_pieces pc.1 pc.2 s then msMul (turn_to_color pc.2) (piece_square pc.1 s pc.2)
           else ⟨0, 0⟩)) init := by
    apply foldl_congr_mem
    intro x _ acc2
    by_cases hx : b.m_pieces pc.1 pc.2 x = true
    · simp [hx]
    · simp only [Bool.not_eq_true] at hx
      simp [hx, ms_add_zero]
  show (List.finRange 64).foldl _ (acc + _) = _
  rw [hinner (acc + msMul ((bbCount (b.m_pieces pc.1 pc.2) : Int) * turn_to_color pc.2) (piece_value pc.1)),
    ms_foldl_shift, ms_add_assoc]

theorem msMul_add (c : Int) (a b : MixedScore) : msMul c (a + b) = msMul c a + msMul c b := by
  simp only [msMul, msAdd_def]
  exact msEq_of _ _ (by ring) (by ring)

theorem psqCalc_flip_true (b b' : Board) (pt : PieceType) (t : Turn) (s : Fin 64)
    (hsame : ∀ pt' t', ¬(pt' = pt ∧ t' = t) → b'.m_pieces pt' t' = b.m_pieces pt' t')
    (hpt : ∀ s' : Fin 64, s' ≠ s → b'.m_pieces pt t s' = b.m_pieces pt t s')
    (h0 : b.m_pieces pt t s = false) (h1 : b'.m_pieces pt t s = true) :
    b'.psqCalc = b.psqCalc + msMul (turn_to_color t) (piece_value pt + piece_square pt s t) := by
  rw [psqCalc_eq_fold, psqCalc_eq_fold]
  apply ms_foldl_single
    (fun pc : PieceType × Turn =>
      msMul ((bbCount (b.m_pieces pc.1 pc.2) : Int) * turn_to_color pc.2) (piece_value pc.1) +
        (List.finRange 64).foldl
          (fun ev2 s' => ev2 +
            (if b.m_pieces pc.1 pc.2 s' then msMul (turn_to_color pc.2) (piece_square pc.1 s' pc.2)
             else ⟨0, 0⟩)) ⟨0, 0⟩)
    (fun pc : PieceType × Turn =>
      msMul ((bbCount (b'.m_pieces pc.1 pc.2) : Int) * turn_to_color pc.2) (piece_value pc.1) +
        (List.finRange 64).foldl
          (fun ev2 s' => ev2 +
            (if b'.m_pieces pc.1 pc.2 s' then msMul (turn_to_color pc.2) (piece_square pc.1 s' pc.2)
             else ⟨0, 0⟩)) ⟨0, 0⟩)
    (pt, t) (msMul (turn_to_color t) (piece_value pt + piece_square pt s t))
  · intro pc hpc
    have hbb : b'.m_pieces pc.1 pc.2 = b.m_pieces pc.1 pc.2 := by
      apply hsame
      intro hc
      exact hpc (Prod.ext (hc.1.symm ▸ rfl) (hc.2.symm ▸ rfl))
    rw [hbb]
  · have hcount : bbCount (b'.m_pieces pt t) = bbCount (b.m_pieces pt t) + 1 := by
      apply filter_flip_length (fun s' => b.m_pieces pt t s') (fun s' => b'.m_pieces pt t s') s
        hpt h0 h1 _ (List.nodup_finRange 64) (List.mem_finRange s)
    have hinner : (List.finRange 64).foldl
        (fun ev2 s' => ev2 +
          (if b'.m_pieces pt t s' then msMul (turn_to_color t) (piece_square pt s' t)
           else ⟨0, 0⟩)) ⟨0, 0⟩ =
        (List.finRange 64).foldl
          (fun ev2 s' => ev2 +
            (if b.m_pieces pt t s' then msMul (turn_to_color t) (piece_square pt s' t)
             else ⟨0, 0⟩)) ⟨0, 0⟩ + msMul (turn_to_color t) (piece_square pt s t) := by
      apply ms_foldl_single
        (fun s' => if b.m_pieces pt t s' then msMul (turn_to_color t) (piece_square pt s' t) else ⟨0, 0⟩)
        (fun s' => if b'.m_pieces pt t s' then msMul (turn_to_color t) (piece_square pt s' t) else ⟨0, 0⟩)
        s (msMul (turn_to_color t) (piece_square pt s t))
      · intro x hx; rw [hpt x hx]
      · rw [h0, h1]
        simp only [if_true, if_false]
        exact ((ms_add_comm _ _).trans (ms_add_zero _)).symm
      · exact List.nodup_finRange 64
      · exact List.mem_finRange s
    show msMul ((bbCount (b'.m_pieces pt t) : Int) * turn_to_color t) (piece_value pt) + _ = _
    rw [hcount, hinner]
    simp only [msMul_add]
    apply msEq_of <;> simp [msAdd_def, msMul] <;> push_cast <;> ring
  · exact nodup_pieceTurnList
  · exact mem_pieceTurnList pt t

theorem psqCalc_flip_false (b b' : Board) (pt : PieceType) (t : Turn) (s : Fin 64)
    (hsame : ∀ pt' t', ¬(pt' = pt ∧ t' = t) → b'.m_pieces pt' t' = b.m_pieces pt' t')
    (hpt : ∀ s' : Fin 64, s' ≠ s → b'.m_pieces pt t s' = b.m_pieces pt t s')
    (h0 : b.m_pieces pt t s = true) (h1 : b'.m_pieces pt t s = false) :
    b'.psqCalc = b.psqCalc - msMul (turn_to_color t) (piece_value pt + piece_square pt s t) := by
  have h := psqCalc_flip_true b' b pt t s
    (fun pt' t' hc => (hsame pt' t' hc).symm) (fun s' hs' => (hpt s' hs').symm) h1 h0
  rw [h]
  simp only [msAdd_def, msSub_def]
  exact msEq_of _ _ (by ring) (by ring)

theorem phaseCalc_flip_true (b b' : Board) (pt : PieceType) (t : Turn) (s : Fin 64)
    (hsame : ∀ pt' t', ¬(pt' = pt ∧ t' = t) → b'.m_pieces pt' t' = b.m_pieces pt' t')
    (hpt : ∀ s' : Fin 64, s' ≠ s → b'.m_pieces pt t s' = b.m_pieces pt t s')
    (h0 : b.m_pieces pt t s = false) (h1 : b'.m_pieces pt t s = true) :
    b'.phaseCalc = u8 (b.phaseCalc - Phases.Pieces pt) := by
  unfold phaseCalc
  apply u8_foldl_single
    (fun pc : PieceType × Turn => (bbCount (b.m_pieces pc.1 pc.2) : Int) * Phases.Pieces pc.1)
    (fun pc : PieceType × Turn => (bbCount (b'.m_pieces pc.1 pc.2) : Int) * Phases.Pieces pc.1)
    (pt, t) (Phases.Pieces pt)
  · intro pc hpc
    have hbb : b'.m_pieces pc.1 pc.2 = b.m_pieces pc.1 pc.2 := by
      apply hsame
      intro hc
      exact hpc (Prod.ext (hc.1.symm ▸ rfl) (hc.2.symm ▸ rfl))
    rw [hbb]
  · have hcount : bbCount (b'.m_pieces pt t) = bbCount (b.m_pieces pt t) + 1 := by
      apply filter_flip_length (fun s' => b.m_pieces pt t s') (fun s' => b'.m_pieces pt t s') s
        hpt h0 h1 _ (List.nodup_finRange 64) (List.mem_finRange s)
    show (bbCount (b'.m_pieces pt t) : Int) * Phases.Pieces pt = _
    rw [hcount]
    push_cast
    ring
  · exact nodup_pieceTurnList
  · exact mem_pieceTurnList pt t

theorem u8_u8_add (a d : Int) : u8 (u8 a + d) = u8 (a + d) := by
  unfold u8
  show ((a % 256 : Int) + d) % 256 = (a + d) % 256
  rw [Int.add_emod, Int.emod_emod_of_dvd _ (dvd_refl 256), ← Int.add_emod]

theorem phaseCalc_u8 (b : Board) : u8 b.phaseCalc = b.phaseCalc := by
  unfold phaseCalc
  exact u8_foldl_idem _ _ _ (by decide)

theorem phaseCalc_flip_false (b b' : Board) (pt : PieceType) (t : Turn) (s : Fin 64)
    (hsame : ∀ pt' t', ¬(pt' = pt ∧ t' = t) → b'.m_pieces pt' t' = b.m_pieces pt' t')
    (hpt : ∀ s' : Fin 64, s' ≠ s → b'.m_pieces pt t s' = b.m_pieces pt t s')
    (h0 : b.m_pieces pt t s = true) (h1 : b'.m_pieces pt t s = false) :
    b'.phaseCalc = u8 (b.phaseCalc + Phases.Pieces pt) := by
  have h := phaseCalc_flip_true b' b pt t s
    (fun pt' t' hc => (hsame pt' t' hc).symm) (fun s' hs' => (hpt s' hs').symm) h1 h0
  rw [h, u8_u8_add, show b'.phaseCalc - Phases.Pieces pt + Phases.Pieces pt = b'.phaseCalc from by ring,
    phaseCalc_u8]

end Board

theorem finmk_coe (s : Fin 64) (h : ((s : Int)).toNat < 64) :
    (⟨((s : Int)).toNat, h⟩ : Fin 64) = s := Fin.ext (by simp)

theorem bbTest_fin (bb : Bitboard) (s : Fin 64) : bbTest bb (s : Int) = bb s := by
  unfold bbTest
  rw [dif_pos ⟨Int.natCast_nonneg _, by exact_mod_cast s.isLt⟩, finmk_coe]

theorem bbTest_of_range (bb : Bitboard) (z : Int) (h : 0 ≤ z ∧ z < 64) :
    bbTest bb z = bb ⟨z.toNat, by omega⟩ := by
  unfold bbTest
  rw [dif_pos h]

namespace Board

theorem set_piece_eq (b : Board) (pt : PieceType) (t : Turn) (s : Fin 64) :
    b.set_piece pt t (s : Int) =
      { b with
        m_pieces := fun pt' t' =>
          if pt' = pt ∧ t' = t then (fun s' => if s' = s then true else b.m_pieces pt t s')
          else b.m_pieces pt' t',
        m_board_pieces := fun s' => if s' = s then some (pt, t) else b.m_board_pieces s',
        m_hash := b.m_hash ^^^ Zobrist.get_piece_turn_square pt t s,
        m_psq := b.m_psq + msMul (turn_to_color t) (piece_value pt + piece_square pt s t),
        m_phase := u8 (b.m_phase - Phases.Pieces pt) } := by
  have hr : 0 ≤ (s : Int) ∧ (s : Int) < 64 := ⟨Int.natCast_nonneg _, by exact_mod_cast s.isLt⟩
  unfold set_piece
  rw [dif_pos hr, finmk_coe]

theorem pop_piece_eq (b : Board) (pt : PieceType) (t : Turn) (s : Fin 64) :
    b.pop_piece pt t (s : Int) =
      { b with
        m_pieces := fun pt' t' =>
          if pt' = pt ∧ t' = t then (fun s' => if s' = s then false else b.m_pieces pt t s')
          else b.m_pieces pt' t',
        m_board_pieces := fun s' => if s' = s then none else b.m_board_pieces s',
        m_hash := b.m_hash ^^^ Zobrist.get_piece_turn_square pt t s,
        m_psq := b.m_psq - msMul (turn_to_color t) (piece_value pt + piece_square pt s t),
        m_phase := u8 (b.m_phase + Phases.Pieces pt) } := by
  have hr : 0 ≤ (s : Int) ∧ (s : Int) < 64 := ⟨Int.natCast_nonneg _, by exact_mod_cast s.isLt⟩
  unfold pop_piece
  rw [dif_pos hr, finmk_coe]

theorem set_piece_PiecesOK (b : Board) (pt : PieceType) (t : Turn) (s : Fin 64)
    (hP : b.PiecesOK) (hemp : b.m_board_pieces s = none) :
    (b.set_piece pt t (s : Int)).PiecesOK := by
  rw [set_piece_eq]
  intro pt' t' s'
  show (if pt' = pt ∧ t' = t then (fun s'' => if s'' = s then true else b.m_pieces pt t s'')
        else b.m_pieces pt' t') s' =
      decide ((if s' = s then some (pt, t) else b.m_board_pieces s') = some (pt', t'))
  by_cases hs : s' = s
  · subst hs
    by_cases hco : pt' = pt ∧ t' = t
    · obtain ⟨h1, h2⟩ := hco
      subst h1; subst h2
      simp
    · rw [if_neg hco, hP pt' t' s', hemp, if_pos rfl]
      have : ¬((pt, t) = (pt', t')) := by
        intro hcc
        exact hco ⟨(Prod.mk.injEq _ _ _ _ ▸ hcc).1.symm, (Prod.mk.injEq _ _ _ _ ▸ hcc).2.symm⟩
      simp [this]
  · rw [if_neg hs]
    by_cases hco : pt' = pt ∧ t' = t
    · obtain ⟨h1, h2⟩ := hco
      subst h1; subst h2
      rw [if_pos ⟨rfl, rfl⟩]
      show (if s' = s then true else b.m_pieces pt' t' s') = _
      rw [if_neg hs]
      exact hP pt' t' s'
    · rw [if_neg hco]
      exact hP pt' t' s'

theorem pop_piece_PiecesOK (b : Board) (pt : PieceType) (t : Turn) (s : Fin 64)
    (hP : b.PiecesOK) (hocc : b.m_board_pieces s = some (pt, t)) :
    (b.pop_piece pt t (s : Int)).PiecesOK := by
  rw [pop_piece_eq]
  intro pt' t' s'
  show (if pt' = pt ∧ t' = t then (fun s'' => if s'' = s then false else b.m_pieces pt t s'')
        else b.m_pieces pt' t') s' =
      decide ((if s' = s then none else b.m_board_pieces s') = some (pt', t'))
  by_cases hs : s' = s
  · subst hs
    by_cases hco : pt' = pt ∧ t' = t
    · obtain ⟨h1, h2⟩ := hco
      subst h1; subst h2
      simp
    · rw [if_neg hco, hP pt' t' s', hocc, if_pos rfl]
      simp
      intro h1 h2
      exact absurd ⟨h1.symm, h2.symm⟩ hco
  · rw [if_neg hs]
    by_cases hco : pt' = pt ∧ t' = t
    · obtain ⟨h1, h2⟩ := hco
      subst h1; subst h2
      rw [if_pos ⟨rfl, rfl⟩]
      show (if s' = s then false else b.m_pieces pt' t' s') = _
      rw [if_neg hs]
      exact hP pt' t' s'
    · rw [if_neg hco]
      exact hP pt' t' s'

theorem set_piece_pieceHash (b : Board) (pt : PieceType) (t : Turn) (s : Fin 64)
    (h0 : b.m_pieces pt t s = false) :
    (b.set_piece pt t (s : Int)).pieceHash =
      b.pieceHash ^^^ Zobrist.get_piece_turn_square pt t s := by
  apply pieceHash_flip _ _ pt t s
  · intro pt' t' hco
    rw [set_piece_eq]
    exact if_neg hco
  · intro s' hs'
    rw [set_piece_eq]
    show (if pt = pt ∧ t = t then (fun s'' => if s'' = s then true else b.m_pieces pt t s'')
          else b.m_pieces pt t) s' = _
    rw [if_pos ⟨rfl, rfl⟩]
    exact if_neg hs'
  · rw [set_piece_eq, h0]
    show (if pt = pt ∧ t = t then (fun s'' => if s'' = s then true else b.m_pieces pt t s'')
          else b.m_pieces pt t) s = _
    rw [if_pos ⟨rfl, rfl⟩]
    exact if_pos rfl

theorem pop_piece_pieceHash (b : Board) (pt : PieceType) (t : Turn) (s : Fin 64)
    (h1 : b.m_pieces pt t s = true) :
    (b.pop_piece pt t (s : Int)).pieceHash =
      b.pieceHash ^^^ Zobrist.get_piece_turn_square pt t s := by
  apply pieceHash_flip _ _ pt t s
  · intro pt' t' hco
    rw [pop_piece_eq]
    exact if_neg hco
  · intro s' hs'
    rw [pop_piece_eq]
    show (if pt = pt ∧ t = t then (fun s'' => if s'' = s then false else b.m_pieces pt t s'')
          else b.m_pieces pt t) s' = _
    rw [if_pos ⟨rfl, rfl⟩]
    exact if_neg hs'
  · rw [pop_piece_eq, h1]
    show (if pt = pt ∧ t = t then (fun s'' => if s'' = s then false else b.m_pieces pt t s'')
          else b.m_pieces pt t) s = _
    rw [if_pos ⟨rfl, rfl⟩]
    exact if_pos rfl

theorem set_piece_psqCalc (b : Board) (pt : PieceType) (t : Turn) (s : Fin 64)
    (h0 : b.m_pieces pt t s = false) :
    (b.set_piece pt t (s : Int)).psqCalc =
      b.psqCalc + msMul (turn_to_color t) (piece_value pt + piece_square pt s t) := by
  apply psqCalc_flip_true _ _ pt t s
  · intro pt' t' hco
    rw [set_piece_eq]
    exact if_neg hco
  · intro s' hs'
    rw [set_piece_eq]
    show (if pt = pt ∧ t = t then (fun s'' => if s'' = s then true else b.m_pieces pt t s'')
          else b.m_pieces pt t) s' = _
    rw [if_pos ⟨rfl, rfl⟩]
    exact if_neg hs'
  · exact h0
  · rw [set_piece_eq]
    show (if pt = pt ∧ t = t then (fun s'' => if s'' = s then true else b.m_pieces pt t s'')
          else b.m_pieces pt t) s = _
    rw [if_pos ⟨rfl, rfl⟩]
    exact if_pos rfl

theorem pop_piece_psqCalc (b : Board) (pt : PieceType) (t : Turn) (s : Fin 64)
    (h1 : b.m_pieces pt t s = true) :
    (b.pop_piece pt t (s : Int)).psqCalc =
      b.psqCalc - msMul (turn_to_color t) (piece_value pt + piece_square pt s t) := by
  apply psqCalc_flip_false _ _ pt t s
  · intro pt' t' hco
    rw [pop_piece_eq]
    exact if_neg hco
  · intro s' hs'
    rw [pop_piece_eq]
    show (if pt = pt ∧ t = t then (fun s'' => if s'' = s then false else b.m_pieces pt t s'')
          else b.m_pieces pt t) s' = _
    rw [if_pos ⟨rfl, rfl⟩]
    exact if_neg hs'
  · exact h1
  · rw [pop_piece_eq]
    show (if pt = pt ∧ t = t then (fun s'' => if s'' = s then false else b.m_pieces pt t s'')
          else b.m_pieces pt t) s = _
    rw [if_pos ⟨rfl, rfl⟩]
    exact if_pos rfl

theorem set_piece_phaseCalc (b : Board) (pt : PieceType) (t : Turn) (s : Fin 64)
    (h0 : b.m_pieces pt t s = false) :
    (b.set_piece pt t (s : Int)).phaseCalc = u8 (b.phaseCalc - Phases.Pieces pt) := by
  apply phaseCalc_flip_true _ _ pt t s
  · intro pt' t' hco
    rw [set_piece_eq]
    exact if_neg hco
  · intro s' hs'
    rw [set_piece_eq]
    show (if pt = pt ∧ t = t then (fun s'' => if s'' = s then true else b.m_pieces pt t s'')
          else b.m_pieces pt t) s' = _
    rw [if_pos ⟨rfl, rfl⟩]
    exact if_neg hs'
  · exact h0
  · rw [set_piece_eq]
    show (if pt = pt ∧ t = t then (fun s'' => if s'' = s then true else b.m_pieces pt t s'')
          else b.m_pieces pt t) s = _
    rw [if_pos ⟨rfl, rfl⟩]
    exact if_pos rfl

theorem pop_piece_phaseCalc (b : Board) (pt : PieceType) (t : Turn) (s : Fin 64)
    (h1 : b.m_pieces pt t s = true) :
    (b.pop_piece pt t (s : Int)).phaseCalc = u8 (b.phaseCalc + Phases.Pieces pt) := by
  apply phaseCalc_flip_false _ _ pt t s
  · intro pt' t' hco
    rw [pop_piece_eq]
    exact if_neg hco
  · intro s' hs'
    rw [pop_piece_eq]
    show (if pt = pt ∧ t = t then (fun s'' => if s'' = s then false else b.m_pieces pt t s'')
          else b.m_pieces pt t) s' = _
    rw [if_pos ⟨rfl, rfl⟩]
    exact if_neg hs'
  · exact h1
  · rw [pop_piece_eq]
    show (if pt = pt ∧ t = t then (fun s'' => if s'' = s then false else b.m_pieces pt t s'')
          else b.m_pieces pt t) s = _
    rw [if_pos ⟨rfl, rfl⟩]
    exact if_pos rfl

end Board

namespace Board

theorem set_piece_fields (b : Board) (pt : PieceType) (t : Turn) (s : Fin 64) :
    (b.set_piece pt t (s : Int)).m_turn = b.m_turn ∧
    (b.set_piece pt t (s : Int)).m_castling_rights = b.m_castling_rights ∧
    (b.set_piece pt t (s : Int)).m_enpassant_square = b.m_enpassant_square ∧
    (b.set_piece pt t (s : Int)).m_half_move_clock = b.m_half_move_clock ∧
    (b.set_piece pt t (s : Int)).m_full_move_clock = b.m_full_move_clock ∧
    (b.set_piece pt t (s : Int)).m_hash = b.m_hash ^^^ Zobrist.get_piece_turn_square pt t s ∧
    (b.set_piece pt t (s : Int)).m_psq =
      b.m_psq + msMul (turn_to_color t) (piece_value pt + piece_square pt s t) ∧
    (b.set_piece pt t (s : Int)).m_phase = u8 (b.m_phase - Phases.Pieces pt) := by
  rw [set_piece_eq]
  exact ⟨rfl, rfl, rfl, rfl, rfl, rfl, rfl, rfl⟩

theorem set_piece_mailbox (b : Board) (pt : PieceType) (t : Turn) (s : Fin 64) (s' : Fin 64) :
    (b.set_piece pt t (s : Int)).m_board_pieces s' =
      if s' = s then some (pt, t) else b.m_board_pieces s' := by
  rw [set_piece_eq]

theorem pop_piece_fields (b : Board) (pt : PieceType) (t : Turn) (s : Fin 64) :
    (b.pop_piece pt t (s : Int)).m_turn = b.m_turn ∧
    (b.pop_piece pt t (s : Int)).m_castling_rights = b.m_castling_rights ∧
    (b.pop_piece pt t (s : Int)).m_enpassant_square = b.m_enpassant_square ∧
    (b.pop_piece pt t (s : Int)).m_half_move_clock = b.m_half_move_clock ∧
    (b.pop_piece pt t (s : Int)).m_full_move_clock = b.m_full_move_clock ∧
    (b.pop_piece pt t (s : Int)).m_hash = b.m_hash ^^^ Zobrist.get_piece_turn_square pt t s ∧
    (b.pop_piece pt t (s : Int)).m_psq =
      b.m_psq - msMul (turn_to_color t) (piece_value pt + piece_square pt s t) ∧
    (b.pop_piece pt t (s : Int)).m_phase = u8 (b.m_phase + Phases.Pieces pt) := by
  rw [pop_piece_eq]
  exact ⟨rfl, rfl, rfl, rfl, rfl, rfl, rfl, rfl⟩

theorem pop_piece_mailbox (b : Board) (pt : PieceType) (t : Turn) (s : Fin 64) (s' : Fin 64) :
    (b.pop_piece pt t (s : Int)).m_board_pieces s' =
      if s' = s then none else b.m_board_pieces s' := by
  rw [pop_piece_eq]

theorem set_piece_castleHash (b : Board) (pt : PieceType) (t : Turn) (s : Fin 64) :
    (b.set_piece pt t (s : Int)).castleHash = b.castleHash :=
  castleHash_congr (set_piece_fields b pt t s).2.1

theorem pop_piece_castleHash (b : Board) (pt : PieceType) (t : Turn) (s : Fin 64) :
    (b.pop_piece pt t (s : Int)).castleHash = b.castleHash :=
  castleHash_congr (pop_piece_fields b pt t s).2.1

theorem castleHash_shift (b : Board) (init : Nat) :
    castleList.foldl
      (fun h ct =>
        if b.m_castling_rights ct.1 ct.2 then h ^^^ Zobrist.get_castle_side_turn ct.1 ct.2 else h)
      init = init ^^^ b.castleHash := by
  have hcongr : ∀ ini : Nat,
      castleList.foldl
        (fun h ct =>
          if b.m_castling_rights ct.1 ct.2 then h ^^^ Zobrist.get_castle_side_turn ct.1 ct.2 else h)
        ini =
      castleList.foldl
        (fun h ct =>
          h ^^^ (if b.m_castling_rights ct.1 ct.2 then Zobrist.get_castle_side_turn ct.1 ct.2 else 0))
        ini := by
    intro ini
    apply foldl_congr_mem
    intro ct _ acc
    by_cases hc : b.m_castling_rights ct.1 ct.2 = true
    · simp [hc]
    · simp only [Bool.not_eq_true] at hc
      simp [hc]
  rw [hcongr init, xor_foldl_shift]
  unfold castleHash
  rw [hcongr 0]

theorem generate_hash_eq_Hsum (b : Board) : b.generate_hash = b.Hsum := by
  have h1 : b.generate_hash =
      castleList.foldl
        (fun h ct =>
          if b.m_castling_rights ct.1 ct.2 then h ^^^ Zobrist.get_castle_side_turn ct.1 ct.2 else h)
        ((if b.m_turn = BLACK then b.pieceHash ^^^ Zobrist.get_black_move else b.pieceHash) ^^^
          b.epTerm) := by
    simp only [generate_hash, epTerm, pieceHash]
    by_cases hep : b.m_enpassant_square ≠ SQUARE_NULL
    · rw [if_pos hep, if_pos hep]
    · rw [if_neg hep, if_neg hep, Nat.xor_zero]
  rw [h1, castleHash_shift]
  unfold Hsum turnTerm
  by_cases hturn : b.m_turn = BLACK
  · rw [if_pos hturn, if_pos hturn]
  · rw [if_neg hturn, if_neg hturn, Nat.xor_zero]

end Board

namespace Board

theorem set_castling_false_spec (b : Board) (side : CastleSide) (t : Turn) :
    (b.set_castling false side t).m_pieces = b.m_pieces ∧
    (b.set_castling false side t).m_board_pieces = b.m_board_pieces ∧
    (b.set_castling false side t).m_turn = b.m_turn ∧
    (b.set_castling false side t).m_enpassant_square = b.m_enpassant_square ∧
    (b.set_castling false side t).m_half_move_clock = b.m_half_move_clock ∧
    (b.set_castling false side t).m_full_move_clock = b.m_full_move_clock ∧
    (b.set_castling false side t).m_psq = b.m_psq ∧
    (b.set_castling false side t).m_phase = b.m_phase ∧
    (∀ side' t', (b.set_castling false side t).m_castling_rights side' t' =
      if side' = side ∧ t' = t then false else b.m_castling_rights side' t') ∧
    (b.set_castling false side t).m_hash =
      b.m_hash ^^^ (if b.m_castling_rights side t then Zobrist.get_castle_side_turn side t else 0) ∧
    (b.set_castling false side t).castleHash =
      b.castleHash ^^^
        (if b.m_castling_rights side t then Zobrist.get_castle_side_turn side t else 0) := by
  by_cases hrt : b.m_castling_rights side t = false
  · unfold set_castling
    rw [if_pos hrt]
    rw [hrt]
    refine ⟨rfl, rfl, rfl, rfl, rfl, rfl, rfl, rfl, ?_, ?_, ?_⟩
    · intro side' t'
      by_cases hc : side' = side ∧ t' = t
      · rw [if_pos hc, hc.1, hc.2, hrt]
      · rw [if_neg hc]
    · simp
    · simp
  · have hrt' : b.m_castling_rights side t = true := by
      revert hrt
      cases b.m_castling_rights side t <;> simp
    unfold set_castling
    rw [hrt']
    rw [if_neg (by simp)]
    refine ⟨rfl, rfl, rfl, rfl, rfl, rfl, rfl, rfl, fun side' t' => rfl, ?_, ?_⟩
    · simp [hrt']
    · rw [if_pos rfl]
      show castleHash
          { b with
            m_castling_rights := fun side' t' =>
              if side' = side ∧ t' = t then false else b.m_castling_rights side' t',
            m_hash := b.m_hash ^^^ Zobrist.get_castle_side_turn side t } =
        b.castleHash ^^^ Zobrist.get_castle_side_turn side t
      unfold castleHash
      have hcongr : ∀ (rts : CastleSide → Turn → Bool) (ini : Nat),
          castleList.foldl
            (fun h ct => if rts ct.1 ct.2 then h ^^^ Zobrist.get_castle_side_turn ct.1 ct.2 else h)
            ini =
          castleList.foldl
            (fun h ct =>
              h ^^^ (if rts ct.1 ct.2 then Zobrist.get_castle_side_turn ct.1 ct.2 else 0))
            ini := by
        intro rts ini
        apply foldl_congr_mem
        intro ct _ acc
        by_cases hc : rts ct.1 ct.2 = true
        · simp [hc]
        · simp only [Bool.not_eq_true] at hc
          simp [hc]
      rw [hcongr, hcongr]
      apply xor_foldl_single
        (fun ct : CastleSide × Turn =>
          if b.m_castling_rights ct.1 ct.2 then Zobrist.get_castle_side_turn ct.1 ct.2 else 0)
        (fun ct : CastleSide × Turn =>
          if (if ct.1 = side ∧ ct.2 = t then false else b.m_castling_rights ct.1 ct.2) then
            Zobrist.get_castle_side_turn ct.1 ct.2
          else 0)
        (side, t) (Zobrist.get_castle_side_turn side t)
      · intro ct hct
        have hinner : (if ct.1 = side ∧ ct.2 = t then false else b.m_castling_rights ct.1 ct.2) =
            b.m_castling_rights ct.1 ct.2 :=
          if_neg (fun hc => hct (Prod.ext hc.1 hc.2))
        rw [hinner]
      · have hinner : (if side = side ∧ t = t then false else b.m_castling_rights side t) =
            false := if_pos ⟨rfl, rfl⟩
        rw [hinner, hrt']
        simp
      · exact nodup_castleList
      · exact mem_castleList side t

theorem get_pieces_iff (b : Board) (hP : b.PiecesOK) (s : Fin 64) :
    b.get_pieces s = true ↔ b.m_board_pieces s ≠ none := by
  constructor
  · intro h
    unfold get_pieces at h
    rw [List.any_eq_true] at h
    obtain ⟨pc, _, hpc⟩ := h
    rw [hP pc.1 pc.2 s, decide_eq_true_eq] at hpc
    rw [hpc]
    simp
  · intro h
    match hmb : b.m_board_pieces s with
    | none => exact absurd hmb h
    | some pc =>
      unfold get_pieces
      rw [List.any_eq_true]
      exact ⟨pc, mem_pieceTurnList pc.1 pc.2, by rw [hP pc.1 pc.2 s, hmb]; simp⟩

theorem get_pieces_none (b : Board) (hP : b.PiecesOK) (s : Fin 64)
    (h : b.m_board_pieces s = none) : b.get_pieces s = false := by
  revert h
  have := get_pieces_iff b hP s
  cases hg : b.get_pieces s
  · intro _; rfl
  · intro h
    exact absurd (this.mp hg) (by simp [h])

theorem get_pieces_of_iff (b : Board) (hP : b.PiecesOK) (t : Turn) (s : Fin 64) :
    b.get_pieces_of t s = true ↔ ∃ pt, b.m_board_pieces s = some (pt, t) := by
  constructor
  · intro h
    unfold get_pieces_of at h
    rw [List.any_eq_true] at h
    obtain ⟨pt, _, hpt⟩ := h
    rw [hP pt t s, decide_eq_true_eq] at hpt
    exact ⟨pt, hpt⟩
  · intro ⟨pt, hpt⟩
    unfold get_pieces_of
    rw [List.any_eq_true]
    refine ⟨pt, ?_, by rw [hP pt t s, hpt]; simp⟩
    cases pt <;> decide

theorem get_piece_at_fin (b : Board) (s : Fin 64) :
    b.get_piece_at (s : Int) = (b.m_board_pieces s).map Prod.fst := by
  unfold get_piece_at
  rw [dif_pos ⟨Int.natCast_nonneg _, by exact_mod_cast s.isLt⟩, finmk_coe]
  match b.m_board_pieces s with
  | none => rfl
  | some pc => rfl

end Board


namespace Board

theorem disjoint_fold_none (b : Board) :
    ∀ l : List (PieceType × Turn),
      (l.foldl
        (fun acc pc =>
          match acc with
          | none => none
          | some occ =>
            if bbAny (bbAnd (b.m_pieces pc.1 pc.2) occ) then none
            else some (bbOrr occ (b.m_pieces pc.1 pc.2)))
        none) = none := by
  intro l
  induction l with
  | nil => rfl
  | cons q l ih => exact ih

theorem disjoint_fold_cons (b : Board) (q : PieceType × Turn) (l : List (PieceType × Turn))
    (occ : Bitboard) :
    ((q :: l).foldl
      (fun acc pc =>
        match acc with
        | none => none
        | some occ' =>
          if bbAny (bbAnd (b.m_pieces pc.1 pc.2) occ') then none
          else some (bbOrr occ' (b.m_pieces pc.1 pc.2)))
      (some occ)) =
      l.foldl
        (fun acc pc =>
          match acc with
          | none => none
          | some occ' =>
            if bbAny (bbAnd (b.m_pieces pc.1 pc.2) occ') then none
            else some (bbOrr occ' (b.m_pieces pc.1 pc.2)))
        (if bbAny (bbAnd (b.m_pieces q.1 q.2) occ) then none
         else some (bbOrr occ (b.m_pieces q.1 q.2))) := rfl

theorem disjointCheck_of_PiecesOK (b : Board) (hP : b.PiecesOK) : b.disjointCheck = true := by
  have key : ∀ (l : List (PieceType × Turn)) (occ : Bitboard),
      l.Nodup →
      (∀ (s : Fin 64) pc, pc ∈ l → b.m_board_pieces s = some pc → occ s = false) →
      (l.foldl
        (fun acc pc =>
          match acc with
          | none => none
          | some occ' =>
            if bbAny (bbAnd (b.m_pieces pc.1 pc.2) occ') then none
            else some (bbOrr occ' (b.m_pieces pc.1 pc.2)))
        (some occ)).isSome = true := by
    intro l
    induction l with
    | nil => intro occ _ _; rfl
    | cons q l ih =>
      intro occ hnd hocc
      have hany : bbAny (bbAnd (b.m_pieces q.1 q.2) occ) = false := by
        apply (bbAny_eq_false_iff _).mpr
        funext s
        show (b.m_pieces q.1 q.2 s && occ s) = false
        cases hq : b.m_pieces q.1 q.2 s
        · rfl
        · rw [hP q.1 q.2 s, decide_eq_true_eq] at hq
          rw [hocc s q (List.mem_cons_self q l) hq]
          rfl
      rw [disjoint_fold_cons, hany]
      simp only [Bool.false_eq_true, if_false]
      apply ih (bbOrr occ (b.m_pieces q.1 q.2)) (List.nodup_cons.mp hnd).2
      intro s pc hpc hmb
      show (occ s || b.m_pieces q.1 q.2 s) = false
      have hq : q ∉ l := (List.nodup_cons.mp hnd).1
      have h1 : occ s = false := hocc s pc (List.mem_cons_of_mem q hpc) hmb
      have h2 : b.m_pieces q.1 q.2 s = false := by
        rw [hP q.1 q.2 s, hmb]
        simp only [decide_eq_false_iff_not]
        intro hcc
        apply hq
        have hpcq : pc = q := by injection hcc
        exact hpcq ▸ hpc
      rw [h1, h2]
      rfl
  unfold disjointCheck
  apply key _ emptyBB nodup_pieceTurnList
  intro s pc _ _
  rfl

theorem mailboxCheck_of_PiecesOK (b : Board) (hP : b.PiecesOK) : b.mailboxCheck = true := by
  unfold mailboxCheck
  rw [List.all_eq_true]
  intro s _
  match hmb : b.m_board_pieces s with
  | none =>
    show (!b.get_pieces s) = true
    rw [get_pieces_none b hP s hmb]
    rfl
  | some pc =>
    show b.m_pieces pc.1 pc.2 s = true
    rw [hP pc.1 pc.2 s, hmb]
    simp

theorem PiecesOK_of_checks (b : Board) (hd : b.disjointCheck = true)
    (hm : b.mailboxCheck = true) : b.PiecesOK := by
  have hmb : ∀ s : Fin 64,
      (match b.m_board_pieces s with
       | none => !b.get_pieces s
       | some pc => b.m_pieces pc.1 pc.2 s) = true := by
    unfold mailboxCheck at hm
    rw [List.all_eq_true] at hm
    intro s
    exact hm s (List.mem_finRange s)
  have key2 : ∀ (l : List (PieceType × Turn)) (occ : Bitboard),
      ((l.foldl
        (fun acc pc =>
          match acc with
          | none => none
          | some occ' =>
            if bbAny (bbAnd (b.m_pieces pc.1 pc.2) occ') then none
            else some (bbOrr occ' (b.m_pieces pc.1 pc.2)))
        (some occ)).isSome = true) →
      ∀ (s : Fin 64) pc, pc ∈ l → b.m_pieces pc.1 pc.2 s = true →
        occ s = false ∧ ∀ pc', pc' ∈ l → pc' ≠ pc → b.m_pieces pc'.1 pc'.2 s = false := by
    intro l
    induction l with
    | nil => intro occ _ s pc hpc; cases hpc
    | cons q l ih =>
      intro occ hsome s pc hpc hbit
      rw [disjoint_fold_cons] at hsome
      have hany : bbAny (bbAnd (b.m_pieces q.1 q.2) occ) = false := by
        by_contra hc
        rw [Bool.not_eq_false] at hc
        rw [hc] at hsome
        simp only [if_true] at hsome
        rw [disjoint_fold_none] at hsome
        cases hsome
      rw [hany] at hsome
      simp only [Bool.false_eq_true, if_false] at hsome
      have hdisjq : ∀ s' : Fin 64, b.m_pieces q.1 q.2 s' = true → occ s' = false := by
        intro s' hbq
        have hpt := congrFun ((bbAny_eq_false_iff _).mp hany) s'
        revert hpt
        show (b.m_pieces q.1 q.2 s' && occ s') = emptyBB s' → _
        rw [hbq]
        simp [emptyBB]
      rcases List.mem_cons.mp hpc with hq | hl
      · subst hq
        refine ⟨hdisjq s hbit, ?_⟩
        intro pc' hpc' hne
        rcases List.mem_cons.mp hpc' with hq' | hl'
        · exact absurd hq' hne
        · by_contra hc
          rw [Bool.not_eq_false] at hc
          have hres := (ih (bbOrr occ (b.m_pieces pc.1 pc.2)) hsome s pc' hl' hc).1
          revert hres
          show (occ s || b.m_pieces pc.1 pc.2 s) = false → False
          rw [hbit]
          simp
      · have hres := ih (bbOrr occ (b.m_pieces q.1 q.2)) hsome s pc hl hbit
        have hor : (occ s || b.m_pieces q.1 q.2 s) = false := hres.1
        rw [Bool.or_eq_false_iff] at hor
        refine ⟨hor.1, ?_⟩
        intro pc' hpc' hne
        rcases List.mem_cons.mp hpc' with hq' | hl'
        · subst hq'
          exact hor.2
        · exact hres.2 pc' hl' hne
  have hmb2 : ∀ (s : Fin 64) pc, b.m_board_pieces s = some pc → b.m_pieces pc.1 pc.2 s = true := by
    intro s pc h
    have hx := hmb s
    rw [h] at hx
    exact hx
  have hmb3 : ∀ s : Fin 64, b.m_board_pieces s = none → b.get_pieces s = false := by
    intro s h
    have hx := hmb s
    rw [h] at hx
    have hx2 : (!b.get_pieces s) = true := hx
    simp at hx2
    exact hx2
  intro pt t s
  cases hbit : b.m_pieces pt t s
  · apply Eq.symm
    simp only [decide_eq_false_iff_not]
    intro hcc
    have hbt : b.m_pieces pt t s = true := hmb2 s (pt, t) hcc
    rw [hbit] at hbt
    cases hbt
  · apply Eq.symm
    rw [decide_eq_true_eq]
    have hsome : (pieceTurnList.foldl
        (fun acc pc =>
          match acc with
          | none => none
          | some occ' =>
            if bbAny (bbAnd (b.m_pieces pc.1 pc.2) occ') then none
            else some (bbOrr occ' (b.m_pieces pc.1 pc.2)))
        (some emptyBB)).isSome = true := hd
    have hres := key2 pieceTurnList emptyBB hsome s (pt, t) (mem_pieceTurnList pt t) hbit
    match hmbs : b.m_board_pieces s with
    | none =>
      exfalso
      have hgf := hmb3 s hmbs
      have hgp : b.get_pieces s = true := by
        unfold get_pieces
        rw [List.any_eq_true]
        exact ⟨(pt, t), mem_pieceTurnList pt t, hbit⟩
      rw [hgp] at hgf
      cases hgf
    | some pc =>
      by_cases hpc : pc = (pt, t)
      · rw [hpc]
      · exfalso
        have hbc := hmb2 s pc hmbs
        have hcontra := hres.2 pc (mem_pieceTurnList pc.1 pc.2) hpc
        rw [hbc] at hcontra
        cases hcontra

end Board

namespace Board

theorem is_valid_parts (b : Board) (h : b.is_valid = true) :
    b.check1 = true ∧ b.disjointCheck = true ∧ b.mailboxCheck = true ∧
    b.m_hash = b.generate_hash ∧ b.phaseCalc = b.m_phase ∧ b.psqCalc = b.m_psq := by
  unfold is_valid at h
  simp only [Bool.and_eq_true, beq_iff_eq] at h
  obtain ⟨⟨⟨⟨⟨h1, h2⟩, h3⟩, h4⟩, h5⟩, h6, h7⟩ := h
  exact ⟨h1, h2, h3, h4, h5, msEq_of _ _ h6 h7⟩

theorem is_valid_build (b : Board) (h1 : b.check1 = true) (h2 : b.disjointCheck = true)
    (h3 : b.mailboxCheck = true) (h4 : b.m_hash = b.generate_hash)
    (h5 : b.phaseCalc = b.m_phase) (h6 : b.psqCalc = b.m_psq) : b.is_valid = true := by
  unfold is_valid
  rw [h1, h2, h3, h4, h5, h6]
  simp

theorem update_checkers_checkersOK (b : Board) : (b.update_checkers).checkersOK := rfl

theorem legal_eq (b : Board) (m : Move) :
    b.legal m =
      (if m.fromSq = m.toSq then false
       else if m.is_ep_capture &&
           (b.m_enpassant_square = SQUARE_NULL ∨ m.toSq ≠ b.m_enpassant_square) then false
       else if m.move_type = INVALID_1 ∨ m.move_type = INVALID_2 then false
       else if !bbTest (b.get_pieces_of b.m_turn) m.fromSq ||
           bbTest (b.get_pieces_of b.m_turn) m.toSq then false
       else if bbTest
           (if m.is_ep_capture && b.get_piece_at m.fromSq = some PAWN &&
               b.m_enpassant_square ≠ SQUARE_NULL then
             bbSetAt (fun s => b.get_pieces s && !(b.get_pieces_of b.m_turn) s)
               b.m_enpassant_square
           else (fun s => b.get_pieces s && !(b.get_pieces_of b.m_turn) s)) m.toSq ≠
           m.is_capture then false
       else if b.get_piece_at m.fromSq ≠ some PAWN &&
           (m.is_double_pawn_push || m.is_ep_capture || m.is_promotion) then false
       else if b.get_piece_at m.fromSq ≠ some KING && m.is_castle then false
       else
         match b.get_piece_at m.fromSq with
         | some pt => b.legalPiece pt m b.get_pieces
         | none => false) := rfl

theorem legal_decompose (b : Board) (m : Move) (hm : b.legal m = true) :
    m.fromSq ≠ m.toSq ∧
    (m.is_ep_capture = true → b.m_enpassant_square ≠ SQUARE_NULL ∧ m.toSq = b.m_enpassant_square) ∧
    bbTest (b.get_pieces_of b.m_turn) m.fromSq = true ∧
    bbTest (b.get_pieces_of b.m_turn) m.toSq = false ∧
    (m.is_ep_capture = false →
      bbTest (fun s => b.get_pieces s && !(b.get_pieces_of b.m_turn) s) m.toSq = m.is_capture) ∧
    ((m.is_double_pawn_push || m.is_ep_capture || m.is_promotion) = true →
      b.get_piece_at m.fromSq = some PAWN) ∧
    (m.is_castle = true → b.get_piece_at m.fromSq = some KING) ∧
    ∃ pt, b.get_piece_at m.fromSq = some pt ∧ b.legalPiece pt m b.get_pieces = true := by
  rw [legal_eq] at hm
  by_cases h1 : m.fromSq = m.toSq
  · rw [if_pos h1] at hm; cases hm
  rw [if_neg h1] at hm
  by_cases h2 : (m.is_ep_capture &&
      (decide (b.m_enpassant_square = SQUARE_NULL ∨ m.toSq ≠ b.m_enpassant_square))) = true
  · rw [if_pos h2] at hm; cases hm
  rw [if_neg h2] at hm
  by_cases h3 : m.move_type = INVALID_1 ∨ m.move_type = INVALID_2
  · rw [if_pos h3] at hm; cases hm
  rw [if_neg h3] at hm
  by_cases h4 : (!bbTest (b.get_pieces_of b.m_turn) m.fromSq ||
      bbTest (b.get_pieces_of b.m_turn) m.toSq) = true
  · rw [if_pos h4] at hm; cases hm
  rw [if_neg h4] at hm
  by_cases h5 : bbTest
      (if m.is_ep_capture && b.get_piece_at m.fromSq = some PAWN &&
          b.m_enpassant_square ≠ SQUARE_NULL then
        bbSetAt (fun s => b.get_pieces s && !(b.get_pieces_of b.m_turn) s) b.m_enpassant_square
      else (fun s => b.get_pieces s && !(b.get_pieces_of b.m_turn) s)) m.toSq ≠ m.is_capture
  · rw [if_pos h5] at hm; cases hm
  rw [if_neg h5] at hm
  by_cases h6 : (decide (b.get_piece_at m.fromSq ≠ some PAWN) &&
      (m.is_double_pawn_push || m.is_ep_capture || m.is_promotion)) = true
  · rw [if_pos h6] at hm; cases hm
  rw [if_neg h6] at hm
  by_cases h7 : (decide (b.get_piece_at m.fromSq ≠ some KING) && m.is_castle) = true
  · rw [if_pos h7] at hm; cases hm
  rw [if_neg h7] at hm
  rw [not_not] at h5
  simp only [Bool.and_eq_true, decide_eq_true_eq, not_and] at h2 h6 h7
  simp only [Bool.or_eq_true, Bool.not_eq_true', not_or] at h4
  obtain ⟨h4a, h4b⟩ := h4
  have hC : bbTest (b.get_pieces_of b.m_turn) m.fromSq = true := by
    cases hx : bbTest (b.get_pieces_of b.m_turn) m.fromSq
    · exact absurd hx h4a
    · rfl
  have hD : bbTest (b.get_pieces_of b.m_turn) m.toSq = false := by
    cases hx : bbTest (b.get_pieces_of b.m_turn) m.toSq
    · rfl
    · exact absurd hx h4b
  refine ⟨h1, ?_, hC, hD, ?_, ?_, ?_, ?_⟩
  · intro hep
    have hno := h2 hep
    rw [not_or] at hno
    exact ⟨hno.1, not_not.mp hno.2⟩
  · intro hepf
    have hguard : (m.is_ep_capture && decide (b.get_piece_at m.fromSq = some PAWN) &&
        decide (b.m_enpassant_square ≠ SQUARE_NULL)) = false := by
      rw [hepf]
      rfl
    rw [hguard] at h5
    simp only [Bool.false_eq_true, if_false] at h5
    exact h5
  · intro hflags
    by_cases hp : b.get_piece_at m.fromSq = some PAWN
    · exact hp
    · exact absurd hflags (by
        intro hf
        exact absurd hf (by simp [h6 hp]))
  · intro hcastle
    by_cases hp : b.get_piece_at m.fromSq = some KING
    · exact hp
    · exact absurd (h7 hp) (by simp [hcastle])
  · match hpc : b.get_piece_at m.fromSq with
    | none =>
      rw [hpc] at hm
      cases hm
    | some pt =>
      rw [hpc] at hm
      exact ⟨pt, rfl, hm⟩

end Board

theorem xor_left_comm (a b c : Nat) : a ^^^ (b ^^^ c) = b ^^^ (a ^^^ c) := by
  rw [← Nat.xor_assoc, Nat.xor_comm a b, Nat.xor_assoc]

theorem xor_cancel_left (a b : Nat) : a ^^^ (a ^^^ b) = b := by
  rw [← Nat.xor_assoc, Nat.xor_self, Nat.zero_xor]

theorem bbTest_true_range (bb : Bitboard) (z : Int) (h : bbTest bb z = true) :
    0 ≤ z ∧ z < 64 := by
  by_cases hr : 0 ≤ z ∧ z < 64
  · exact hr
  · unfold bbTest at h
    rw [dif_neg hr] at h
    cases h

namespace Board

theorem epTerm_congr {b b' : Board} (h : b'.m_enpassant_square = b.m_enpassant_square) :
    b'.epTerm = b.epTerm := by
  unfold epTerm; rw [h]

theorem turnTerm_congr {b b' : Board} (h : b'.m_turn = b.m_turn) :
    b'.turnTerm = b.turnTerm := by
  unfold turnTerm; rw [h]

theorem PiecesOK_bit_none (b : Board) (hP : b.PiecesOK) (pt : PieceType) (t : Turn) (s : Fin 64)
    (hemp : b.m_board_pieces s = none) : b.m_pieces pt t s = false := by
  rw [hP pt t s, hemp]
  rfl

theorem PiecesOK_bit_some (b : Board) (hP : b.PiecesOK) (pt : PieceType) (t : Turn) (s : Fin 64)
    (hocc : b.m_board_pieces s = some (pt, t)) : b.m_pieces pt t s = true := by
  rw [hP pt t s, hocc]
  simp

theorem midInv_set_piece (b r : Board) (pt : PieceType) (t : Turn) (s : Fin 64)
    (h : midInv b r) (hemp : r.m_board_pieces s = none) :
    midInv b (r.set_piece pt t (s : Int)) := by
  obtain ⟨hP, hturn, hpsq, hphase, hX⟩ := h
  have hbit : r.m_pieces pt t s = false := PiecesOK_bit_none r hP pt t s hemp
  obtain ⟨f1, f2, f3, f4, f5, f6, f7, f8⟩ := set_piece_fields r pt t s
  refine ⟨set_piece_PiecesOK r pt t s hP hemp, f1.trans hturn, ?_, ?_, ?_⟩
  · rw [set_piece_psqCalc r pt t s hbit, f7, hpsq]
  · rw [set_piece_phaseCalc r pt t s hbit, f8, hphase]
  · rw [set_piece_pieceHash r pt t s hbit, f6, set_piece_castleHash r pt t s,
      epTerm_congr f3]
    rw [← hX]
    simp [Nat.xor_assoc, Nat.xor_comm, xor_left_comm, Nat.xor_self, Nat.xor_zero,
      xor_cancel_left]

theorem midInv_pop_piece (b r : Board) (pt : PieceType) (t : Turn) (s : Fin 64)
    (h : midInv b r) (hocc : r.m_board_pieces s = some (pt, t)) :
    midInv b (r.pop_piece pt t (s : Int)) := by
  obtain ⟨hP, hturn, hpsq, hphase, hX⟩ := h
  have hbit : r.m_pieces pt t s = true := PiecesOK_bit_some r hP pt t s hocc
  obtain ⟨f1, f2, f3, f4, f5, f6, f7, f8⟩ := pop_piece_fields r pt t s
  refine ⟨pop_piece_PiecesOK r pt t s hP hocc, f1.trans hturn, ?_, ?_, ?_⟩
  · rw [pop_piece_psqCalc r pt t s hbit, f7, hpsq]
  · rw [pop_piece_phaseCalc r pt t s hbit, f8, hphase]
  · rw [pop_piece_pieceHash r pt t s hbit, f6, pop_piece_castleHash r pt t s,
      epTerm_congr f3]
    rw [← hX]
    simp [Nat.xor_assoc, Nat.xor_comm, xor_left_comm, Nat.xor_self, Nat.xor_zero,
      xor_cancel_left]

theorem midInv_set_castling (b r : Board) (side : CastleSide) (t : Turn)
    (h : midInv b r) : midInv b (r.set_castling false side t) := by
  obtain ⟨hP, hturn, hpsq, hphase, hX⟩ := h
  obtain ⟨f1, f2, f3, f4, f5, f6, f7, f8, f9, f10, f11⟩ := set_castling_false_spec r side t
  refine ⟨PiecesOK_congr f1 f2 hP, f3.trans hturn, ?_, ?_, ?_⟩
  · rw [psqCalc_congr f1, f7, hpsq]
  · rw [phaseCalc_congr f1, f8, hphase]
  · rw [f10, f11, pieceHash_congr f1, epTerm_congr f4]
    rw [← hX]
    simp [Nat.xor_assoc, Nat.xor_comm, xor_left_comm, Nat.xor_self, Nat.xor_zero,
      xor_cancel_left]

theorem midInv_move_piece (b r : Board) (pt : PieceType) (t : Turn) (sf st : Fin 64)
    (h : midInv b r) (hocc : r.m_board_pieces sf = some (pt, t))
    (hemp : r.m_board_pieces st = none) (hne : st ≠ sf) :
    midInv b (r.move_piece pt t (sf : Int) (st : Int)) ∧
    (∀ s' : Fin 64, (r.move_piece pt t (sf : Int) (st : Int)).m_board_pieces s' =
      if s' = st then some (pt, t) else if s' = sf then none else r.m_board_pieces s') := by
  have hpop := midInv_pop_piece b r pt t sf h hocc
  have hemp' : (r.pop_piece pt t (sf : Int)).m_board_pieces st = none := by
    rw [pop_piece_mailbox, if_neg hne, hemp]
  constructor
  · exact midInv_set_piece b _ pt t st hpop hemp'
  · intro s'
    show ((r.pop_piece pt t (sf : Int)).set_piece pt t (st : Int)).m_board_pieces s' = _
    rw [set_piece_mailbox, pop_piece_mailbox]

end Board

namespace Board

theorem set_piece_rights_any (r : Board) (pt : PieceType) (t : Turn) (z : Int) :
    (r.set_piece pt t z).m_castling_rights = r.m_castling_rights := by
  unfold set_piece
  split <;> rfl

theorem pop_piece_rights_any (r : Board) (pt : PieceType) (t : Turn) (z : Int) :
    (r.pop_piece pt t z).m_castling_rights = r.m_castling_rights := by
  unfold pop_piece
  split <;> rfl

theorem move_piece_rights_any (r : Board) (pt : PieceType) (t : Turn) (zf zt : Int) :
    (r.move_piece pt t zf zt).m_castling_rights = r.m_castling_rights := by
  unfold move_piece
  rw [set_piece_rights_any, pop_piece_rights_any]

theorem midInv_mmR1 (b : Board) (m : Move) (hP : b.PiecesOK)
    (hH : b.m_hash = b.generate_hash) (hQ : b.psqCalc = b.m_psq)
    (hF : b.phaseCalc = b.m_phase) : midInv b (mmR1 b m) := by
  refine ⟨hP, rfl, hQ, hF, ?_⟩
  have hph : (mmR1 b m).pieceHash = b.pieceHash := pieceHash_congr rfl
  have hch : (mmR1 b m).castleHash = b.castleHash := castleHash_congr rfl
  have hep : (mmR1 b m).epTerm = 0 := by
    unfold epTerm
    rw [if_neg (by simp [mmR1])]
  have hh : (mmR1 b m).m_hash = b.m_hash := rfl
  rw [hph, hch, hep, hh, hH, generate_hash_eq_Hsum]
  unfold Hsum
  simp [Nat.xor_assoc, Nat.xor_comm, xor_left_comm, Nat.xor_self, Nat.xor_zero,
    xor_cancel_left]

end Board

namespace Board

theorem midInv_mmR2 (b : Board) (m : Move) (r : Board) (h : midInv b r) :
    midInv b (mmR2 b m r) := by
  simp only [mmR2]
  by_cases hk : b.get_piece_at m.fromSq = some KING
  · rw [if_pos hk]
    exact midInv_set_castling b _ QUEENSIDE b.m_turn (midInv_set_castling b r KINGSIDE b.m_turn h)
  rw [if_neg hk]
  by_cases hr : b.get_piece_at m.fromSq = some ROOK
  · rw [if_pos hr]
    by_cases hh1 : m.fromSq = (if b.m_turn = WHITE then SQUARE_H1 else SQUARE_H8)
    · rw [if_pos hh1]
      by_cases ha1 : m.fromSq = (if b.m_turn = WHITE then SQUARE_A1 else SQUARE_A8)
      · rw [if_pos ha1]
        exact midInv_set_castling b _ QUEENSIDE b.m_turn
          (midInv_set_castling b r KINGSIDE b.m_turn h)
      · rw [if_neg ha1]
        exact midInv_set_castling b r KINGSIDE b.m_turn h
    · rw [if_neg hh1]
      by_cases ha1 : m.fromSq = (if b.m_turn = WHITE then SQUARE_A1 else SQUARE_A8)
      · rw [if_pos ha1]
        exact midInv_set_castling b r QUEENSIDE b.m_turn h
      · rw [if_neg ha1]
        exact h
  · rw [if_neg hr]
    exact h

theorem set_castling_rights (r : Board) (e : Bool) (side : CastleSide) (t : Turn)
    (side' : CastleSide) (t' : Turn) :
    (r.set_castling e side t).m_castling_rights side' t' =
      if side' = side ∧ t' = t then e else r.m_castling_rights side' t' := by
  unfold set_castling
  split
  · next heq =>
    by_cases hc : side' = side ∧ t' = t
    · rw [if_pos hc, hc.1, hc.2, heq]
    · rw [if_neg hc]
  · rfl

theorem mmR2_rights (b : Board) (m : Move) (r : Board) (side : CastleSide) (t : Turn) :
    (mmR2 b m r).m_castling_rights side t =
      (r.m_castling_rights side t &&
        !(decide (t = b.m_turn) &&
          (decide (b.get_piece_at m.fromSq = some KING) ||
            (decide (b.get_piece_at m.fromSq = some ROOK) &&
              decide (m.fromSq = rookHome side t))))) := by
  simp only [mmR2]
  cases hbt : b.m_turn <;> cases side <;> cases t <;>
    split_ifs <;>
    simp_all [set_castling_rights, rookHome, SQUARE_H1, SQUARE_H8, SQUARE_A1, SQUARE_A8]

end Board

namespace Board

theorem mmR3_rights (b : Board) (m : Move) (r : Board) (side : CastleSide) (t : Turn) :
    (mmR3 b m r).m_castling_rights side t =
      (r.m_castling_rights side t &&
        !(m.is_capture && decide (t = flipTurn b.m_turn) &&
          decide (m.toSq = rookHome side t))) := by
  simp only [mmR3]
  cases hbt : b.m_turn <;> cases side <;> cases t <;> split_ifs <;>
    simp_all [set_castling_rights, pop_piece_rights_any, move_piece_rights_any, rookHome,
      SQUARE_H1, SQUARE_H8, SQUARE_A1, SQUARE_A8, flipTurn]

theorem mmR4_rights (b : Board) (m : Move) (r : Board) :
    (mmR4 b m r).m_castling_rights = r.m_castling_rights := by
  simp only [mmR4]
  split_ifs <;>
    simp [set_piece_rights_any, pop_piece_rights_any, move_piece_rights_any]

end Board

namespace Board

theorem mmR5_hash (b : Board) (m : Move) (r : Board) :
    (mmR5 b m r).m_hash = (r.m_hash ^^^ Zobrist.get_black_move) ^^^ b.epTerm := by
  unfold epTerm
  rfl

theorem turnTerm_flip (b : Board) (r : Board) (h : r.m_turn = flipTurn b.m_turn) :
    r.turnTerm = b.turnTerm ^^^ Zobrist.get_black_move := by
  unfold turnTerm
  rw [h]
  cases b.m_turn
  · simp [flipTurn]
  · simp [flipTurn]

theorem mm_final_valid (b : Board) (m : Move) (r : Board) (h : midInv b r)
    (hcheck : ((mmR5 b m r).update_checkers).check1 = true) :
    ((mmR5 b m r).update_checkers).is_valid = true := by
  obtain ⟨hP, hturn, hpsq, hphase, hX⟩ := h
  have hPf : ((mmR5 b m r).update_checkers).PiecesOK := PiecesOK_congr rfl rfl hP
  apply is_valid_build
  · exact hcheck
  · exact disjointCheck_of_PiecesOK _ hPf
  · exact mailboxCheck_of_PiecesOK _ hPf
  · rw [generate_hash_eq_Hsum]
    have hhash : ((mmR5 b m r).update_checkers).m_hash =
        (r.m_hash ^^^ Zobrist.get_black_move) ^^^ b.epTerm := mmR5_hash b m r
    have hpieceH : ((mmR5 b m r).update_checkers).pieceHash = r.pieceHash := pieceHash_congr rfl
    have hcastleH : ((mmR5 b m r).update_checkers).castleHash = r.castleHash :=
      castleHash_congr rfl
    have hepT : ((mmR5 b m r).update_checkers).epTerm = r.epTerm := epTerm_congr rfl
    have hturnT : ((mmR5 b m r).update_checkers).turnTerm =
        b.turnTerm ^^^ Zobrist.get_black_move := turnTerm_flip b _ rfl
    unfold Hsum
    rw [hhash, hpieceH, hcastleH, hepT, hturnT]
    have ht : b.turnTerm = (r.m_hash ^^^ r.pieceHash ^^^ r.castleHash ^^^ r.epTerm) ^^^ b.epTerm := by
      rw [hX, Nat.xor_assoc, Nat.xor_self, Nat.xor_zero]
    rw [ht]
    simp [Nat.xor_assoc, Nat.xor_comm, xor_left_comm, Nat.xor_self, Nat.xor_zero,
      xor_cancel_left]
  · have h1 : ((mmR5 b m r).update_checkers).phaseCalc = r.phaseCalc := phaseCalc_congr rfl
    have h2 : ((mmR5 b m r).update_checkers).m_phase = r.m_phase := rfl
    rw [h1, h2, hphase]
  · have h1 : ((mmR5 b m r).update_checkers).psqCalc = r.psqCalc := psqCalc_congr rfl
    have h2 : ((mmR5 b m r).update_checkers).m_psq = r.m_psq := rfl
    rw [h1, h2, hpsq]

end Board

namespace Board

theorem set_piece_ep_any (r : Board) (pt : PieceType) (t : Turn) (z : Int) :
    (r.set_piece pt t z).m_enpassant_square = r.m_enpassant_square := by
  unfold set_piece; split <;> rfl

theorem pop_piece_ep_any (r : Board) (pt : PieceType) (t : Turn) (z : Int) :
    (r.pop_piece pt t z).m_enpassant_square = r.m_enpassant_square := by
  unfold pop_piece; split <;> rfl

theorem move_piece_ep_any (r : Board) (pt : PieceType) (t : Turn) (zf zt : Int) :
    (r.move_piece pt t zf zt).m_enpassant_square = r.m_enpassant_square := by
  unfold move_piece; rw [set_piece_ep_any, pop_piece_ep_any]

theorem set_castling_ep_any (r : Board) (e : Bool) (side : CastleSide) (t : Turn) :
    (r.set_castling e side t).m_enpassant_square = r.m_enpassant_square := by
  unfold set_castling; split <;> rfl

theorem set_castling_pieces_any (r : Board) (e : Bool) (side : CastleSide) (t : Turn) :
    (r.set_castling e side t).m_pieces = r.m_pieces := by
  unfold set_castling; split <;> rfl

theorem set_castling_mailbox_any (r : Board) (e : Bool) (side : CastleSide) (t : Turn) :
    (r.set_castling e side t).m_board_pieces = r.m_board_pieces := by
  unfold set_castling; split <;> rfl

theorem set_piece_clock_any (r : Board) (pt : PieceType) (t : Turn) (z : Int) :
    (r.set_piece pt t z).m_full_move_clock = r.m_full_move_clock := by
  unfold set_piece; split <;> rfl

theorem pop_piece_clock_any (r : Board) (pt : PieceType) (t : Turn) (z : Int) :
    (r.pop_piece pt t z).m_full_move_clock = r.m_full_move_clock := by
  unfold pop_piece; split <;> rfl

theorem set_castling_clock_any (r : Board) (e : Bool) (side : CastleSide) (t : Turn) :
    (r.set_castling e side t).m_full_move_clock = r.m_full_move_clock := by
  unfold set_castling; split <;> rfl

theorem mmR2_mailbox (b : Board) (m : Move) (r : Board) :
    (mmR2 b m r).m_board_pieces = r.m_board_pieces := by
  simp only [mmR2]
  split_ifs <;> simp [set_castling_mailbox_any]

theorem mmR2_clock (b : Board) (m : Move) (r : Board) :
    (mmR2 b m r).m_full_move_clock = r.m_full_move_clock := by
  simp only [mmR2]
  split_ifs <;> simp [set_castling_clock_any]

theorem mmR3_ep (b : Board) (m : Move) (r : Board) :
    (mmR3 b m r).m_enpassant_square =
      (if m.is_capture then r.m_enpassant_square
       else if m.is_double_pawn_push then m.toSq - (if b.m_turn = WHITE then 8 else -8)
       else r.m_enpassant_square) := by
  simp only [mmR3]
  split_ifs <;>
    simp_all [pop_piece_ep_any, set_piece_ep_any, move_piece_ep_any, set_castling_ep_any]

theorem mmR4_ep (b : Board) (m : Move) (r : Board) :
    (mmR4 b m r).m_enpassant_square = r.m_enpassant_square := by
  simp only [mmR4]
  split_ifs <;>
    simp [pop_piece_ep_any, set_piece_ep_any, move_piece_ep_any]

theorem mmR3_clock (b : Board) (m : Move) (r : Board) :
    (mmR3 b m r).m_full_move_clock = r.m_full_move_clock := by
  simp only [mmR3]
  split_ifs <;>
    simp [pop_piece_clock_any, set_piece_clock_any, move_piece, set_castling_clock_any]

theorem mmR4_clock (b : Board) (m : Move) (r : Board) :
    (mmR4 b m r).m_full_move_clock = r.m_full_move_clock := by
  simp only [mmR4]
  split_ifs <;>
    simp [pop_piece_clock_any, set_piece_clock_any, move_piece]

theorem make_move_turn (b : Board) (m : Move) : (b.make_move m).m_turn = flipTurn b.m_turn := rfl

theorem make_move_clock (b : Board) (m : Move) :
    (b.make_move m).m_full_move_clock = b.m_full_move_clock + turnVal b.m_turn := by
  rw [make_move_eq]
  show (mmR4 b m (mmR3 b m (mmR2 b m (mmR1 b m)))).m_full_move_clock = _
  rw [mmR4_clock, mmR3_clock, mmR2_clock]
  rfl

theorem make_move_rights (b : Board) (m : Move) (side : CastleSide) (t : Turn) :
    (b.make_move m).m_castling_rights side t = b.mmRights m side t := by
  rw [make_move_eq]
  show (mmR4 b m (mmR3 b m (mmR2 b m (mmR1 b m)))).m_castling_rights side t = _
  rw [mmR4_rights, mmR3_rights, mmR2_rights]
  have h1 : (b.mmR1 m).m_castling_rights side t = b.m_castling_rights side t := rfl
  rw [h1]
  unfold mmRights
  rw [Bool.and_assoc, ← Bool.not_or]

theorem make_move_ep (b : Board) (m : Move) :
    (b.make_move m).m_enpassant_square =
      (if m.is_double_pawn_push then m.toSq - (if b.m_turn = WHITE then 8 else -8)
       else SQUARE_NULL) := by
  rw [make_move_eq]
  show (mmR4 b m (mmR3 b m (mmR2 b m (mmR1 b m)))).m_enpassant_square = _
  rw [mmR4_ep, mmR3_ep]
  have h2 : (mmR2 b m (mmR1 b m)).m_enpassant_square = SQUARE_NULL := by
    simp only [mmR2]
    split_ifs <;> simp [mmR1, set_castling_ep_any]
  rw [h2]
  by_cases hc : m.is_capture = true
  · rw [if_pos hc]
    by_cases hd : m.is_double_pawn_push = true
    · exfalso
      unfold Move.is_capture at hc
      unfold Move.is_double_pawn_push at hd
      cases hmt : m.mtype <;> rw [hmt] at hc hd <;> simp_all
    · rw [if_neg (by simp_all)]
  · rw [if_neg hc]

theorem mtype_facts (m : Move) :
    (m.is_ep_capture = true →
      m.is_capture = true ∧ m.is_promotion = false ∧ m.is_double_pawn_push = false ∧
        m.is_castle = false) ∧
    (m.is_double_pawn_push = true →
      m.is_capture = false ∧ m.is_promotion = false ∧ m.is_castle = false) ∧
    (m.is_castle = true →
      m.is_capture = false ∧ m.is_promotion = false ∧ m.is_double_pawn_push = false) := by
  cases hm : m.mtype <;>
    simp [Move.is_ep_capture, Move.is_capture, Move.is_promotion, Move.is_double_pawn_push,
      Move.is_castle, hm]

end Board

theorem turn_ne_flip (t t' : Turn) (h : t' ≠ t) : t' = flipTurn t := by
  cases t <;> cases t' <;> simp_all [flipTurn]

theorem fin_int_eq (a b : Fin 64) : ((a : Int) = (b : Int)) ↔ a = b := by
  constructor
  · intro h
    apply Fin.ext
    exact_mod_cast h
  · intro h
    rw [h]

theorem flipTurn_ne (t : Turn) : flipTurn t ≠ t := by
  cases t <;> simp [flipTurn]

namespace Board

theorem mm_case_cap (b : Board) (m : Move) (hmid2 : midInv b (mmR2 b m (mmR1 b m)))
    (sF sT : Fin 64) (pt0 vt : PieceType)
    (hFcoe : m.fromSq = (sF : Int)) (hTcoe : m.toSq = (sT : Int))
    (hmbF : b.m_board_pieces sF = some (pt0, b.m_turn))
    (hmbT : b.m_board_pieces sT = some (vt, flipTurn b.m_turn))
    (hpc0 : b.get_piece_at m.fromSq = some pt0)
    (hgpatT : b.get_piece_at m.toSq = some vt)
    (hcap : m.is_capture = true) (hepf : m.is_ep_capture = false)
    (hcastf : m.is_castle = false) (hne : sF ≠ sT) :
    midInv b (mmR4 b m (mmR3 b m (mmR2 b m (mmR1 b m)))) ∧
    (∀ s : Fin 64, (mmR4 b m (mmR3 b m (mmR2 b m (mmR1 b m)))).m_board_pieces s =
      b.mmMailbox m s) := by
  have hmb2 : (mmR2 b m (mmR1 b m)).m_board_pieces = b.m_board_pieces :=
    mmR2_mailbox b m (mmR1 b m)
  have hr3 : mmR3 b m (mmR2 b m (mmR1 b m)) =
      (let rc := (mmR2 b m (mmR1 b m)).pop_piece vt (flipTurn b.m_turn) m.toSq
       let rd :=
         if m.toSq = (if b.m_turn = WHITE then SQUARE_H8 else SQUARE_H1) then
           rc.set_castling false KINGSIDE (flipTurn b.m_turn)
         else rc
       if m.toSq = (if b.m_turn = WHITE then SQUARE_A8 else SQUARE_A1) then
         rd.set_castling false QUEENSIDE (flipTurn b.m_turn)
       else rd) := by
    simp only [mmR3]
    rw [if_pos hcap, hepf]
    simp only [Bool.false_eq_true, if_false]
    rw [hgpatT]
    simp only [Option.getD_some]
  have hmbT2 : (mmR2 b m (mmR1 b m)).m_board_pieces sT = some (vt, flipTurn b.m_turn) := by
    rw [hmb2]; exact hmbT
  have hpop : midInv b ((mmR2 b m (mmR1 b m)).pop_piece vt (flipTurn b.m_turn) m.toSq) := by
    rw [hTcoe]
    exact midInv_pop_piece b _ vt (flipTurn b.m_turn) sT hmid2 hmbT2
  have hmid3 : midInv b (mmR3 b m (mmR2 b m (mmR1 b m))) := by
    rw [hr3]
    split_ifs <;>
      first
        | exact hpop
        | exact midInv_set_castling b _ _ _ hpop
        | exact midInv_set_castling b _ _ _ (midInv_set_castling b _ _ _ hpop)
  have hmb3 : ∀ s : Fin 64, (mmR3 b m (mmR2 b m (mmR1 b m))).m_board_pieces s =
      (if s = sT then none else b.m_board_pieces s) := by
    intro s
    rw [hr3]
    show (let rc := (mmR2 b m (mmR1 b m)).pop_piece vt (flipTurn b.m_turn) m.toSq
       let rd :=
         if m.toSq = (if b.m_turn = WHITE then SQUARE_H8 else SQUARE_H1) then
           rc.set_castling false KINGSIDE (flipTurn b.m_turn)
         else rc
       (if m.toSq = (if b.m_turn = WHITE then SQUARE_A8 else SQUARE_A1) then
         rd.set_castling false QUEENSIDE (flipTurn b.m_turn)
       else rd)).m_board_pieces s = _
    split_ifs <;>
      simp only [set_castling_mailbox_any] <;>
      rw [hTcoe, pop_piece_mailbox, hmb2] <;>
      simp_all
  have hmbF3 : (mmR3 b m (mmR2 b m (mmR1 b m))).m_board_pieces sF = some (pt0, b.m_turn) := by
    rw [hmb3 sF, if_neg hne]
    exact hmbF
  have hTne : sT ≠ sF := fun h => hne h.symm
  by_cases hpromo : m.is_promotion = true
  · have hr4 : mmR4 b m (mmR3 b m (mmR2 b m (mmR1 b m))) =
        ((mmR3 b m (mmR2 b m (mmR1 b m))).pop_piece pt0 b.m_turn m.fromSq).set_piece
          m.promo_piece b.m_turn m.toSq := by
      simp only [mmR4]
      rw [if_pos hpromo, hpc0]
      simp only [Option.getD_some]
    have hpop4 : midInv b ((mmR3 b m (mmR2 b m (mmR1 b m))).pop_piece pt0 b.m_turn m.fromSq) := by
      rw [hFcoe]
      exact midInv_pop_piece b _ _ _ sF hmid3 hmbF3
    have hemp4 : ((mmR3 b m (mmR2 b m (mmR1 b m))).pop_piece pt0 b.m_turn m.fromSq).m_board_pieces
        sT = none := by
      rw [hFcoe, pop_piece_mailbox, if_neg hTne, hmb3 sT, if_pos rfl]
    have hmm : ∀ s : Fin 64, b.mmMailbox m s =
        (if (s : Int) = m.fromSq then none
         else if (s : Int) = m.toSq then some (m.promo_piece, b.m_turn)
         else b.m_board_pieces s) := by
      intro s
      simp only [mmMailbox]
      rw [hpc0, hpromo, hepf, hcastf]
      simp only [Option.getD_some, Bool.false_and, Bool.false_eq_true, if_false, if_true]
    constructor
    · rw [hr4, hTcoe]
      exact midInv_set_piece b _ _ _ sT hpop4 hemp4
    · intro s
      rw [hr4, hmm s, hTcoe, hFcoe, set_piece_mailbox, pop_piece_mailbox, hmb3 s]
      simp only [fin_int_eq]
      by_cases hs1 : s = sF <;> by_cases hs2 : s = sT <;> simp_all
  · have hpromof : m.is_promotion = false := by
      revert hpromo
      cases m.is_promotion <;> simp
    have hr4 : mmR4 b m (mmR3 b m (mmR2 b m (mmR1 b m))) =
        (mmR3 b m (mmR2 b m (mmR1 b m))).move_piece pt0 b.m_turn m.fromSq m.toSq := by
      simp only [mmR4]
      rw [hpromof]
      simp only [Bool.false_eq_true, if_false]
      rw [hpc0]
      simp only [Option.getD_some]
    have hemp3 : (mmR3 b m (mmR2 b m (mmR1 b m))).m_board_pieces sT = none := by
      rw [hmb3 sT, if_pos rfl]
    obtain ⟨hmidmp, hmbmp⟩ :=
      midInv_move_piece b _ pt0 b.m_turn sF sT hmid3 hmbF3 hemp3 hTne
    have hmm : ∀ s : Fin 64, b.mmMailbox m s =
        (if (s : Int) = m.fromSq then none
         else if (s : Int) = m.toSq then some (pt0, b.m_turn)
         else b.m_board_pieces s) := by
      intro s
      simp only [mmMailbox]
      rw [hpc0, hpromof, hepf, hcastf]
      simp only [Option.getD_some, Bool.false_and, Bool.false_eq_true, if_false]
    constructor
    · rw [hr4, hFcoe, hTcoe]
      exact hmidmp
    · intro s
      rw [hr4, hmm s, hTcoe, hFcoe, hmbmp s, hmb3 s]
      simp only [fin_int_eq]
      by_cases hs1 : s = sF <;> by_cases hs2 : s = sT <;> simp_all

end Board

namespace Board

theorem mm_case_ep (b : Board) (m : Move) (hmid2 : midInv b (mmR2 b m (mmR1 b m)))
    (sF sV sT : Fin 64) (pt0 : PieceType)
    (hFcoe : m.fromSq = (sF : Int)) (hTcoe : m.toSq = (sT : Int))
    (hVcoe : m.toSq - (if b.m_turn = WHITE then 8 else -8) = (sV : Int))
    (hmbF : b.m_board_pieces sF = some (pt0, b.m_turn))
    (hmbV : b.m_board_pieces sV = some (PAWN, flipTurn b.m_turn))
    (hmbT : b.m_board_pieces sT = none)
    (hpc0 : b.get_piece_at m.fromSq = some pt0)
    (hgpatV : b.get_piece_at (m.toSq - (if b.m_turn = WHITE then 8 else -8)) = some PAWN)
    (hcap : m.is_capture = true) (hep : m.is_ep_capture = true)
    (hpromof : m.is_promotion = false) (hcastf : m.is_castle = false)
    (hFV : sF ≠ sV) (hFT : sF ≠ sT) (hVT : sV ≠ sT) :
    midInv b (mmR4 b m (mmR3 b m (mmR2 b m (mmR1 b m)))) ∧
    (∀ s : Fin 64, (mmR4 b m (mmR3 b m (mmR2 b m (mmR1 b m)))).m_board_pieces s =
      b.mmMailbox m s) := by
  have hmb2 : (mmR2 b m (mmR1 b m)).m_board_pieces = b.m_board_pieces :=
    mmR2_mailbox b m (mmR1 b m)
  have hr3 : mmR3 b m (mmR2 b m (mmR1 b m)) =
      (let rc := (mmR2 b m (mmR1 b m)).pop_piece PAWN (flipTurn b.m_turn) (sV : Int)
       let rd :=
         if m.toSq = (if b.m_turn = WHITE then SQUARE_H8 else SQUARE_H1) then
           rc.set_castling false KINGSIDE (flipTurn b.m_turn)
         else rc
       if m.toSq = (if b.m_turn = WHITE then SQUARE_A8 else SQUARE_A1) then
         rd.set_castling false QUEENSIDE (flipTurn b.m_turn)
       else rd) := by
    simp only [mmR3]
    rw [if_pos hcap, if_pos hep, hgpatV]
    simp only [Option.getD_some]
    rw [hVcoe]
  have hmbV2 : (mmR2 b m (mmR1 b m)).m_board_pieces sV = some (PAWN, flipTurn b.m_turn) := by
    rw [hmb2]; exact hmbV
  have hpop : midInv b ((mmR2 b m (mmR1 b m)).pop_piece PAWN (flipTurn b.m_turn) (sV : Int)) :=
    midInv_pop_piece b _ PAWN (flipTurn b.m_turn) sV hmid2 hmbV2
  have hmid3 : midInv b (mmR3 b m (mmR2 b m (mmR1 b m))) := by
    rw [hr3]
    split_ifs <;>
      first
        | exact hpop
        | exact midInv_set_castling b _ _ _ hpop
        | exact midInv_set_castling b _ _ _ (midInv_set_castling b _ _ _ hpop)
  have hmb3 : ∀ s : Fin 64, (mmR3 b m (mmR2 b m (mmR1 b m))).m_board_pieces s =
      (if s = sV then none else b.m_board_pieces s) := by
    intro s
    rw [hr3]
    show (let rc := (mmR2 b m (mmR1 b m)).pop_piece PAWN (flipTurn b.m_turn) (sV : Int)
       let rd :=
         if m.toSq = (if b.m_turn = WHITE then SQUARE_H8 else SQUARE_H1) then
           rc.set_castling false KINGSIDE (flipTurn b.m_turn)
         else rc
       (if m.toSq = (if b.m_turn = WHITE then SQUARE_A8 else SQUARE_A1) then
         rd.set_castling false QUEENSIDE (flipTurn b.m_turn)
       else rd)).m_board_pieces s = _
    split_ifs <;>
      simp only [set_castling_mailbox_any] <;>
      rw [pop_piece_mailbox, hmb2] <;>
      simp_all
  have hmbF3 : (mmR3 b m (mmR2 b m (mmR1 b m))).m_board_pieces sF = some (pt0, b.m_turn) := by
    rw [hmb3 sF, if_neg hFV]
    exact hmbF
  have hemp3 : (mmR3 b m (mmR2 b m (mmR1 b m))).m_board_pieces sT = none := by
    rw [hmb3 sT, if_neg (fun h => hVT h.symm)]
    exact hmbT
  have hr4 : mmR4 b m (mmR3 b m (mmR2 b m (mmR1 b m))) =
      (mmR3 b m (mmR2 b m (mmR1 b m))).move_piece pt0 b.m_turn m.fromSq m.toSq := by
    simp only [mmR4]
    rw [hpromof]
    simp only [Bool.false_eq_true, if_false]
    rw [hpc0]
    simp only [Option.getD_some]
  obtain ⟨hmidmp, hmbmp⟩ :=
    midInv_move_piece b _ pt0 b.m_turn sF sT hmid3 hmbF3 hemp3 (fun h => hFT h.symm)
  have hmm : ∀ s : Fin 64, b.mmMailbox m s =
      (if (s : Int) = m.fromSq then none
       else if (s : Int) = m.toSq then some (pt0, b.m_turn)
       else if (s : Int) = (sV : Int) then none
       else b.m_board_pieces s) := by
    intro s
    simp only [mmMailbox]
    rw [hpc0, hpromof, hep, hcastf, hVcoe]
    simp only [Option.getD_some, Bool.false_and, Bool.true_and, Bool.false_eq_true, if_false,
      decide_eq_true_eq]
  constructor
  · rw [hr4, hFcoe, hTcoe]
    exact hmidmp
  · intro s
    rw [hr4, hmm s, hTcoe, hFcoe, hmbmp s, hmb3 s]
    simp only [fin_int_eq]
    by_cases hs1 : s = sF
    · subst hs1
      rw [if_neg hFT, if_pos rfl, if_pos rfl]
    · by_cases hs2 : s = sT
      · subst hs2
        rw [if_pos rfl, if_neg (fun h => hs1 h), if_pos rfl]
      · rw [if_neg hs2, if_neg hs1, if_neg hs2, if_neg hs1]

end Board

namespace Board

theorem mmR2_ep_null (b : Board) (m : Move) :
    (mmR2 b m (mmR1 b m)).m_enpassant_square = SQUARE_NULL := by
  simp only [mmR2]
  split_ifs <;> simp [mmR1, set_castling_ep_any]

theorem mm_case_dpp (b : Board) (m : Move) (hmid2 : midInv b (mmR2 b m (mmR1 b m)))
    (sF sT : Fin 64) (pt0 : PieceType)
    (hFcoe : m.fromSq = (sF : Int)) (hTcoe : m.toSq = (sT : Int))
    (hmbF : b.m_board_pieces sF = some (pt0, b.m_turn))
    (hmbT : b.m_board_pieces sT = none)
    (hpc0 : b.get_piece_at m.fromSq = some pt0)
    (hcapf : m.is_capture = false) (hdpp : m.is_double_pawn_push = true)
    (hepf : m.is_ep_capture = false) (hpromof : m.is_promotion = false)
    (hcastf : m.is_castle = false)
    (hrangeV : 0 ≤ m.toSq - (if b.m_turn = WHITE then 8 else -8) ∧
      m.toSq - (if b.m_turn = WHITE then 8 else -8) < 64)
    (hFT : sF ≠ sT) :
    midInv b (mmR4 b m (mmR3 b m (mmR2 b m (mmR1 b m)))) ∧
    (∀ s : Fin 64, (mmR4 b m (mmR3 b m (mmR2 b m (mmR1 b m)))).m_board_pieces s =
      b.mmMailbox m s) := by
  have hmb2 : (mmR2 b m (mmR1 b m)).m_board_pieces = b.m_board_pieces :=
    mmR2_mailbox b m (mmR1 b m)
  have hr3 : mmR3 b m (mmR2 b m (mmR1 b m)) =
      { (mmR2 b m (mmR1 b m)) with
        m_enpassant_square := m.toSq - (if b.m_turn = WHITE then 8 else -8),
        m_hash := (mmR2 b m (mmR1 b m)).m_hash ^^^ Zobrist.get_ep_file (fileOfSq m.toSq) } := by
    simp only [mmR3]
    rw [hcapf]
    simp only [Bool.false_eq_true, if_false]
    rw [if_pos hdpp]
  have hmid3 : midInv b (mmR3 b m (mmR2 b m (mmR1 b m))) := by
    obtain ⟨hP, hturn, hpsq, hphase, hX⟩ := hmid2
    rw [hr3]
    refine ⟨hP, hturn, hpsq, hphase, ?_⟩
    have hepr : (mmR2 b m (mmR1 b m)).epTerm = 0 := by
      unfold epTerm
      rw [mmR2_ep_null]
      simp [SQUARE_NULL]
    have hepn : (mmR3 b m (mmR2 b m (mmR1 b m))).epTerm =
        Zobrist.get_ep_file (fileOfSq m.toSq) := by
      unfold epTerm
      rw [hr3]
      show (if m.toSq - (if b.m_turn = WHITE then 8 else -8) ≠ SQUARE_NULL then
          Zobrist.get_ep_file (fileOfSq (m.toSq - (if b.m_turn = WHITE then 8 else -8)))
        else 0) = _
      rw [if_pos (by unfold SQUARE_NULL; omega)]
      have hfile : fileOfSq (m.toSq - (if b.m_turn = WHITE then 8 else -8)) =
          fileOfSq m.toSq := by
        unfold fileOfSq
        by_cases hbt : b.m_turn = WHITE
        · rw [if_pos hbt, show m.toSq - 8 = m.toSq + 8 * (-1) from by ring]
          show (m.toSq + 8 * (-1)) % 8 = m.toSq % 8
          rw [Int.add_mul_emod_self_left]
        · rw [if_neg hbt, show m.toSq - -8 = m.toSq + 8 * 1 from by ring]
          show (m.toSq + 8 * 1) % 8 = m.toSq % 8
          rw [Int.add_mul_emod_self_left]
      rw [hfile]
    have hepn' := hepn
    rw [hr3] at hepn'
    show ((mmR2 b m (mmR1 b m)).m_hash ^^^ Zobrist.get_ep_file (fileOfSq m.toSq)) ^^^ _ ^^^ _ ^^^ _ = _
    rw [hepn']
    have hph : ({ (mmR2 b m (mmR1 b m)) with
        m_enpassant_square := m.toSq - (if b.m_turn = WHITE then 8 else -8),
        m_hash := (mmR2 b m (mmR1 b m)).m_hash ^^^ Zobrist.get_ep_file (fileOfSq m.toSq)
        } : Board).pieceHash = (mmR2 b m (mmR1 b m)).pieceHash := pieceHash_congr rfl
    have hch : ({ (mmR2 b m (mmR1 b m)) with
        m_enpassant_square := m.toSq - (if b.m_turn = WHITE then 8 else -8),
        m_hash := (mmR2 b m (mmR1 b m)).m_hash ^^^ Zobrist.get_ep_file (fileOfSq m.toSq)
        } : Board).castleHash = (mmR2 b m (mmR1 b m)).castleHash := castleHash_congr rfl
    rw [hph, hch, ← hX, hepr]
    simp [Nat.xor_assoc, Nat.xor_comm, xor_left_comm, Nat.xor_self, Nat.xor_zero,
      xor_cancel_left]
  have hmb3 : (mmR3 b m (mmR2 b m (mmR1 b m))).m_board_pieces = b.m_board_pieces := by
    rw [hr3]
    exact hmb2
  have hmbF3 : (mmR3 b m (mmR2 b m (mmR1 b m))).m_board_pieces sF = some (pt0, b.m_turn) := by
    rw [hmb3]; exact hmbF
  have hemp3 : (mmR3 b m (mmR2 b m (mmR1 b m))).m_board_pieces sT = none := by
    rw [hmb3]; exact hmbT
  have hr4 : mmR4 b m (mmR3 b m (mmR2 b m (mmR1 b m))) =
      (mmR3 b m (mmR2 b m (mmR1 b m))).move_piece pt0 b.m_turn m.fromSq m.toSq := by
    simp only [mmR4]
    rw [hpromof]
    simp only [Bool.false_eq_true, if_false]
    rw [hpc0]
    simp only [Option.getD_some]
  obtain ⟨hmidmp, hmbmp⟩ :=
    midInv_move_piece b _ pt0 b.m_turn sF sT hmid3 hmbF3 hemp3 (fun h => hFT h.symm)
  have hmm : ∀ s : Fin 64, b.mmMailbox m s =
      (if (s : Int) = m.fromSq then none
       else if (s : Int) = m.toSq then some (pt0, b.m_turn)
       else b.m_board_pieces s) := by
    intro s
    simp only [mmMailbox]
    rw [hpc0, hpromof, hepf, hcastf]
    simp only [Option.getD_some, Bool.false_and, Bool.false_eq_true, if_false]
  constructor
  · rw [hr4, hFcoe, hTcoe]
    exact hmidmp
  · intro s
    rw [hr4, hmm s, hTcoe, hFcoe, hmbmp s, hmb3]
    simp only [fin_int_eq]
    by_cases hs1 : s = sF
    · subst hs1
      rw [if_neg hFT, if_pos rfl, if_pos rfl]
    · by_cases hs2 : s = sT
      · subst hs2
        rw [if_pos rfl, if_neg (fun h => hs1 h), if_pos rfl]
      · rw [if_neg hs2, if_neg hs1, if_neg hs2, if_neg hs1]

end Board

namespace Board

theorem mm_case_castle (b : Board) (m : Move) (hmid2 : midInv b (mmR2 b m (mmR1 b m)))
    (sF sT sIS sIE : Fin 64)
    (hFcoe : m.fromSq = (sF : Int)) (hTcoe : m.toSq = (sT : Int))
    (hIScoe : m.toSq + (if m.toSq > m.fromSq then 1 else -2) = (sIS : Int))
    (hIEcoe : m.toSq + (if m.toSq > m.fromSq then -1 else 1) = (sIE : Int))
    (hmbF : b.m_board_pieces sF = some (KING, b.m_turn))
    (hmbT : b.m_board_pieces sT = none)
    (hmbIS : b.m_board_pieces sIS = some (ROOK, b.m_turn))
    (hmbIE : b.m_board_pieces sIE = none)
    (hpc0 : b.get_piece_at m.fromSq = some KING)
    (hcapf : m.is_capture = false) (hdppf : m.is_double_pawn_push = false)
    (hcast : m.is_castle = true) (hpromof : m.is_promotion = false)
    (hepf : m.is_ep_capture = false)
    (hFT : sF ≠ sT) (hFIS : sF ≠ sIS) (hFIE : sF ≠ sIE)
    (hTIS : sT ≠ sIS) (hTIE : sT ≠ sIE) (hISIE : sIS ≠ sIE) :
    midInv b (mmR4 b m (mmR3 b m (mmR2 b m (mmR1 b m)))) ∧
    (∀ s : Fin 64, (mmR4 b m (mmR3 b m (mmR2 b m (mmR1 b m)))).m_board_pieces s =
      b.mmMailbox m s) := by
  have hmb2 : (mmR2 b m (mmR1 b m)).m_board_pieces = b.m_board_pieces :=
    mmR2_mailbox b m (mmR1 b m)
  have hr3 : mmR3 b m (mmR2 b m (mmR1 b m)) =
      (mmR2 b m (mmR1 b m)).move_piece ROOK b.m_turn (sIS : Int) (sIE : Int) := by
    simp only [mmR3]
    rw [hcapf]
    simp only [Bool.false_eq_true, if_false]
    rw [hdppf]
    simp only [Bool.false_eq_true, if_false]
    rw [if_pos hcast, hIScoe, hIEcoe]
  have hmbIS2 : (mmR2 b m (mmR1 b m)).m_board_pieces sIS = some (ROOK, b.m_turn) := by
    rw [hmb2]; exact hmbIS
  have hmbIE2 : (mmR2 b m (mmR1 b m)).m_board_pieces sIE = none := by
    rw [hmb2]; exact hmbIE
  obtain ⟨hmid3', hmb3'⟩ := midInv_move_piece b _ ROOK b.m_turn sIS sIE hmid2 hmbIS2 hmbIE2
    (fun h => hISIE h.symm)
  have hmid3 : midInv b (mmR3 b m (mmR2 b m (mmR1 b m))) := by
    rw [hr3]; exact hmid3'
  have hmb3 : ∀ s : Fin 64, (mmR3 b m (mmR2 b m (mmR1 b m))).m_board_pieces s =
      (if s = sIE then some (ROOK, b.m_turn) else if s = sIS then none
       else b.m_board_pieces s) := by
    intro s
    rw [hr3, hmb3' s, hmb2]
  have hmbF3 : (mmR3 b m (mmR2 b m (mmR1 b m))).m_board_pieces sF = some (KING, b.m_turn) := by
    rw [hmb3 sF, if_neg hFIE, if_neg hFIS]
    exact hmbF
  have hemp3 : (mmR3 b m (mmR2 b m (mmR1 b m))).m_board_pieces sT = none := by
    rw [hmb3 sT, if_neg hTIE, if_neg hTIS]
    exact hmbT
  have hr4 : mmR4 b m (mmR3 b m (mmR2 b m (mmR1 b m))) =
      (mmR3 b m (mmR2 b m (mmR1 b m))).move_piece KING b.m_turn m.fromSq m.toSq := by
    simp only [mmR4]
    rw [hpromof]
    simp only [Bool.false_eq_true, if_false]
    rw [hpc0]
    simp only [Option.getD_some]
  obtain ⟨hmidmp, hmbmp⟩ :=
    midInv_move_piece b _ KING b.m_turn sF sT hmid3 hmbF3 hemp3 (fun h => hFT h.symm)
  have hmm : ∀ s : Fin 64, b.mmMailbox m s =
      (if (s : Int) = m.fromSq then none
       else if (s : Int) = m.toSq then some (KING, b.m_turn)
       else if (s : Int) = (sIS : Int) then none
       else if (s : Int) = (sIE : Int) then some (ROOK, b.m_turn)
       else b.m_board_pieces s) := by
    intro s
    simp only [mmMailbox]
    rw [hpc0, hpromof, hepf, hcast, hIScoe, hIEcoe]
    simp only [Option.getD_some, Bool.false_and, Bool.true_and, Bool.false_eq_true, if_false,
      decide_eq_true_eq]
  constructor
  · rw [hr4, hFcoe, hTcoe]
    exact hmidmp
  · intro s
    rw [hr4, hmm s, hTcoe, hFcoe, hmbmp s, hmb3 s]
    simp only [fin_int_eq]
    clear hr3 hr4 hmm hmbmp hmb3 hmb3' hmid3 hmid3' hmidmp hmid2 hmbF3 hemp3 hmb2 hmbIS2 hmbIE2
    by_cases hs1 : s = sF <;> by_cases hs2 : s = sT <;> by_cases hs3 : s = sIS <;>
      by_cases hs4 : s = sIE <;> simp_all

end Board

namespace Board

theorem set_piece_oob (r : Board) (pt : PieceType) (t : Turn) (z : Int)
    (h : ¬(0 ≤ z ∧ z < 64)) : r.set_piece pt t z = r := by
  unfold set_piece
  rw [dif_neg h]

theorem mm_case_quiet (b : Board) (m : Move) (hmid2 : midInv b (mmR2 b m (mmR1 b m)))
    (sF sT : Fin 64) (pt0 : PieceType)
    (hFcoe : m.fromSq = (sF : Int)) (hTcoe : m.toSq = (sT : Int))
    (hmbF : b.m_board_pieces sF = some (pt0, b.m_turn))
    (hmbT : b.m_board_pieces sT = none)
    (hpc0 : b.get_piece_at m.fromSq = some pt0)
    (hcapf : m.is_capture = false) (hdppf : m.is_double_pawn_push = false)
    (hcastf : m.is_castle = false) (hepf : m.is_ep_capture = false)
    (hFT : sF ≠ sT) :
    midInv b (mmR4 b m (mmR3 b m (mmR2 b m (mmR1 b m)))) ∧
    (∀ s : Fin 64, (mmR4 b m (mmR3 b m (mmR2 b m (mmR1 b m)))).m_board_pieces s =
      b.mmMailbox m s) := by
  have hmb2 : (mmR2 b m (mmR1 b m)).m_board_pieces = b.m_board_pieces :=
    mmR2_mailbox b m (mmR1 b m)
  have hr3 : mmR3 b m (mmR2 b m (mmR1 b m)) = mmR2 b m (mmR1 b m) := by
    simp only [mmR3]
    rw [hcapf]
    simp only [Bool.false_eq_true, if_false]
    rw [hdppf]
    simp only [Bool.false_eq_true, if_false]
    rw [hcastf]
    simp only [Bool.false_eq_true, if_false]
  have hmbF3 : (mmR3 b m (mmR2 b m (mmR1 b m))).m_board_pieces sF = some (pt0, b.m_turn) := by
    rw [hr3, hmb2]; exact hmbF
  have hemp3 : (mmR3 b m (mmR2 b m (mmR1 b m))).m_board_pieces sT = none := by
    rw [hr3, hmb2]; exact hmbT
  have hmid3 : midInv b (mmR3 b m (mmR2 b m (mmR1 b m))) := by
    rw [hr3]; exact hmid2
  have hTne : sT ≠ sF := fun h => hFT h.symm
  by_cases hpromo : m.is_promotion = true
  · have hr4 : mmR4 b m (mmR3 b m (mmR2 b m (mmR1 b m))) =
        ((mmR3 b m (mmR2 b m (mmR1 b m))).pop_piece pt0 b.m_turn m.fromSq).set_piece
          m.promo_piece b.m_turn m.toSq := by
      simp only [mmR4]
      rw [if_pos hpromo, hpc0]
      simp only [Option.getD_some]
    have hpop4 : midInv b ((mmR3 b m (mmR2 b m (mmR1 b m))).pop_piece pt0 b.m_turn m.fromSq) := by
      rw [hFcoe]
      exact midInv_pop_piece b _ _ _ sF hmid3 hmbF3
    have hemp4 : ((mmR3 b m (mmR2 b m (mmR1 b m))).pop_piece pt0 b.m_turn m.fromSq).m_board_pieces
        sT = none := by
      rw [hFcoe, pop_piece_mailbox, if_neg hTne]
      exact hemp3
    have hmm : ∀ s : Fin 64, b.mmMailbox m s =
        (if (s : Int) = m.fromSq then none
         else if (s : Int) = m.toSq then some (m.promo_piece, b.m_turn)
         else b.m_board_pieces s) := by
      intro s
      simp only [mmMailbox]
      rw [hpc0, hpromo, hepf, hcastf]
      simp only [Option.getD_some, Bool.false_and, Bool.false_eq_true, if_false, if_true]
    constructor
    · rw [hr4, hTcoe]
      exact midInv_set_piece b _ _ _ sT hpop4 hemp4
    · intro s
      rw [hr4, hmm s, hTcoe, hFcoe, set_piece_mailbox, pop_piece_mailbox, hr3, hmb2]
      simp only [fin_int_eq]
      by_cases hs1 : s = sF
      · subst hs1
        rw [if_neg hFT, if_pos rfl, if_pos rfl]
      · by_cases hs2 : s = sT
        · subst hs2
          rw [if_pos rfl, if_neg (fun h => hs1 h), if_pos rfl]
        · rw [if_neg hs2, if_neg hs1, if_neg hs1, if_neg hs2]
  · have hpromof : m.is_promotion = false := by
      revert hpromo
      cases m.is_promotion <;> simp
    have hr4 : mmR4 b m (mmR3 b m (mmR2 b m (mmR1 b m))) =
        (mmR3 b m (mmR2 b m (mmR1 b m))).move_piece pt0 b.m_turn m.fromSq m.toSq := by
      simp only [mmR4]
      rw [hpromof]
      simp only [Bool.false_eq_true, if_false]
      rw [hpc0]
      simp only [Option.getD_some]
    obtain ⟨hmidmp, hmbmp⟩ :=
      midInv_move_piece b _ pt0 b.m_turn sF sT hmid3 hmbF3 hemp3 hTne
    have hmm : ∀ s : Fin 64, b.mmMailbox m s =
        (if (s : Int) = m.fromSq then none
         else if (s : Int) = m.toSq then some (pt0, b.m_turn)
         else b.m_board_pieces s) := by
      intro s
      simp only [mmMailbox]
      rw [hpc0, hpromof, hepf, hcastf]
      simp only [Option.getD_some, Bool.false_and, Bool.false_eq_true, if_false]
    constructor
    · rw [hr4, hFcoe, hTcoe]
      exact hmidmp
    · intro s
      rw [hr4, hmm s, hTcoe, hFcoe, hmbmp s, hr3, hmb2]
      simp only [fin_int_eq]
      by_cases hs1 : s = sF
      · subst hs1
        rw [if_neg hFT, if_pos rfl, if_pos rfl]
      · by_cases hs2 : s = sT
        · subst hs2
          rw [if_pos rfl, if_neg (fun h => hs1 h), if_pos rfl]
        · rw [if_neg hs2, if_neg hs1, if_neg hs2, if_neg hs1]

theorem mm_case_quiet_oob (b : Board) (m : Move) (hmid2 : midInv b (mmR2 b m (mmR1 b m)))
    (sF : Fin 64) (pt0 : PieceType)
    (hFcoe : m.fromSq = (sF : Int))
    (hmbF : b.m_board_pieces sF = some (pt0, b.m_turn))
    (hpc0 : b.get_piece_at m.fromSq = some pt0)
    (hcapf : m.is_capture = false) (hdppf : m.is_double_pawn_push = false)
    (hcastf : m.is_castle = false) (hepf : m.is_ep_capture = false)
    (hpromof : m.is_promotion = false)
    (hoob : ¬(0 ≤ m.toSq ∧ m.toSq < 64)) :
    midInv b (mmR4 b m (mmR3 b m (mmR2 b m (mmR1 b m)))) ∧
    (∀ s : Fin 64, (mmR4 b m (mmR3 b m (mmR2 b m (mmR1 b m)))).m_board_pieces s =
      b.mmMailbox m s) := by
  have hmb2 : (mmR2 b m (mmR1 b m)).m_board_pieces = b.m_board_pieces :=
    mmR2_mailbox b m (mmR1 b m)
  have hr3 : mmR3 b m (mmR2 b m (mmR1 b m)) = mmR2 b m (mmR1 b m) := by
    simp only [mmR3]
    rw [hcapf]
    simp only [Bool.false_eq_true, if_false]
    rw [hdppf]
    simp only [Bool.false_eq_true, if_false]
    rw [hcastf]
    simp only [Bool.false_eq_true, if_false]
  have hr4 : mmR4 b m (mmR3 b m (mmR2 b m (mmR1 b m))) =
      (mmR3 b m (mmR2 b m (mmR1 b m))).pop_piece pt0 b.m_turn m.fromSq := by
    simp only [mmR4]
    rw [hpromof]
    simp only [Bool.false_eq_true, if_false]
    rw [hpc0]
    simp only [Option.getD_some]
    unfold move_piece
    rw [set_piece_oob _ _ _ _ hoob]
  have hmbF3 : (mmR3 b m (mmR2 b m (mmR1 b m))).m_board_pieces sF = some (pt0, b.m_turn) := by
    rw [hr3, hmb2]; exact hmbF
  have hmid3 : midInv b (mmR3 b m (mmR2 b m (mmR1 b m))) := by
    rw [hr3]; exact hmid2
  have hsne : ∀ s : Fin 64, ¬((s : Int) = m.toSq) := by
    intro s h
    exact hoob (h ▸ ⟨Int.natCast_nonneg _, by exact_mod_cast s.isLt⟩)
  have hmm : ∀ s : Fin 64, b.mmMailbox m s =
      (if (s : Int) = m.fromSq then none else b.m_board_pieces s) := by
    intro s
    simp only [mmMailbox]
    rw [hpc0, hpromof, hepf, hcastf]
    simp only [Option.getD_some, Bool.false_and, Bool.false_eq_true, if_false]
    by_cases hs1 : (s : Int) = m.fromSq
    · rw [if_pos hs1, if_pos hs1]
    · rw [if_neg hs1, if_neg hs1, if_neg (hsne s)]
  constructor
  · rw [hr4, hFcoe]
    exact midInv_pop_piece b _ _ _ sF hmid3 hmbF3
  · intro s
    rw [hr4, hmm s, hFcoe, pop_piece_mailbox, hr3, hmb2]
    simp only [fin_int_eq]

end Board

namespace Board

theorem legalPiece_kingSafe (b : Board) (pt : PieceType) (m : Move) (occ : Bitboard)
    (h : b.legalPiece pt m occ = true) : b.kingSafeAfter m = true := by
  unfold legalPiece at h
  rw [Bool.and_eq_true] at h
  exact h.2

theorem legalPiece_pawnGeom (b : Board) (m : Move) (occ : Bitboard)
    (h : b.legalPiece PAWN m occ = true) : b.pawnGeom m occ = true := by
  unfold legalPiece at h
  rw [Bool.and_eq_true] at h
  exact h.1

theorem legalPiece_kingGeom (b : Board) (m : Move) (occ : Bitboard)
    (h : b.legalPiece KING m occ = true) : b.kingGeom m occ = true := by
  unfold legalPiece at h
  rw [Bool.and_eq_true] at h
  exact h.1

theorem pawnGeom_promoflag (b : Board) (m : Move) (occ : Bitboard)
    (h : b.pawnGeom m occ = true) :
    m.is_promotion = decide (rankOfSq m.toSq = lastRank b.m_turn) := by
  unfold pawnGeom at h
  rw [Bool.and_eq_true] at h
  exact beq_iff_eq.mp h.1

theorem pawnGeom_dpp (b : Board) (m : Move) (occ : Bitboard)
    (h : b.pawnGeom m occ = true) (hdpp : m.is_double_pawn_push = true) :
    m.toSq = m.fromSq + 2 * pawnDir b.m_turn ∧
    rankOfSq m.fromSq = pawnStartRank b.m_turn ∧
    bbTest occ (m.fromSq + pawnDir b.m_turn) = false ∧
    bbTest occ m.toSq = false := by
  unfold pawnGeom at h
  rw [Bool.and_eq_true] at h
  have h2 := h.2
  rw [if_pos hdpp] at h2
  simp only [Bool.and_eq_true, decide_eq_true_eq, Bool.not_eq_true'] at h2
  exact ⟨h2.1.1.1, h2.1.1.2, h2.1.2, h2.2⟩

theorem kingGeom_castle (b : Board) (m : Move) (occ : Bitboard)
    (h : b.kingGeom m occ = true) (hcast : m.is_castle = true) :
    m.fromSq = kingHome b.m_turn ∧
    m.toSq = castleKingTo (if m.mtype = KINGSIDE_CASTLE then KINGSIDE else QUEENSIDE) b.m_turn ∧
    b.m_castling_rights (if m.mtype = KINGSIDE_CASTLE then KINGSIDE else QUEENSIDE) b.m_turn =
      true ∧
    (∀ z ∈ (match (if m.mtype = KINGSIDE_CASTLE then KINGSIDE else QUEENSIDE : CastleSide) with
      | KINGSIDE => [kingHome b.m_turn + 1, kingHome b.m_turn + 2]
      | QUEENSIDE => [kingHome b.m_turn - 1, kingHome b.m_turn - 2, kingHome b.m_turn - 3]),
      bbTest occ z = false) := by
  unfold kingGeom at h
  rw [if_pos hcast] at h
  simp only [Bool.and_eq_true, decide_eq_true_eq, List.all_eq_true, Bool.not_eq_true'] at h
  exact ⟨h.1.1.1.1, h.1.1.1.2, h.1.1.2, fun z hz => h.1.2 z hz⟩

theorem mb_none_of_tests (b : Board) (hP : b.PiecesOK) (s : Fin 64)
    (hour : b.get_pieces_of b.m_turn s = false)
    (hene : (b.get_pieces s && !(b.get_pieces_of b.m_turn s)) = false) :
    b.m_board_pieces s = none := by
  match hmb : b.m_board_pieces s with
  | none => rfl
  | some pc =>
    exfalso
    have hgp : b.get_pieces s = true := by
      unfold get_pieces
      rw [List.any_eq_true]
      exact ⟨pc, mem_pieceTurnList pc.1 pc.2, by rw [hP pc.1 pc.2 s, hmb]; simp⟩
    rw [hgp, hour] at hene
    simp at hene

theorem mb_none_of_get_pieces (b : Board) (hP : b.PiecesOK) (s : Fin 64)
    (h : b.get_pieces s = false) : b.m_board_pieces s = none := by
  match hmb : b.m_board_pieces s with
  | none => rfl
  | some pc =>
    exfalso
    have hgp : b.get_pieces s = true := by
      unfold get_pieces
      rw [List.any_eq_true]
      exact ⟨pc, mem_pieceTurnList pc.1 pc.2, by rw [hP pc.1 pc.2 s, hmb]; simp⟩
    rw [hgp] at h
    cases h

theorem mb_some_of_bit (b : Board) (hP : b.PiecesOK) (pt : PieceType) (t : Turn) (s : Fin 64)
    (h : b.m_pieces pt t s = true) : b.m_board_pieces s = some (pt, t) := by
  rw [hP pt t s] at h
  exact of_decide_eq_true h

end Board

namespace Board

theorem turn_eq_black (t : Turn) (h : ¬(t = WHITE)) : t = BLACK := by
  cases t <;> simp_all

theorem mm_master (b : Board) (m : Move) (hLB : b.LegalBoard) (hm : b.legal m = true) :
    midInv b (mmR4 b m (mmR3 b m (mmR2 b m (mmR1 b m)))) ∧
    (∀ s : Fin 64, (mmR4 b m (mmR3 b m (mmR2 b m (mmR1 b m)))).m_board_pieces s =
      b.mmMailbox m s) := by
  obtain ⟨hval, hchk, hepOK, hcasOK, hclk⟩ := hLB
  obtain ⟨hchk1, hdis, hmbx, hhash, hphase, hpsq⟩ := is_valid_parts b hval
  have hP : b.PiecesOK := PiecesOK_of_checks b hdis hmbx
  have hmid2 : midInv b (mmR2 b m (mmR1 b m)) :=
    midInv_mmR2 b m _ (midInv_mmR1 b m hP hhash hpsq hphase)
  obtain ⟨hfromne, hepc, hC, hD, hE, hG, hH, pt0, hpc0, hlp⟩ := legal_decompose b m hm
  obtain ⟨hrF1, hrF2⟩ := bbTest_true_range _ _ hC
  obtain ⟨sF, hFcoe⟩ : ∃ s : Fin 64, m.fromSq = (s : Int) :=
    ⟨⟨m.fromSq.toNat, by omega⟩, (Int.toNat_of_nonneg hrF1).symm⟩
  have hCc : b.get_pieces_of b.m_turn sF = true := by
    rw [hFcoe, bbTest_fin] at hC
    exact hC
  obtain ⟨ptF, hmbF0⟩ := (get_pieces_of_iff b hP b.m_turn sF).mp hCc
  have hgpaF : b.get_piece_at m.fromSq = some ptF := by
    rw [hFcoe, get_piece_at_fin, hmbF0]
    rfl
  have hptF : ptF = pt0 := by
    rw [hgpaF] at hpc0
    injection hpc0
  rw [hptF] at hmbF0
  have hmbF : b.m_board_pieces sF = some (pt0, b.m_turn) := hmbF0
  by_cases hcap : m.is_capture = true
  · by_cases hepcap : m.is_ep_capture = true
    · -- en-passant capture
      obtain ⟨hepne, heptoSq⟩ := hepc hepcap
      obtain ⟨hcap', hpromof, hdppf, hcastf⟩ := (mtype_facts m).1 hepcap
      obtain ⟨he1, he2, he3, he4, hpawnV, hepEmpty⟩ := hepOK hepne
      have hup : pawnDir b.m_turn = (if b.m_turn = WHITE then 8 else -8) := by
        cases b.m_turn <;> rfl
      obtain ⟨sT, hTcoe⟩ : ∃ s : Fin 64, m.toSq = (s : Int) :=
        ⟨⟨m.toSq.toNat, by omega⟩, (Int.toNat_of_nonneg (by omega)).symm⟩
      have hz1 : 0 ≤ m.toSq - (if b.m_turn = WHITE then 8 else -8) := by
        rw [← hup, heptoSq]
        exact he3
      have hz2 : m.toSq - (if b.m_turn = WHITE then 8 else -8) < 64 := by
        rw [← hup, heptoSq]
        exact he4
      obtain ⟨sV, hVcoe⟩ : ∃ s : Fin 64,
          m.toSq - (if b.m_turn = WHITE then 8 else -8) = (s : Int) :=
        ⟨⟨(m.toSq - (if b.m_turn = WHITE then 8 else -8)).toNat, by omega⟩,
          (Int.toNat_of_nonneg hz1).symm⟩
      have hVeq : (sV : Int) = b.m_enpassant_square - pawnDir b.m_turn := by
        rw [← hVcoe, ← hup, heptoSq]
      have hmbV : b.m_board_pieces sV = some (PAWN, flipTurn b.m_turn) := by
        apply mb_some_of_bit b hP
        rw [bbTest_of_range _ _ (by omega)] at hpawnV
        have hsv : sV = ⟨(b.m_enpassant_square - pawnDir b.m_turn).toNat, by omega⟩ := by
          apply Fin.ext
          show sV.val = (b.m_enpassant_square - pawnDir b.m_turn).toNat
          have := hVeq
          omega
        rw [hsv]
        exact hpawnV
      have hmbT : b.m_board_pieces sT = none := by
        apply mb_none_of_get_pieces b hP
        rw [bbTest_of_range _ _ (by omega)] at hepEmpty
        have hst : sT = ⟨b.m_enpassant_square.toNat, by omega⟩ := by
          apply Fin.ext
          show sT.val = b.m_enpassant_square.toNat
          have h1 : (sT : Int) = b.m_enpassant_square := by rw [← hTcoe, heptoSq]
          omega
        rw [hst]
        exact hepEmpty
      have hgpatV : b.get_piece_at (m.toSq - (if b.m_turn = WHITE then 8 else -8)) =
          some PAWN := by
        rw [hVcoe, get_piece_at_fin, hmbV]
        rfl
      have hFT : sF ≠ sT := fun h => hfromne (by rw [hFcoe, hTcoe, h])
      have hFV : sF ≠ sV := by
        intro h
        rw [h, hmbV] at hmbF
        injection hmbF with hx
        injection hx with _ hx2
        exact flipTurn_ne b.m_turn hx2
      have hVT : sV ≠ sT := by
        intro h
        rw [h, hmbT] at hmbV
        cases hmbV
      exact mm_case_ep b m hmid2 sF sV sT pt0 hFcoe hTcoe hVcoe hmbF hmbV hmbT hpc0 hgpatV
        hcap hepcap hpromof hcastf hFV hFT hVT
    · -- plain capture
      have hepf : m.is_ep_capture = false := by
        revert hepcap
        cases m.is_ep_capture <;> simp
      have hEt := hE hepf
      rw [hcap] at hEt
      obtain ⟨hrT1, hrT2⟩ := bbTest_true_range _ _ hEt
      obtain ⟨sT, hTcoe⟩ : ∃ s : Fin 64, m.toSq = (s : Int) :=
        ⟨⟨m.toSq.toNat, by omega⟩, (Int.toNat_of_nonneg hrT1).symm⟩
      have hen : (b.get_pieces sT && !(b.get_pieces_of b.m_turn sT)) = true := by
        rw [hTcoe, bbTest_fin] at hEt
        exact hEt
      rw [Bool.and_eq_true, Bool.not_eq_true'] at hen
      obtain ⟨hgpT, hourT⟩ := hen
      rcases hOpt : b.m_board_pieces sT with _ | pcT
      · exact absurd hgpT (by rw [get_pieces_none b hP sT hOpt]; simp)
      · have htv : pcT.2 = flipTurn b.m_turn := by
          apply turn_ne_flip
          intro he
          have : b.get_pieces_of b.m_turn sT = true :=
            (get_pieces_of_iff b hP b.m_turn sT).mpr
              ⟨pcT.1, by rw [hOpt]; exact congrArg some (Prod.ext rfl he)⟩
          rw [this] at hourT
          cases hourT
        have hmbT : b.m_board_pieces sT = some (pcT.1, flipTurn b.m_turn) := by
          rw [hOpt]
          exact congrArg some (Prod.ext rfl htv)
        have hgpatT : b.get_piece_at m.toSq = some pcT.1 := by
          rw [hTcoe, get_piece_at_fin, hOpt]
          rfl
        have hcastf : m.is_castle = false := by
          cases hc : m.is_castle
          · rfl
          · exact absurd hcap (by rw [((mtype_facts m).2.2 hc).1]; simp)
        have hFT : sF ≠ sT := fun h => hfromne (by rw [hFcoe, hTcoe, h])
        exact mm_case_cap b m hmid2 sF sT pt0 pcT.1 hFcoe hTcoe hmbF hmbT hpc0 hgpatT
          hcap hepf hcastf hFT
  · -- non-captures
    have hcapf : m.is_capture = false := by
      revert hcap
      cases m.is_capture <;> simp
    have hepf : m.is_ep_capture = false := by
      cases hc : m.is_ep_capture
      · rfl
      · exact absurd ((mtype_facts m).1 hc).1 (by rw [hcapf]; simp)
    have hEt := hE hepf
    rw [hcapf] at hEt
    by_cases hdpp : m.is_double_pawn_push = true
    · -- double pawn push
      obtain ⟨_, hpromof, hcastf⟩ := (mtype_facts m).2.1 hdpp
      have hpawn : b.get_piece_at m.fromSq = some PAWN := hG (by rw [hdpp]; simp)
      have hpt0 : pt0 = PAWN := by
        rw [hpawn] at hpc0
        injection hpc0 with h
        exact h.symm
      subst hpt0
      have hpg := legalPiece_pawnGeom b m _ hlp
      obtain ⟨htoeq, hstart, hmidocc, htoocc⟩ := pawnGeom_dpp b m _ hpg hdpp
      have hstart' : m.fromSq / 8 = pawnStartRank b.m_turn := hstart
      have hup : pawnDir b.m_turn = (if b.m_turn = WHITE then 8 else -8) := by
        cases b.m_turn <;> rfl
      have hranges : (0 ≤ m.toSq ∧ m.toSq < 64) ∧
          (0 ≤ m.toSq - (if b.m_turn = WHITE then 8 else -8) ∧
            m.toSq - (if b.m_turn = WHITE then 8 else -8) < 64) := by
        by_cases hbt : b.m_turn = WHITE
        · rw [hbt] at hstart' htoeq
          simp only [pawnStartRank, pawnDir] at hstart' htoeq
          rw [if_pos hbt]
          omega
        · have hbt' := turn_eq_black _ hbt
          rw [hbt'] at hstart' htoeq
          simp only [pawnStartRank, pawnDir] at hstart' htoeq
          rw [if_neg hbt]
          omega
      obtain ⟨sT, hTcoe⟩ : ∃ s : Fin 64, m.toSq = (s : Int) :=
        ⟨⟨m.toSq.toNat, by omega⟩, (Int.toNat_of_nonneg hranges.1.1).symm⟩
      have hmbT : b.m_board_pieces sT = none := by
        apply mb_none_of_get_pieces b hP
        rw [hTcoe, bbTest_fin] at htoocc
        exact htoocc
      have hFT : sF ≠ sT := fun h => hfromne (by rw [hFcoe, hTcoe, h])
      exact mm_case_dpp b m hmid2 sF sT PAWN hFcoe hTcoe hmbF hmbT hpc0 hcapf hdpp hepf
        hpromof hcastf hranges.2 hFT
    · have hdppf : m.is_double_pawn_push = false := by
        revert hdpp
        cases m.is_double_pawn_push <;> simp
      by_cases hcast : m.is_castle = true
      · -- castle
        obtain ⟨_, hpromof, _⟩ := (mtype_facts m).2.2 hcast
        have hking : b.get_piece_at m.fromSq = some KING := hH hcast
        have hpt0 : pt0 = KING := by
          rw [hking] at hpc0
          injection hpc0 with h
          exact h.symm
        subst hpt0
        have hkg := legalPiece_kingGeom b m _ hlp
        obtain ⟨hfromEq, htoEq, hright, hempties⟩ := kingGeom_castle b m _ hkg hcast
        have hkh : kingHome b.m_turn = 4 ∨ kingHome b.m_turn = 60 := by
          cases b.m_turn <;> simp [kingHome]
        have hkhb : 4 ≤ kingHome b.m_turn ∧ kingHome b.m_turn ≤ 60 := by
          rcases hkh with h | h <;> omega
        by_cases hks : m.mtype = KINGSIDE_CASTLE
        · rw [if_pos hks] at htoEq hright hempties
          have hct : castleKingTo KINGSIDE b.m_turn = kingHome b.m_turn + 2 := by
            cases b.m_turn <;> rfl
          have hrh : rookHome KINGSIDE b.m_turn = kingHome b.m_turn + 3 := by
            cases b.m_turn <;> rfl
          rw [hct] at htoEq
          have hgt : m.toSq > m.fromSq := by rw [htoEq, hfromEq]; omega
          obtain ⟨sT, hTcoe⟩ : ∃ s : Fin 64, m.toSq = (s : Int) :=
            ⟨⟨m.toSq.toNat, by omega⟩, (Int.toNat_of_nonneg (by omega)).symm⟩
          obtain ⟨sIS, hISval⟩ : ∃ s : Fin 64, (s : Int) = kingHome b.m_turn + 3 :=
            ⟨⟨(kingHome b.m_turn + 3).toNat, by omega⟩, Int.toNat_of_nonneg (by omega)⟩
          obtain ⟨sIE, hIEval⟩ : ∃ s : Fin 64, (s : Int) = kingHome b.m_turn + 1 :=
            ⟨⟨(kingHome b.m_turn + 1).toNat, by omega⟩, Int.toNat_of_nonneg (by omega)⟩
          have hIScoe : m.toSq + (if m.toSq > m.fromSq then 1 else -2) = (sIS : Int) := by
            rw [if_pos hgt, htoEq, hISval]
            ring
          have hIEcoe : m.toSq + (if m.toSq > m.fromSq then -1 else 1) = (sIE : Int) := by
            rw [if_pos hgt, htoEq, hIEval]
            ring
          have hmbIS : b.m_board_pieces sIS = some (ROOK, b.m_turn) := by
            apply mb_some_of_bit b hP
            have := hcasOK KINGSIDE b.m_turn hright
            rw [hrh, bbTest_of_range _ _ (by omega)] at this
            have hfin : (⟨(kingHome b.m_turn + 3).toNat, by omega⟩ : Fin 64) = sIS := by
              apply Fin.ext
              show (kingHome b.m_turn + 3).toNat = sIS.val
              omega
            rw [hfin] at this
            exact this
          have hmbIE : b.m_board_pieces sIE = none := by
            apply mb_none_of_get_pieces b hP
            have := hempties (kingHome b.m_turn + 1) (by simp)
            rw [bbTest_of_range _ _ (by omega)] at this
            have hfin : (⟨(kingHome b.m_turn + 1).toNat, by omega⟩ : Fin 64) = sIE := by
              apply Fin.ext
              show (kingHome b.m_turn + 1).toNat = sIE.val
              omega
            rw [hfin] at this
            exact this
          have hmbT : b.m_board_pieces sT = none := by
            apply mb_none_of_get_pieces b hP
            have := hempties (kingHome b.m_turn + 2) (by simp)
            rw [bbTest_of_range _ _ (by omega)] at this
            have hfin : (⟨(kingHome b.m_turn + 2).toNat, by omega⟩ : Fin 64) = sT := by
              apply Fin.ext
              show (kingHome b.m_turn + 2).toNat = sT.val
              have : (sT : Int) = kingHome b.m_turn + 2 := by rw [← hTcoe, htoEq]
              omega
            rw [hfin] at this
            exact this
          have hFval : (sF : Int) = kingHome b.m_turn := by rw [← hFcoe, hfromEq]
          have hTval : (sT : Int) = kingHome b.m_turn + 2 := by rw [← hTcoe, htoEq]
          have hFT : sF ≠ sT := fun h => by
            rw [h] at hFval
            omega
          have hFIS : sF ≠ sIS := fun h => by
            rw [h, hISval] at hFval
            omega
          have hFIE : sF ≠ sIE := fun h => by
            rw [h, hIEval] at hFval
            omega
          have hTIS : sT ≠ sIS := fun h => by
            rw [h, hISval] at hTval
            omega
          have hTIE : sT ≠ sIE := fun h => by
            rw [h, hIEval] at hTval
            omega
          have hISIE : sIS ≠ sIE := fun h => by
            rw [h, hIEval] at hISval
            omega
          exact mm_case_castle b m hmid2 sF sT sIS sIE hFcoe hTcoe hIScoe hIEcoe
            hmbF hmbT hmbIS hmbIE hking
            hcapf hdppf hcast hpromof hepf hFT hFIS hFIE hTIS hTIE hISIE
        · rw [if_neg hks] at htoEq hright hempties
          have hct : castleKingTo QUEENSIDE b.m_turn = kingHome b.m_turn - 2 := by
            cases b.m_turn <;> rfl
          have hrh : rookHome QUEENSIDE b.m_turn = kingHome b.m_turn - 4 := by
            cases b.m_turn <;> rfl
          rw [hct] at htoEq
          have hgt : ¬(m.toSq > m.fromSq) := by rw [htoEq, hfromEq]; omega
          obtain ⟨sT, hTcoe⟩ : ∃ s : Fin 64, m.toSq = (s : Int) :=
            ⟨⟨m.toSq.toNat, by omega⟩, (Int.toNat_of_nonneg (by omega)).symm⟩
          obtain ⟨sIS, hISval⟩ : ∃ s : Fin 64, (s : Int) = kingHome b.m_turn - 4 :=
            ⟨⟨(kingHome b.m_turn - 4).toNat, by omega⟩, Int.toNat_of_nonneg (by omega)⟩
          obtain ⟨sIE, hIEval⟩ : ∃ s : Fin 64, (s : Int) = kingHome b.m_turn - 1 :=
            ⟨⟨(kingHome b.m_turn - 1).toNat, by omega⟩, Int.toNat_of_nonneg (by omega)⟩
          have hIScoe : m.toSq + (if m.toSq > m.fromSq then 1 else -2) = (sIS : Int) := by
            rw [if_neg hgt, htoEq, hISval]
            ring
          have hIEcoe : m.toSq + (if m.toSq > m.fromSq then -1 else 1) = (sIE : Int) := by
            rw [if_neg hgt, htoEq, hIEval]
            ring
          have hmbIS : b.m_board_pieces sIS = some (ROOK, b.m_turn) := by
            apply mb_some_of_bit b hP
            have := hcasOK QUEENSIDE b.m_turn hright
            rw [hrh, bbTest_of_range _ _ (by omega)] at this
            have hfin : (⟨(kingHome b.m_turn - 4).toNat, by omega⟩ : Fin 64) = sIS := by
              apply Fin.ext
              show (kingHome b.m_turn - 4).toNat = sIS.val
              omega
            rw [hfin] at this
            exact this
          have hmbIE : b.m_board_pieces sIE = none := by
            apply mb_none_of_get_pieces b hP
            have := hempties (kingHome b.m_turn - 1) (by simp)
            rw [bbTest_of_range _ _ (by omega)] at this
            have hfin : (⟨(kingHome b.m_turn - 1).toNat, by omega⟩ : Fin 64) = sIE := by
              apply Fin.ext
              show (kingHome b.m_turn - 1).toNat = sIE.val
              omega
            rw [hfin] at this
            exact this
          have hmbT : b.m_board_pieces sT = none := by
            apply mb_none_of_get_pieces b hP
            have := hempties (kingHome b.m_turn - 2) (by simp)
            rw [bbTest_of_range _ _ (by omega)] at this
            have hfin : (⟨(kingHome b.m_turn - 2).toNat, by omega⟩ : Fin 64) = sT := by
              apply Fin.ext
              show (kingHome b.m_turn - 2).toNat = sT.val
              have : (sT : Int) = kingHome b.m_turn - 2 := by rw [← hTcoe, htoEq]
              omega
            rw [hfin] at this
            exact this
          have hFval : (sF : Int) = kingHome b.m_turn := by rw [← hFcoe, hfromEq]
          have hTval : (sT : Int) = kingHome b.m_turn - 2 := by rw [← hTcoe, htoEq]
          have hFT : sF ≠ sT := fun h => by
            rw [h] at hFval
            omega
          have hFIS : sF ≠ sIS := fun h => by
            rw [h, hISval] at hFval
            omega
          have hFIE : sF ≠ sIE := fun h => by
            rw [h, hIEval] at hFval
            omega
          have hTIS : sT ≠ sIS := fun h => by
            rw [h, hISval] at hTval
            omega
          have hTIE : sT ≠ sIE := fun h => by
            rw [h, hIEval] at hTval
            omega
          have hISIE : sIS ≠ sIE := fun h => by
            rw [h, hIEval] at hISval
            omega
          exact mm_case_castle b m hmid2 sF sT sIS sIE hFcoe hTcoe hIScoe hIEcoe
            hmbF hmbT hmbIS hmbIE hking
            hcapf hdppf hcast hpromof hepf hFT hFIS hFIE hTIS hTIE hISIE
      · -- quiet
        have hcastf : m.is_castle = false := by
          revert hcast
          cases m.is_castle <;> simp
        by_cases hrT : 0 ≤ m.toSq ∧ m.toSq < 64
        · obtain ⟨sT, hTcoe⟩ : ∃ s : Fin 64, m.toSq = (s : Int) :=
            ⟨⟨m.toSq.toNat, by omega⟩, (Int.toNat_of_nonneg hrT.1).symm⟩
          have hmbT : b.m_board_pieces sT = none := by
            apply mb_none_of_tests b hP sT
            · rw [hTcoe, bbTest_fin] at hD
              exact hD
            · rw [hTcoe, bbTest_fin] at hEt
              exact hEt
          have hFT : sF ≠ sT := fun h => hfromne (by rw [hFcoe, hTcoe, h])
          exact mm_case_quiet b m hmid2 sF sT pt0 hFcoe hTcoe hmbF hmbT hpc0
            hcapf hdppf hcastf hepf hFT
        · have hpromof : m.is_promotion = false := by
            cases hpr : m.is_promotion
            · rfl
            · exfalso
              have hpawn : b.get_piece_at m.fromSq = some PAWN := hG (by rw [hpr]; simp)
              have hpt0 : pt0 = PAWN := by
                rw [hpawn] at hpc0
                injection hpc0 with h
                exact h.symm
              have hpg := legalPiece_pawnGeom b m _ (hpt0 ▸ hlp)
              have hflag := pawnGeom_promoflag b m _ hpg
              rw [hpr] at hflag
              have hrank : rankOfSq m.toSq = lastRank b.m_turn :=
                of_decide_eq_true hflag.symm
              have hrank' : m.toSq / 8 = lastRank b.m_turn := hrank
              apply hrT
              by_cases hbt : b.m_turn = WHITE
              · rw [hbt] at hrank'
                simp only [lastRank] at hrank'
                omega
              · rw [turn_eq_black _ hbt] at hrank'
                simp only [lastRank] at hrank'
                omega
          exact mm_case_quiet_oob b m hmid2 sF pt0 hFcoe hmbF hpc0
            hcapf hdppf hcastf hepf hpromof hrT

end Board

namespace Board

theorem make_move_mailbox (b : Board) (m : Move) (hLB : b.LegalBoard) (hm : b.legal m = true) :
    ∀ s : Fin 64, (b.make_move m).m_board_pieces s = b.mmMailbox m s := by
  intro s
  rw [make_move_eq]
  exact (mm_master b m hLB hm).2 s

theorem make_move_PiecesOK (b : Board) (m : Move) (hLB : b.LegalBoard) (hm : b.legal m = true) :
    (b.make_move m).PiecesOK := by
  rw [make_move_eq]
  exact PiecesOK_congr rfl rfl (mm_master b m hLB hm).1.1

theorem makeMove_epOK (b : Board) (m : Move) (hLB : b.LegalBoard) (hm : b.legal m = true) :
    (b.make_move m).epOK := by
  have hPres := make_move_PiecesOK b m hLB hm
  have hmbRes := make_move_mailbox b m hLB hm
  obtain ⟨hval, hchk, hepOK, hcasOK, hclk⟩ := hLB
  obtain ⟨hchk1, hdis, hmbx, hhash, hphase, hpsq⟩ := is_valid_parts b hval
  have hP := PiecesOK_of_checks b hdis hmbx
  obtain ⟨hfromne, hepc, hC, hD, hE, hG, hH, pt0, hpc0, hlp⟩ := legal_decompose b m hm
  intro hepne'
  rw [make_move_ep] at hepne'
  by_cases hdpp : m.is_double_pawn_push = true
  · rw [if_pos hdpp] at hepne'
    obtain ⟨hcapf, hpromof, hcastf⟩ := (mtype_facts m).2.1 hdpp
    have hepf : m.is_ep_capture = false := by
      cases hc : m.is_ep_capture
      · rfl
      · exact absurd ((mtype_facts m).1 hc).1 (by rw [hcapf]; simp)
    have hpawn : b.get_piece_at m.fromSq = some PAWN := hG (by rw [hdpp]; simp)
    have hpt0 : pt0 = PAWN := by
      rw [hpawn] at hpc0
      injection hpc0 with h
      exact h.symm
    subst hpt0
    have hpg := legalPiece_pawnGeom b m _ hlp
    obtain ⟨htoeq, hstart, hmidocc, htoocc⟩ := pawnGeom_dpp b m _ hpg hdpp
    have hstart' : m.fromSq / 8 = pawnStartRank b.m_turn := hstart
    obtain ⟨hrF1, hrF2⟩ := bbTest_true_range _ _ hC
    have hup : pawnDir b.m_turn = (if b.m_turn = WHITE then 8 else -8) := by
      cases b.m_turn <;> rfl
    have hranges : (0 ≤ m.toSq ∧ m.toSq < 64) ∧
        (0 ≤ m.toSq - (if b.m_turn = WHITE then 8 else -8) ∧
          m.toSq - (if b.m_turn = WHITE then 8 else -8) < 64) := by
      by_cases hbt : b.m_turn = WHITE
      · rw [hbt] at hstart' htoeq
        simp only [pawnStartRank, pawnDir] at hstart' htoeq
        rw [if_pos hbt]
        omega
      · have hbt' := turn_eq_black _ hbt
        rw [hbt'] at hstart' htoeq
        simp only [pawnStartRank, pawnDir] at hstart' htoeq
        rw [if_neg hbt]
        omega
    have hepval : (b.make_move m).m_enpassant_square =
        m.toSq - (if b.m_turn = WHITE then 8 else -8) := by
      rw [make_move_ep, if_pos hdpp]
    have hpd : pawnDir (flipTurn b.m_turn) = -(if b.m_turn = WHITE then (8 : Int) else -8) := by
      cases b.m_turn <;> simp [flipTurn, pawnDir]
    have hturnR : (b.make_move m).m_turn = flipTurn b.m_turn := make_move_turn b m
    obtain ⟨sT, hTcoe⟩ : ∃ s : Fin 64, m.toSq = (s : Int) :=
      ⟨⟨m.toSq.toNat, by omega⟩, (Int.toNat_of_nonneg hranges.1.1).symm⟩
    obtain ⟨sM, hMcoe⟩ : ∃ s : Fin 64,
        m.toSq - (if b.m_turn = WHITE then 8 else -8) = (s : Int) :=
      ⟨⟨(m.toSq - (if b.m_turn = WHITE then 8 else -8)).toNat, by omega⟩,
        (Int.toNat_of_nonneg hranges.2.1).symm⟩
    have hsq : (b.make_move m).m_enpassant_square - pawnDir (b.make_move m).m_turn = m.toSq := by
      rw [hepval, hturnR, hpd]
      ring
    have hmmT : b.mmMailbox m sT = some (PAWN, b.m_turn) := by
      simp only [mmMailbox]
      rw [if_neg (by rw [← hTcoe]; exact fun h => hfromne h.symm), if_pos hTcoe.symm, hpawn,
        hpromof]
      simp only [Option.getD_some, Bool.false_eq_true, if_false]
    have hmmM : b.mmMailbox m sM = none := by
      have hMfrom : ¬((sM : Int) = m.fromSq) := by
        rw [← hMcoe]
        by_cases hbt : b.m_turn = WHITE
        · rw [hbt] at htoeq
          simp only [pawnDir] at htoeq
          rw [if_pos hbt]
          omega
        · rw [turn_eq_black _ hbt] at htoeq
          simp only [pawnDir] at htoeq
          rw [if_neg hbt]
          omega
      have hMto : ¬((sM : Int) = m.toSq) := by
        rw [← hMcoe]
        by_cases hbt : b.m_turn = WHITE
        · rw [if_pos hbt]; omega
        · rw [if_neg hbt]; omega
      simp only [mmMailbox]
      rw [if_neg hMfrom, if_neg hMto, hepf, hcastf]
      simp only [Bool.false_and, Bool.false_eq_true, if_false]
      apply mb_none_of_get_pieces b hP
      have hmid' : bbTest b.get_pieces (m.toSq - (if b.m_turn = WHITE then 8 else -8)) =
          false := by
        have heq2 : m.toSq - (if b.m_turn = WHITE then 8 else -8) =
            m.fromSq + pawnDir b.m_turn := by
          rw [← hup]
          rw [htoeq]
          ring
        rw [heq2]
        exact hmidocc
      rw [hMcoe, bbTest_fin] at hmid'
      exact hmid'
    refine ⟨?_, ?_, ?_, ?_, ?_, ?_⟩
    · rw [hepval]; exact hranges.2.1
    · rw [hepval]; exact hranges.2.2
    · rw [hsq]; exact hranges.1.1
    · rw [hsq]; exact hranges.1.2
    · rw [hsq, hturnR, flipTurn_flipTurn, hTcoe, bbTest_fin, hPres PAWN b.m_turn sT,
        hmbRes sT, hmmT]
      simp
    · rw [hepval, hMcoe, bbTest_fin]
      apply get_pieces_none _ hPres
      rw [hmbRes sM, hmmM]
  · have hdppf : m.is_double_pawn_push = false := by
      revert hdpp
      cases m.is_double_pawn_push <;> simp
    rw [hdppf] at hepne'
    simp only [Bool.false_eq_true, if_false] at hepne'
    exact absurd rfl hepne'

end Board

namespace Board

theorem makeMove_castleOK (b : Board) (m : Move) (hLB : b.LegalBoard) (hm : b.legal m = true) :
    (b.make_move m).castleOK := by
  have hPres := make_move_PiecesOK b m hLB hm
  have hmbRes := make_move_mailbox b m hLB hm
  obtain ⟨hval, hchk, hepOK, hcasOK, hclk⟩ := hLB
  obtain ⟨hchk1, hdis, hmbx, hhash, hphase, hpsq⟩ := is_valid_parts b hval
  have hP := PiecesOK_of_checks b hdis hmbx
  obtain ⟨hfromne, hepc, hC, hD, hE, hG, hH, pt0, hpc0, hlp⟩ := legal_decompose b m hm
  intro side t hrt
  rw [make_move_rights] at hrt
  simp only [mmRights] at hrt
  rw [Bool.and_eq_true] at hrt
  obtain ⟨hbrt, hnc⟩ := hrt
  rw [Bool.not_eq_true'] at hnc
  rw [Bool.or_eq_false_iff] at hnc
  obtain ⟨hA, hB⟩ := hnc
  have hrook := hcasOK side t hbrt
  have hhr : 0 ≤ rookHome side t ∧ rookHome side t < 64 := by
    cases side <;> cases t <;> exact (by decide)
  obtain ⟨sH, hHcoe⟩ : ∃ s : Fin 64, rookHome side t = (s : Int) :=
    ⟨⟨(rookHome side t).toNat, by omega⟩, (Int.toNat_of_nonneg hhr.1).symm⟩
  have hbitH : b.m_pieces ROOK t sH = true := by
    rw [hHcoe, bbTest_fin] at hrook
    exact hrook
  have hmbH : b.m_board_pieces sH = some (ROOK, t) := mb_some_of_bit b hP ROOK t sH hbitH
  have hne1 : ¬((sH : Int) = m.fromSq) := by
    intro hc
    rw [← hc, bbTest_fin] at hC
    obtain ⟨pt', hpt'⟩ := (get_pieces_of_iff b hP b.m_turn sH).mp hC
    rw [hmbH] at hpt'
    injection hpt' with h1
    have hteq : t = b.m_turn := (Prod.ext_iff.mp h1).2
    have hpcR : b.get_piece_at m.fromSq = some ROOK := by
      rw [← hc, get_piece_at_fin, hmbH]
      rfl
    have hfr : m.fromSq = rookHome side t := (hHcoe.trans hc).symm
    rw [hpcR] at hA
    simp [hteq, hfr] at hA
  have hne2 : ¬((sH : Int) = m.toSq) := by
    intro hc
    by_cases hteq : t = b.m_turn
    · have hour : b.get_pieces_of b.m_turn sH = true :=
        (get_pieces_of_iff b hP b.m_turn sH).mpr ⟨ROOK, by rw [hmbH, hteq]⟩
      rw [← hc, bbTest_fin, hour] at hD
      cases hD
    · have ht' : t = flipTurn b.m_turn := turn_ne_flip b.m_turn t hteq
      have hcap : m.is_capture = true := by
        by_cases hep : m.is_ep_capture = true
        · exact ((mtype_facts m).1 hep).1
        · have hepf : m.is_ep_capture = false := by
            revert hep
            cases m.is_ep_capture <;> simp
          have hg : b.get_pieces sH = true :=
            (get_pieces_iff b hP sH).mpr (by rw [hmbH]; simp)
          have hno : b.get_pieces_of b.m_turn sH = false := by
            cases hgo : b.get_pieces_of b.m_turn sH
            · rfl
            · obtain ⟨pt', hpt'⟩ := (get_pieces_of_iff b hP b.m_turn sH).mp hgo
              rw [hmbH] at hpt'
              injection hpt' with h1
              exact absurd (Prod.ext_iff.mp h1).2 hteq
          have hEc2 : (b.get_pieces sH && !(b.get_pieces_of b.m_turn sH)) = m.is_capture := by
            rw [← hE hepf, ← hc, bbTest_fin]
          rw [hg, hno] at hEc2
          simp only [Bool.not_false, Bool.and_true] at hEc2
          exact hEc2.symm
      have hto_home : m.toSq = rookHome side t := (hHcoe.trans hc).symm
      rw [hcap, hto_home] at hB
      rw [ht'] at hB
      simp at hB
  have hne3 : ¬((m.is_ep_capture &&
      decide ((sH : Int) = m.toSq - (if b.m_turn = WHITE then (8 : Int) else -8))) = true) := by
    intro hc3
    rw [Bool.and_eq_true, decide_eq_true_eq] at hc3
    obtain ⟨hep, hsq3⟩ := hc3
    obtain ⟨hepn, htoep⟩ := hepc hep
    obtain ⟨he1, he2, he3, he4, he5, he6⟩ := hepOK hepn
    have hup : pawnDir b.m_turn = (if b.m_turn = WHITE then (8 : Int) else -8) := by
      cases b.m_turn <;> rfl
    have hsq3' : b.m_enpassant_square - pawnDir b.m_turn = (sH : Int) := by
      rw [← htoep, hup]
      exact hsq3.symm
    rw [hsq3', bbTest_fin] at he5
    have hmbp := mb_some_of_bit b hP PAWN (flipTurn b.m_turn) sH he5
    rw [hmbH] at hmbp
    injection hmbp with h1
    have hRP : ROOK = PAWN := congrArg Prod.fst h1
    exact absurd hRP (by decide)
  have hne4 : ¬((m.is_castle &&
      decide ((sH : Int) = m.toSq + (if m.toSq > m.fromSq then (1 : Int) else -2))) = true) := by
    intro hc4
    rw [Bool.and_eq_true, decide_eq_true_eq] at hc4
    obtain ⟨hcast, hsq4⟩ := hc4
    have hkg := hH hcast
    have htne : t ≠ b.m_turn := by
      intro hteq
      rw [hkg, hteq] at hA
      simp at hA
    have ht' : t = flipTurn b.m_turn := turn_ne_flip b.m_turn t htne
    have hpk : pt0 = KING := by
      have h2 := hH hcast
      rw [hpc0] at h2
      injection h2
    rw [hpk] at hlp
    obtain ⟨hfromEq, htoEq, hrt0, hemp⟩ :=
      kingGeom_castle b m b.get_pieces (legalPiece_kingGeom b m b.get_pieces hlp) hcast
    have hkey : rookHome side t = m.toSq + (if m.toSq > m.fromSq then (1 : Int) else -2) :=
      hHcoe.trans hsq4
    rw [ht'] at hkey
    by_cases hmt : m.mtype = KINGSIDE_CASTLE
    · rw [if_pos hmt] at htoEq
      by_cases hbt : b.m_turn = WHITE
      · rw [hbt] at hfromEq htoEq hkey
        simp only [flipTurn, castleKingTo, kingHome] at hfromEq htoEq hkey
        cases side <;> norm_num [rookHome, htoEq, hfromEq] at hkey
      · rw [turn_eq_black _ hbt] at hfromEq htoEq hkey
        simp only [flipTurn, castleKingTo, kingHome] at hfromEq htoEq hkey
        cases side <;> norm_num [rookHome, htoEq, hfromEq] at hkey
    · rw [if_neg hmt] at htoEq
      by_cases hbt : b.m_turn = WHITE
      · rw [hbt] at hfromEq htoEq hkey
        simp only [flipTurn, castleKingTo, kingHome] at hfromEq htoEq hkey
        cases side <;> norm_num [rookHome, htoEq, hfromEq] at hkey
      · rw [turn_eq_black _ hbt] at hfromEq htoEq hkey
        simp only [flipTurn, castleKingTo, kingHome] at hfromEq htoEq hkey
        cases side <;> norm_num [rookHome, htoEq, hfromEq] at hkey
  have hne5 : ¬((m.is_castle &&
      decide ((sH : Int) = m.toSq + (if m.toSq > m.fromSq then (-1 : Int) else 1))) = true) := by
    intro hc5
    rw [Bool.and_eq_true, decide_eq_true_eq] at hc5
    obtain ⟨hcast, hsq5⟩ := hc5
    have hkg := hH hcast
    have htne : t ≠ b.m_turn := by
      intro hteq
      rw [hkg, hteq] at hA
      simp at hA
    have ht' : t = flipTurn b.m_turn := turn_ne_flip b.m_turn t htne
    have hpk : pt0 = KING := by
      have h2 := hH hcast
      rw [hpc0] at h2
      injection h2
    rw [hpk] at hlp
    obtain ⟨hfromEq, htoEq, hrt0, hemp⟩ :=
      kingGeom_castle b m b.get_pieces (legalPiece_kingGeom b m b.get_pieces hlp) hcast
    have hkey : rookHome side t = m.toSq + (if m.toSq > m.fromSq then (-1 : Int) else 1) :=
      hHcoe.trans hsq5
    rw [ht'] at hkey
    by_cases hmt : m.mtype = KINGSIDE_CASTLE
    · rw [if_pos hmt] at htoEq
      by_cases hbt : b.m_turn = WHITE
      · rw [hbt] at hfromEq htoEq hkey
        simp only [flipTurn, castleKingTo, kingHome] at hfromEq htoEq hkey
        cases side <;> norm_num [rookHome, htoEq, hfromEq] at hkey
      · rw [turn_eq_black _ hbt] at hfromEq htoEq hkey
        simp only [flipTurn, castleKingTo, kingHome] at hfromEq htoEq hkey
        cases side <;> norm_num [rookHome, htoEq, hfromEq] at hkey
    · rw [if_neg hmt] at htoEq
      by_cases hbt : b.m_turn = WHITE
      · rw [hbt] at hfromEq htoEq hkey
        simp only [flipTurn, castleKingTo, kingHome] at hfromEq htoEq hkey
        cases side <;> norm_num [rookHome, htoEq, hfromEq] at hkey
      · rw [turn_eq_black _ hbt] at hfromEq htoEq hkey
        simp only [flipTurn, castleKingTo, kingHome] at hfromEq htoEq hkey
        cases side <;> norm_num [rookHome, htoEq, hfromEq] at hkey
  rw [hHcoe, bbTest_fin, hPres ROOK t sH, hmbRes sH]
  suffices hmm : b.mmMailbox m sH = some (ROOK, t) by rw [hmm]; simp
  simp only [mmMailbox]
  rw [if_neg hne1, if_neg hne2, if_neg hne3, if_neg hne4, if_neg hne5]
  exact hmbH

end Board

namespace Board

theorem makeMove_legalBoard (b : Board) (m : Move) (hLB : b.LegalBoard)
    (hm : b.legal m = true) : (b.make_move m).LegalBoard := by
  have hepR := makeMove_epOK b m hLB hm
  have hcasR := makeMove_castleOK b m hLB hm
  obtain ⟨hmid4, hmb4⟩ := mm_master b m hLB hm
  obtain ⟨hval, hchk, hepOK, hcasOK, hclk⟩ := hLB
  obtain ⟨hfromne, hepc, hC, hD, hE, hG, hH, pt0, hpc0, hlp⟩ := legal_decompose b m hm
  have hsafe : b.kingSafeAfter m = true := legalPiece_kingSafe b pt0 m b.get_pieces hlp
  refine ⟨?_, ?_, hepR, hcasR, ?_⟩
  · rw [make_move_eq]
    exact mm_final_valid b m _ hmid4 hsafe
  · rw [make_move_eq]
    exact update_checkers_checkersOK _
  · rw [make_move_clock]
    omega

end Board

/-- C1: for every board satisfying the Board invariants (a legal
position) and every move accepted by Board.legal, the board returned by
make_move passes is_valid — pairwise-disjoint piece bitboards agreeing
with the mailbox, stored hash equal to generate_hash, stored PSQ and
phase accumulators equal to their from-scratch recomputations, a safe
king — and its cached checkers equal the recomputation. -/
theorem c1_make_move_valid (b : Board) (m : Move) (hLB : b.LegalBoard)
    (hm : b.legal m = true) :
    (b.make_move m).is_valid = true ∧ (b.make_move m).checkersOK := by
  have h := Board.makeMove_legalBoard b m hLB hm
  exact ⟨h.1, h.2.1⟩

/-- Witness for C1: the double pawn push e2e4 on the start position. -/
theorem c1_make_move_valid_witness :
    startBoard.LegalBoard ∧ startBoard.legal ⟨12, 28, MoveType.DOUBLE_PAWN_PUSH⟩ = true ∧
      ((startBoard.make_move ⟨12, 28, MoveType.DOUBLE_PAWN_PUSH⟩).is_valid = true ∧
        (startBoard.make_move ⟨12, 28, MoveType.DOUBLE_PAWN_PUSH⟩).checkersOK) :=
  ⟨by decide, by decide, c1_make_move_valid startBoard _ (by decide) (by decide)⟩

theorem reachable_legalBoard (b : Board) (h : Reachable b) : b.LegalBoard := by
  induction h with
  | base fen hfen => exact hfen
  | step b' m hr hlm ih => exact Board.makeMove_legalBoard b' m ih hlm

/-- C2: every board reachable from a legal FEN parse by a sequence of
legal make_move calls keeps its incrementally maintained Zobrist key
m_hash equal to the from-scratch recomputation generate_hash. -/
theorem c2_hash_incremental (b : Board) (h : Reachable b) :
    b.m_hash = b.generate_hash := by
  have hLB := reachable_legalBoard b h
  exact (Board.is_valid_parts b hLB.1).2.2.2.1

/-- Witness for C2: the start position parsed from its FEN. -/
theorem c2_hash_incremental_witness : startBoard.m_hash = startBoard.generate_hash :=
  c2_hash_incremental startBoard (Reachable.base startpos_fen (by decide))
